import Mathlib

/-!
# go-rate-limiter: token bucket, in-memory store, cached store

A shallow embedding of `core/token_bucket.go`, `core/inmemory_storer.go`,
`core/cached_storer.go` and `core/rate_limiter.go`.

Modelling conventions
* `time.Time` is an instant counted in nanoseconds from the zero `time.Time`
  (`Time := Int`); the instants of Go span 292 billion years around it, so no instant
  computed here leaves that range. `time.Duration` is an `int64` of nanoseconds
  (`Duration := Int`, the operations that produce one keep it in the range of `int64`):
  `Time.Sub` saturates as in Go.
* `float64` is IEEE 754 binary64 (`Float64`): finite values, the negative zero, the two
  infinities and NaN, every arithmetic operation rounded to nearest, ties to even. The code
  is read as the Go compiler builds it for amd64: no fused multiply-add, and a conversion
  `time.Duration(x)` of a value outside `int64` (or NaN) gives `math.MinInt64`.
* `fmt.Sprintf("%v", t)` of an instant is modelled for instants in UTC without a monotonic
  clock reading (as `time.Date(..., time.UTC)` builds them in the tests).
* A clock (`nowProvider`, `time.Now`) is modelled by passing the value it returns as an
  argument to the operation that reads it.
* A method with a pointer receiver that mutates its receiver returns the new receiver.
* A Go `map[string]V` is an association list with distinct keys; its length is `len`, and
  `range` visits the entries in list order.
-/

namespace RateLimiter

/-! ## `time.Time` and `time.Duration` -/

/-- An instant, in nanoseconds (Go `time.Time`). -/
abbrev Time := Int

/-- A signed span of nanoseconds (Go `time.Duration`, an `int64`). -/
abbrev Duration := Int

/-- Go `math.MinInt64`, the least `time.Duration`. -/
def minDuration : Duration := -9223372036854775808

/-- Go `math.MaxInt64`, the greatest `time.Duration`. -/
def maxDuration : Duration := 9223372036854775807

/-- Go `t.Sub(u)`: the difference, or the least or greatest `Duration` when the difference
does not fit in one (about 292 years). -/
def Time.Sub (t u : Time) : Duration := max minDuration (min maxDuration (t - u))

/-- Go `t.Add(d)`. -/
def Time.Add (t : Time) (d : Duration) : Time := t + d

/-- Go `t.Before(u)`. -/
def Time.Before (t u : Time) : Bool := decide (t < u)

/-- Go `t.After(u)`. -/
def Time.After (t u : Time) : Bool := decide (t > u)

/-- The decimal digits of `n`, most significant first, at least `width` of them. -/
def padDigits (width n : Nat) : List Char :=
  List.replicate (width - (Nat.toDigits 10 n).length) '0' ++ Nat.toDigits 10 n

/-- The year, month and day of the day that lies `days` days after 0001-01-01, in the
proleptic Gregorian calendar (the year 0 is the year before the year 1). -/
def civilDate (days : Int) : Int × Nat × Nat :=
  let z := days + 306
  let era := z / 146097
  let doe := (z % 146097).toNat
  let yoe := (doe - doe / 1460 + doe / 36524 - doe / 146096) / 365
  let doy := doe - (365 * yoe + yoe / 4 - yoe / 100)
  let mp := (5 * doy + 2) / 153
  let day := doy - (153 * mp + 2) / 5 + 1
  let month := if mp < 10 then mp + 3 else mp - 9
  ((yoe : Int) + era * 400 + (if month ≤ 2 then 1 else 0), month, day)

/-- Go `t.String()`, which is what `fmt.Sprintf("%v", t)` prints, for an instant in UTC
without a monotonic clock reading: the layout `2006-01-02 15:04:05.999999999 -0700 MST`,
the fraction of the second without its trailing zeros and left out when it is zero. -/
def Time.String (t : Time) : String :=
  let sec := t / 1000000000
  let nsec := (t % 1000000000).toNat
  let date := civilDate (sec / 86400)
  let sod := (sec % 86400).toNat
  String.mk (
    (if date.1 < 0 then '-' :: padDigits 4 date.1.natAbs else padDigits 4 date.1.natAbs) ++
    '-' :: padDigits 2 date.2.1 ++ '-' :: padDigits 2 date.2.2 ++
    ' ' :: padDigits 2 (sod / 3600) ++ ':' :: padDigits 2 (sod % 3600 / 60) ++
    ':' :: padDigits 2 (sod % 60) ++
    (if nsec = 0 then [] else '.' :: ((padDigits 9 nsec).reverse.dropWhile (· == '0')).reverse) ++
    " +0000 UTC".toList)

/-! ## `float64` -/

/-- A `float64` value: a finite number other than the negative zero, given by the rational
it is (`fin 0` is the positive zero), the negative zero, an infinity, or a NaN. The values
that the operations below produce are binary64 numbers. -/
inductive Float64 where
  | fin (q : ℚ) : Float64
  | negZero : Float64
  | inf (neg : Bool) : Float64
  | nan : Float64
  deriving DecidableEq, Repr

namespace Float64

/-- The integer nearest to `x`, the even one of the two when `x` is half-way. -/
def roundHalfEven (x : ℚ) : Int :=
  if x - ⌊x⌋ < 1 / 2 then ⌊x⌋
  else if 1 / 2 < x - ⌊x⌋ then ⌊x⌋ + 1
  else if ⌊x⌋ % 2 = 0 then ⌊x⌋ else ⌊x⌋ + 1

/-- The number of times `n` can be halved before it is below 2, at most `fuel` times. -/
def log2Aux : Nat → Nat → Nat
  | 0, _ => 0
  | fuel + 1, n => if n < 2 then 0 else log2Aux fuel (n / 2) + 1

/-- The position of the leading binary digit of `n`, `⌊log₂ n⌋` for `n ≥ 1`. -/
def log2 (n : Nat) : Nat := log2Aux n n

/-- The binary exponent of a rational `x ≠ 0`: the `k` with `2 ^ k ≤ |x| < 2 ^ (k + 1)`. -/
def floorLog2 (x : ℚ) : Int :=
  if (2 : ℚ) ^ ((log2 x.num.natAbs : Int) - (log2 x.den : Int)) ≤ |x| then
    (log2 x.num.natAbs : Int) - (log2 x.den : Int)
  else (log2 x.num.natAbs : Int) - (log2 x.den : Int) - 1

/-- The exponent of the unit in the last place of `x` in binary64: 53 binary digits, and
never below `2 ^ (-1074)`, the spacing of the subnormal numbers. -/
def ulpExponent (x : ℚ) : Int := max (floorLog2 x - 52) (-1074)

/-- The zero of the given sign. -/
def zero (neg : Bool) : Float64 := if neg then negZero else fin 0

/-- The binary64 value of the exact result `x`: `x` rounded to the nearest multiple of its
unit in the last place, ties to even; an infinity when the rounded magnitude reaches
`2 ^ 1024`, and a zero with the sign of `x` when it is 0. -/
def round (x : ℚ) : Float64 :=
  if (2 : ℚ) ^ 1024 ≤ |(roundHalfEven (x / 2 ^ ulpExponent x) : ℚ) * 2 ^ ulpExponent x| then
    inf (decide (x < 0))
  else if (roundHalfEven (x / 2 ^ ulpExponent x) : ℚ) * 2 ^ ulpExponent x = 0 then
    zero (decide (x < 0))
  else fin ((roundHalfEven (x / 2 ^ ulpExponent x) : ℚ) * 2 ^ ulpExponent x)

/-- The rational that a finite value is; 0 for the others. -/
def val : Float64 → ℚ
  | fin q => q
  | _ => 0

/-- Go `math.Signbit(x)`. -/
def signbit : Float64 → Bool
  | fin q => decide (q < 0)
  | negZero => true
  | inf neg => neg
  | nan => false

/-- Whether the value is one of the two zeros. -/
def isZero : Float64 → Bool
  | fin q => decide (q = 0)
  | negZero => true
  | _ => false

/-- Go `-x`. -/
def neg : Float64 → Float64
  | fin q => if q = 0 then negZero else fin (-q)
  | negZero => fin 0
  | inf s => inf (!s)
  | nan => nan

/-- Go `x + y`. -/
def add : Float64 → Float64 → Float64
  | nan, _ => nan
  | _, nan => nan
  | inf a, inf b => if a = b then inf a else nan
  | inf a, _ => inf a
  | _, inf b => inf b
  | negZero, y => y
  | x, negZero => x
  | fin a, fin b => if a + b = 0 then fin 0 else round (a + b)

/-- Go `x - y`. -/
def sub (x y : Float64) : Float64 := add x (neg y)

/-- Go `x * y`. -/
def mul : Float64 → Float64 → Float64
  | nan, _ => nan
  | _, nan => nan
  | inf a, y => if y.isZero then nan else inf (xor a y.signbit)
  | x, inf b => if x.isZero then nan else inf (xor x.signbit b)
  | x, y =>
    if x.isZero || y.isZero then zero (xor x.signbit y.signbit) else round (x.val * y.val)

/-- Go `x / y`. -/
def div : Float64 → Float64 → Float64
  | nan, _ => nan
  | _, nan => nan
  | inf _, inf _ => nan
  | inf a, y => inf (xor a y.signbit)
  | x, inf b => zero (xor x.signbit b)
  | x, y =>
    if y.isZero then (if x.isZero then nan else inf (xor x.signbit y.signbit))
    else if x.isZero then zero (xor x.signbit y.signbit)
    else round (x.val / y.val)

/-- Go `x < y`: false when either side is NaN. -/
def lt : Float64 → Float64 → Bool
  | nan, _ => false
  | _, nan => false
  | inf a, inf b => a && !b
  | inf a, _ => a
  | _, inf b => !b
  | x, y => decide (x.val < y.val)

/-- Go `x > y`. -/
def gt (x y : Float64) : Bool := lt y x

/-- Go `x <= y`: false when either side is NaN. -/
def le : Float64 → Float64 → Bool
  | nan, _ => false
  | _, nan => false
  | x, y => !lt y x

/-- Go `math.Min(x, y)`, with its special cases: `-Inf` wins, then NaN, and of two zeros
the negative one. -/
def Min (x y : Float64) : Float64 :=
  if x = inf true ∨ y = inf true then inf true
  else if x = nan ∨ y = nan then nan
  else if x.isZero && y.isZero then (if x.signbit then x else y)
  else if lt x y then x else y

/-- Go `math.Max(x, y)`, with its special cases: `+Inf` wins, then NaN, and of two zeros
the positive one. -/
def Max (x y : Float64) : Float64 :=
  if x = inf false ∨ y = inf false then inf false
  else if x = nan ∨ y = nan then nan
  else if x.isZero && y.isZero then (if x.signbit then y else x)
  else if gt x y then x else y

/-- Go `float64(n)` for an integer `n`. -/
def ofInt (n : Int) : Float64 := round n

/-- A value that is `+Inf` or a finite number `≥ 0` other than the negative zero. -/
def IsNonneg (x : Float64) : Prop := x = inf false ∨ ∃ q : ℚ, 0 ≤ q ∧ x = fin q

end Float64

/-- Go `d.Seconds()`: `float64(d / Second) + float64(d % Second) / 1e9`, the integer division
truncating toward zero. -/
def Duration.Seconds (d : Duration) : Float64 :=
  Float64.add (Float64.ofInt (Int.tdiv d 1000000000))
    (Float64.div (Float64.ofInt (Int.tmod d 1000000000)) (Float64.fin 1000000000))

/-- Go conversion `time.Duration(x)` of a `float64`, as amd64 does it: the fraction is
discarded (truncation toward zero), and a value that does not fit in an `int64`, an infinity
or a NaN gives `math.MinInt64`. -/
def toDuration : Float64 → Duration
  | Float64.fin q =>
    if minDuration ≤ Int.tdiv q.num q.den ∧ Int.tdiv q.num q.den ≤ maxDuration then
      Int.tdiv q.num q.den
    else minDuration
  | Float64.negZero => 0
  | _ => minDuration

/-! ## `core/token_bucket.go` -/

/-- The error values of the package. `Errorf` is `fmt.Errorf(format, arg?, wrapped)` with a
`%w` verb: it keeps the format string, the numeric argument when there is one, and the error
it wraps. -/
inductive Error where
  | errOutOfBoundsRequest : Error
  | ErrMaxSizeReached : Error
  | ErrTooManyRequests (RetryAfter : Duration) : Error
  | backend (msg : String) : Error
  | Errorf (format : String) (arg : Option Float64) (wrapped : Error) : Error
  deriving DecidableEq, Repr

/-- Go `errors.Is(e, target)` for the comparable error values above: walk the `%w` chain. -/
def Error.Is : Error → Error → Bool
  | .Errorf f a w, target => decide (Error.Errorf f a w = target) || Error.Is w target
  | e, target => decide (e = target)

/-- Go `errors.As(e, &ErrTooManyRequests{})`: the first `ErrTooManyRequests` of the chain. -/
def Error.AsTooManyRequests : Error → Option Duration
  | .ErrTooManyRequests d => some d
  | .Errorf _ _ w => Error.AsTooManyRequests w
  | _ => none

/-- The `TokenBucket` struct (without its clock, which is passed to the methods). -/
structure TokenBucket where
  Tokens : Float64
  MaxTokens : Float64
  RefillRate : Float64
  LastRefillTime : Time
  deriving DecidableEq, Repr

namespace TokenBucket

/-- `NewTokenBucket(maxTokens, refillRate)`, the clock reading `now`. -/
def NewTokenBucket (maxTokens refillRate : Float64) (now : Time) : TokenBucket :=
  { Tokens := maxTokens, MaxTokens := maxTokens, RefillRate := refillRate,
    LastRefillTime := now }

/-- `tb.refill()`, the clock reading `now`. -/
def refill (tb : TokenBucket) (now : Time) : TokenBucket :=
  let duration := Time.Sub now tb.LastRefillTime
  let tokensToAdd := Float64.mul tb.RefillRate (Duration.Seconds duration)
  { tb with
    Tokens := Float64.Min (Float64.add tb.Tokens tokensToAdd) tb.MaxTokens
    LastRefillTime := now }

/-- `tb.howMuchToWaitFor(tokens)`. -/
def howMuchToWaitFor (tb : TokenBucket) (tokens : Float64) : Duration :=
  let remainingTokens := Float64.Max (Float64.sub tokens tb.Tokens) (Float64.fin 0)
  let durationSeconds := Float64.div remainingTokens tb.RefillRate
  toDuration (Float64.mul durationSeconds (Float64.fin 1000000000))

/-- `tb.Reserve(tokens)`, the clock reading `now`: the error (`none` is `nil`) and the bucket
after the call. -/
def Reserve (tb : TokenBucket) (now : Time) (tokens : Float64) : Option Error × TokenBucket :=
  if Float64.gt tokens tb.MaxTokens then
    (some (Error.Errorf "can't reserve more than %f tokens:%w" (some tb.MaxTokens)
      Error.errOutOfBoundsRequest), tb)
  else
    let tb1 := tb.refill now
    if Float64.gt tokens tb1.Tokens then
      (some (Error.ErrTooManyRequests (tb1.howMuchToWaitFor tokens)), tb1)
    else
      (none, { tb1 with Tokens := Float64.sub tb1.Tokens tokens })

/-- `tb.ExpireAt()`, the clock reading `now`. -/
def ExpireAt (tb : TokenBucket) (now : Time) : Time :=
  let durationSeconds := tb.howMuchToWaitFor tb.MaxTokens
  Time.Add now durationSeconds

/-- `tb.SortValue()`, the clock reading `now`. -/
def SortValue (tb : TokenBucket) (now : Time) : String :=
  Time.String (tb.ExpireAt now)

/-- A caller that issues `tb.Reserve(n)` for each amount of a list in turn, every call
reading `now` on the clock: the bucket after the last call when every call returned `nil`,
`none` as soon as one call returns an error. -/
def ReserveAll (tb : TokenBucket) (now : Time) : List Float64 → Option TokenBucket
  | [] => some tb
  | n :: ns =>
    match tb.Reserve now n with
    | (none, tb1) => ReserveAll tb1 now ns
    | (some _, _) => none

/-- The level `L` that a refill at `now` computes, in `float64`:
`math.Min(Tokens + RefillRate * now.Sub(LastRefillTime).Seconds(), MaxTokens)`. -/
def level (tb : TokenBucket) (now : Time) : Float64 :=
  Float64.Min (Float64.add tb.Tokens
    (Float64.mul tb.RefillRate (Duration.Seconds (Time.Sub now tb.LastRefillTime))))
    tb.MaxTokens

/-- The level `L = min(max_tokens, tokens + refill_rate·(now − last_refill_time))` as the
specification writes it: in exact arithmetic, the time difference in seconds. -/
def levelExact (tb : TokenBucket) (now : Time) : ℚ :=
  min tb.MaxTokens.val
    (tb.Tokens.val + tb.RefillRate.val * (((now - tb.LastRefillTime : Int) : ℚ) / 1000000000))

end TokenBucket

/-- The `Algorithm` interface for a state type `T`. Each method takes the reading of the
algorithm's own clock; `Reserve` returns the error (`none` is `nil`) and the state after the
call. -/
structure Algorithm (T : Type) where
  Reserve : T → Time → Float64 → Option Error × T
  SortValue : T → Time → String
  ExpireAt : T → Time → Time

/-- `*TokenBucket` implements `Algorithm`. -/
def TokenBucket.algorithm : Algorithm TokenBucket :=
  { Reserve := TokenBucket.Reserve
    SortValue := TokenBucket.SortValue
    ExpireAt := TokenBucket.ExpireAt }

/-- The `AlgorithmStorer` interface, implemented by a store whose state has type `β`:
`Store` returns the pair `(T, error)` and `Load` the pair `(*T, error)` of the Go methods,
each with the state of the store after the call. -/
structure AlgorithmStorer (T β : Type) where
  Store : β → String → T → (T × Option Error) × β
  Load : β → String → (Option T × Option Error) × β

/-- The method `Store` of an `AlgorithmStorer[*V]`, the algorithm being held through a
pointer as in `AlgorithmStorer[*TokenBucket]`: the value returned is a pointer, `none` when
it is nil. -/
structure PointerStorer (V β : Type) where
  Store : β → String → V → (Option V × Option Error) × β

/-- An `AlgorithmStorer` whose `Store` never returns a nil pointer. -/
def AlgorithmStorer.toPointer {V β : Type} (S : AlgorithmStorer V β) : PointerStorer V β :=
  { Store := fun b key alg =>
      ((some (S.Store b key alg).1.1, (S.Store b key alg).1.2), (S.Store b key alg).2) }

/-! ## Go maps with string keys -/

namespace GoMap

/-- Go `v, ok := m[k]`: `none` when `ok` is false. -/
def get {V : Type} : List (String × V) → String → Option V
  | [], _ => none
  | (k', v) :: m, k => if k' = k then some v else get m k

/-- Go `m[k] = v`. -/
def set {V : Type} : List (String × V) → String → V → List (String × V)
  | [], k, v => [(k, v)]
  | (k', v') :: m, k, v => if k' = k then (k, v) :: m else (k', v') :: set m k v

/-- Go `delete(m, k)`. -/
def delete {V : Type} : List (String × V) → String → List (String × V)
  | [], _ => []
  | (k', v') :: m, k => if k' = k then delete m k else (k', v') :: delete m k

/-- Go `len(m)`. -/
def len {V : Type} (m : List (String × V)) : Int := (m.length : Int)

end GoMap

/-! ## `core/inmemory_storer.go` -/

/-- The `InMmemoryStore[T]` struct (the lock is not modelled). -/
structure InMmemoryStore (T : Type) where
  data : List (String × T)
  maxSize : Int

namespace InMmemoryStore

/-- `NewInMemoryStore(maxSize)`. -/
def NewInMemoryStore {T : Type} (maxSize : Int) : InMmemoryStore T :=
  { data := [], maxSize := maxSize }

/-- `m.Load(ctx, key)`. -/
def Load {T : Type} (m : InMmemoryStore T) (key : String) : Option T × Option Error :=
  match GoMap.get m.data key with
  | none => (none, none)
  | some alg => (some alg, none)

/-- `m.Store(ctx, key, alg)`: `algNow` is the reading of the algorithms' clock, `now` the
value of `time.Now()`. Returns the pair `(T, error)` and the store after the call. -/
def Store {T : Type} (A : Algorithm T) (m : InMmemoryStore T) (algNow now : Time)
    (key : String) (alg : T) : (T × Option Error) × InMmemoryStore T :=
  let cached := GoMap.get m.data key
  if cached.isNone && decide (GoMap.len m.data ≥ m.maxSize) then
    ((alg, some Error.ErrMaxSizeReached), m)
  else
    match cached with
    | some c =>
      if decide (A.SortValue c algNow > A.SortValue alg algNow) &&
          Time.Before (A.ExpireAt c algNow) now then
        ((alg, none), m)
      else
        ((alg, none), { m with data := GoMap.set m.data key alg })
    | none => ((alg, none), { m with data := GoMap.set m.data key alg })

/-- `*InMmemoryStore[T]` implements `AlgorithmStorer[T]`, at given clock readings. -/
def storer {T : Type} (A : Algorithm T) (algNow now : Time) :
    AlgorithmStorer T (InMmemoryStore T) :=
  { Store := fun m key alg => Store A m algNow now key alg
    Load := fun m key => (Load m key, m) }

end InMmemoryStore

/-! ## The test double of `dynamodb/dynamodb_store_test.go` -/

/-- The test double `storedItem`, a `time.Time`, for the values that
`newStoredItemAtHour(hour)` builds with `hour < 24`: 3000-01-01 `hour`:00:00 UTC. -/
structure storedItem where
  hour : Nat
  deriving DecidableEq, Repr

/-- Two decimal digits, as the layout element `03` prints them. -/
def storedItem.twoDigits (n : Nat) : String :=
  String.mk [Char.ofNat (48 + n / 10 % 10), Char.ofNat (48 + n % 10)]

/-- The method `s.String()` (named `Format` here, `String` being the type of its result):
`time.Time(s).Format(time.Layout)`, the layout being
`01/02 03:04:05PM '06 -0700` (twelve-hour clock). -/
def storedItem.Format (s : storedItem) : String :=
  "01/01 " ++ storedItem.twoDigits (if s.hour % 12 = 0 then 12 else s.hour % 12) ++ ":00:00" ++
    (if s.hour ≥ 12 then "PM" else "AM") ++ " '00 +0000"

/-- `s.Reserve(tokens)`: always `nil`. -/
def storedItem.Reserve (s : storedItem) (_now : Time) (_tokens : Float64) :
    Option Error × storedItem :=
  (none, s)

/-- `s.SortValue()`: `fmt.Sprintf("%v", s)`, which prints `s.String()`. -/
def storedItem.SortValue (s : storedItem) (_now : Time) : String := storedItem.Format s

/-- `s.ExpireAt()`: the instant itself, 3000-01-01 `hour`:00:00 UTC, in nanoseconds since
the zero `time.Time` (94639276800 seconds lie between it and 3000-01-01 00:00:00 UTC). -/
def storedItem.ExpireAt (s : storedItem) (_now : Time) : Time :=
  (94639276800 + 3600 * (s.hour : Int)) * 1000000000

/-- `storedItem` implements `Algorithm`. -/
def storedItem.algorithm : Algorithm storedItem :=
  { Reserve := storedItem.Reserve
    SortValue := storedItem.SortValue
    ExpireAt := storedItem.ExpireAt }

/-! ## `core/cached_storer.go` -/

/-- The `cachedItem[T]` struct. -/
structure cachedItem (T : Type) where
  alg : T
  sort : String
  lastUsedAt : Time

/-- `newCachedItem(alg, lastUsedAt)`, `algNow` being the reading of the algorithm's clock. -/
def newCachedItem {T : Type} (A : Algorithm T) (algNow : Time) (alg : T) (lastUsedAt : Time) :
    cachedItem T :=
  { alg := alg, sort := A.SortValue alg algNow, lastUsedAt := lastUsedAt }

/-- A call that a `CachedStore` makes on the store it wraps. -/
inductive BackendCall (T : Type) where
  | Store (key : String) (alg : T) : BackendCall T
  | Load (key : String) : BackendCall T

/-- The key that a call on the wrapped store is about. -/
def BackendCall.key {T : Type} : BackendCall T → String
  | BackendCall.Store key _ => key
  | BackendCall.Load key => key

/-- The `CachedStore[T]` struct: `actualStore` is the state of the wrapped store. The lock,
the logger, the context and the ticker are not modelled. -/
structure CachedStore (T β : Type) where
  actualStore : β
  cache : List (String × cachedItem T)
  cacheSize : Int
  cacheDuration : Duration

namespace CachedStore

/-- `store.isExpiredFromCache(item)`: `now` is the reading of `store.nowProvider`, `algNow`
the reading of the algorithm's clock. -/
def isExpiredFromCache {T β : Type} (A : Algorithm T) (store : CachedStore T β)
    (algNow now : Time) (item : cachedItem T) : Bool :=
  Time.After now (A.ExpireAt item.alg algNow) ||
    decide (Time.Sub now item.lastUsedAt > store.cacheDuration)

/-- `store.removeExpiredFromCache()`: the loop over the entries of the cache, deleting the
expired ones; returns `removedSomething` and the store after the call. -/
def removeExpiredFromCache {T β : Type} (A : Algorithm T) (store : CachedStore T β)
    (algNow now : Time) : Bool × CachedStore T β :=
  store.cache.foldl
    (fun (acc : Bool × CachedStore T β) (kv : String × cachedItem T) =>
      if isExpiredFromCache A store algNow now kv.2 then
        (true, { acc.2 with cache := GoMap.delete acc.2.cache kv.1 })
      else acc)
    (false, store)

/-- The expression `store.cache[minKey].lastUsedAt`; a missing key gives the zero value. -/
def lastUsedAtOf {T : Type} (cache : List (String × cachedItem T)) (minKey : String) : Time :=
  match GoMap.get cache minKey with
  | some item => item.lastUsedAt
  | none => 0

/-- `store.removeLastCached()`: the first loop takes the first key visited, the second looks
for an entry last used before the one of `minKey`, and `minKey` is deleted. -/
def removeLastCached {T β : Type} (store : CachedStore T β) : CachedStore T β :=
  let minKey0 : String :=
    match store.cache with
    | [] => ""
    | (key, _) :: _ => key
  let minKey := store.cache.foldl
    (fun (minKey : String) (kv : String × cachedItem T) =>
      if Time.After (lastUsedAtOf store.cache minKey) kv.2.lastUsedAt then kv.1 else minKey)
    minKey0
  { store with cache := GoMap.delete store.cache minKey }

/-- `store.Store(ctx, key, alg)`: `now` is the reading of `store.nowProvider`, `algNow` the
reading of the algorithm's clock, `S` the methods of the wrapped store. Returns the pair
`(T, error)`, the store after the call and the calls made on the wrapped store, in order. -/
def Store {T β : Type} (A : Algorithm T) (S : AlgorithmStorer T β) (store : CachedStore T β)
    (algNow now : Time) (key : String) (alg : T) :
    (T × Option Error) × CachedStore T β × List (BackendCall T) :=
  match GoMap.get store.cache key with
  | some _ =>
    ((alg, none),
      { store with cache := GoMap.set store.cache key (newCachedItem A algNow alg now) }, [])
  | none =>
    let store1 :=
      if GoMap.len store.cache ≥ store.cacheSize then
        let r := removeExpiredFromCache A store algNow now
        if !r.1 then removeLastCached r.2 else r.2
      else store
    let r := S.Store store1.actualStore key alg
    let store2 := { store1 with actualStore := r.2 }
    match r.1.2 with
    | some err =>
      ((r.1.1, some (Error.Errorf "can't store alg: %w" none err)), store2,
        [BackendCall.Store key alg])
    | none =>
      let store3 :=
        if store2.cacheSize > 0 then
          { store2 with cache := GoMap.set store2.cache key (newCachedItem A algNow r.1.1 now) }
        else store2
      ((r.1.1, none), store3, [BackendCall.Store key alg])

/-- `store.Load(ctx, key)`: `now` is the reading of `store.nowProvider`, `algNow` the reading
of the algorithm's clock, `S` the methods of the wrapped store. Returns the pair
`(*T, error)`, the store after the call and the calls made on the wrapped store, in order. -/
def Load {T β : Type} (A : Algorithm T) (S : AlgorithmStorer T β) (store : CachedStore T β)
    (algNow now : Time) (key : String) :
    (Option T × Option Error) × CachedStore T β × List (BackendCall T) :=
  let miss : (Option T × Option Error) × CachedStore T β × List (BackendCall T) :=
    let r := S.Load store.actualStore key
    let store1 := { store with actualStore := r.2 }
    match r.1.2 with
    | some err =>
      ((r.1.1, some (Error.Errorf "can't load alg: %w" none err)), store1,
        [BackendCall.Load key])
    | none =>
      match r.1.1 with
      | none => ((none, none), store1, [BackendCall.Load key])
      | some alg =>
        let store2 :=
          if store1.cacheSize > 0 then
            { store1 with cache := GoMap.set store1.cache key (newCachedItem A algNow alg now) }
          else store1
        ((some alg, none), store2, [BackendCall.Load key])
  match GoMap.get store.cache key with
  | some val =>
    if !isExpiredFromCache A store algNow now val then ((some val.alg, none), store, [])
    else miss
  | none => miss

/-- `store.flushAndRefreshData()`: the sweep of the expired entries, then the loop over the
entries of the cache. Returns the store after the call, the calls made on the wrapped store,
in order, and the errors collected in `errs` (which the Go code only logs). -/
def flushAndRefreshData {T β : Type} (A : Algorithm T) (S : AlgorithmStorer T β)
    (store : CachedStore T β) (algNow now : Time) :
    CachedStore T β × List (BackendCall T) × List Error :=
  let store1 := (removeExpiredFromCache A store algNow now).2
  store1.cache.foldl
    (fun (acc : CachedStore T β × List (BackendCall T) × List Error)
        (kv : String × cachedItem T) =>
      if kv.2.sort ≠ "" then
        let r := S.Store acc.1.actualStore kv.1 kv.2.alg
        let errs := match r.1.2 with
          | some err => acc.2.2 ++ [err]
          | none => acc.2.2
        ({ acc.1 with
            actualStore := r.2
            cache := GoMap.set acc.1.cache kv.1 (newCachedItem A algNow r.1.1 kv.2.lastUsedAt) },
          acc.2.1 ++ [BackendCall.Store kv.1 kv.2.alg], errs)
      else acc)
    (store1, [], [])

/-- `store.Stop()`: the final flush; the cancellation of the ticker is not modelled. -/
def Stop {T β : Type} (A : Algorithm T) (S : AlgorithmStorer T β)
    (store : CachedStore T β) (algNow now : Time) :
    CachedStore T β × List (BackendCall T) × List Error :=
  flushAndRefreshData A S store algNow now

/-- A caller that issues `store.Store(ctx, key, alg)` for each write of a list in turn, a
write being the reading of the algorithm's clock, the reading of `store.nowProvider` and the
value: the store after the last call and the calls made on the wrapped store, in order. -/
def StoreAll {T β : Type} (A : Algorithm T) (S : AlgorithmStorer T β) (key : String) :
    CachedStore T β → List (Time × Time × T) → CachedStore T β × List (BackendCall T)
  | store, [] => (store, [])
  | store, (algNow, now, alg) :: ws =>
    let r := Store A S store algNow now key alg
    let rest := StoreAll A S key r.2.1 ws
    (rest.1, r.2.2 ++ rest.2)

/-- The block of `Store` under the comment `free some space in the cache`, which `Store` has
inline, as a function of the store. -/
def freeSpace {T β : Type} (A : Algorithm T) (store : CachedStore T β) (algNow now : Time) :
    CachedStore T β :=
  if GoMap.len store.cache ≥ store.cacheSize then
    let r := removeExpiredFromCache A store algNow now
    if !r.1 then removeLastCached r.2 else r.2
  else store

/-- The state of the wrapped store once the loop of the flush has passed the entries `l`,
from the state `b`: each entry with a non-empty `sort` is one `Store` call. -/
def flushedStore {T β : Type} (S : AlgorithmStorer T β) : β → List (String × cachedItem T) → β
  | b, [] => b
  | b, kv :: l =>
    if kv.2.sort ≠ "" then flushedStore S (S.Store b kv.1 kv.2.alg).2 l
    else flushedStore S b l

/-- What the specification says the flush makes of the entries `l` that are left after the
sweep, the wrapped store being in state `b`: an entry with a non-empty `sort` becomes
`{returned value, SortValue(returned value), its previous lastUsedAt}`, an entry with an empty
`sort` is left untouched. -/
def flushedEntries {T β : Type} (A : Algorithm T) (S : AlgorithmStorer T β) (algNow : Time) :
    β → List (String × cachedItem T) → List (String × cachedItem T)
  | _, [] => []
  | b, kv :: l =>
    if kv.2.sort ≠ "" then
      (kv.1, newCachedItem A algNow (S.Store b kv.1 kv.2.alg).1.1 kv.2.lastUsedAt) ::
        flushedEntries A S algNow (S.Store b kv.1 kv.2.alg).2 l
    else kv :: flushedEntries A S algNow b l

/-- The errors that the loop of the flush collects in `errs` over the entries `l`, from the
state `b` of the wrapped store: the error of each `Store` call that returns one, in order. -/
def flushedErrors {T β : Type} (S : AlgorithmStorer T β) :
    β → List (String × cachedItem T) → List Error
  | _, [] => []
  | b, kv :: l =>
    if kv.2.sort ≠ "" then
      (S.Store b kv.1 kv.2.alg).1.2.toList ++ flushedErrors S (S.Store b kv.1 kv.2.alg).2 l
    else flushedErrors S b l

/-- A call on a `CachedStore`, with the readings of the algorithm's clock and of
`store.nowProvider`: `Store`, `Load`, or a flush. -/
inductive Call (T : Type) where
  | Store (algNow now : Time) (key : String) (alg : T) : Call T
  | Load (algNow now : Time) (key : String) : Call T
  | Flush (algNow now : Time) : Call T

/-- A caller that issues the calls of a list in turn: the store after the last call, the
calls made on the wrapped store, in order, and what `Store` and `Load` returned, in order
(the value, if any, and the error, if any; a flush returns nothing). -/
def run {T β : Type} (A : Algorithm T) (S : AlgorithmStorer T β) :
    CachedStore T β → List (Call T) →
      CachedStore T β × List (BackendCall T) × List (Option T × Option Error)
  | store, [] => (store, [], [])
  | store, Call.Store algNow now key alg :: calls =>
    ((run A S (Store A S store algNow now key alg).2.1 calls).1,
      (Store A S store algNow now key alg).2.2 ++
        (run A S (Store A S store algNow now key alg).2.1 calls).2.1,
      (some (Store A S store algNow now key alg).1.1, (Store A S store algNow now key alg).1.2) ::
        (run A S (Store A S store algNow now key alg).2.1 calls).2.2)
  | store, Call.Load algNow now key :: calls =>
    ((run A S (Load A S store algNow now key).2.1 calls).1,
      (Load A S store algNow now key).2.2 ++
        (run A S (Load A S store algNow now key).2.1 calls).2.1,
      (Load A S store algNow now key).1 ::
        (run A S (Load A S store algNow now key).2.1 calls).2.2)
  | store, Call.Flush algNow now :: calls =>
    ((run A S (flushAndRefreshData A S store algNow now).1 calls).1,
      (flushAndRefreshData A S store algNow now).2.1 ++
        (run A S (flushAndRefreshData A S store algNow now).1 calls).2.1,
      (run A S (flushAndRefreshData A S store algNow now).1 calls).2.2)

/-- What the specification calls a pass-through, for a list of calls on a wrapped store in
state `b`: each `Store(key, alg)` is one `Store(key, alg)` on the wrapped store and each
`Load(key)` one `Load(key)`, answered with what the wrapped store returns, and a flush does
nothing. Gives the state of the wrapped store after the last call, the calls made on it, in
order, and what the wrapped store returned, in order. -/
def passThrough {T β : Type} (S : AlgorithmStorer T β) :
    β → List (Call T) → β × List (BackendCall T) × List (Option T × Option Error)
  | b, [] => (b, [], [])
  | b, Call.Store _ _ key alg :: calls =>
    ((passThrough S (S.Store b key alg).2 calls).1,
      BackendCall.Store key alg :: (passThrough S (S.Store b key alg).2 calls).2.1,
      (some (S.Store b key alg).1.1, (S.Store b key alg).1.2) ::
        (passThrough S (S.Store b key alg).2 calls).2.2)
  | b, Call.Load _ _ key :: calls =>
    ((passThrough S (S.Load b key).2 calls).1,
      BackendCall.Load key :: (passThrough S (S.Load b key).2 calls).2.1,
      (S.Load b key).1 :: (passThrough S (S.Load b key).2 calls).2.2)
  | b, Call.Flush _ _ :: calls => passThrough S b calls

/-- Whether a returned pair `(value, error)` carries an error, next to its value. -/
def answer {T : Type} (r : Option T × Option Error) : Option T × Bool :=
  (r.1, r.2.isSome)

/-- `NewCachedStore(ctx, logger, actualStore, cacheSize, cacheDuration)`: the cache is an empty
map; the context, the logger and the ticker that `start` launches are not modelled. -/
def NewCachedStore {T β : Type} (actualStore : β) (cacheSize : Int)
    (cacheDuration : Duration) : CachedStore T β :=
  { actualStore := actualStore
    cache := []
    cacheSize := cacheSize
    cacheDuration := cacheDuration }

/-! ### The flush when the algorithm is held through a pointer

With `T = *TokenBucket`, the instantiation of the examples and of `DynamoDbStore`, the value
that the wrapped store returns is a pointer and can be nil. `newCachedItem(updated, ...)`
calls `updated.SortValue()`, which reads the fields of its receiver: on a nil pointer it
panics. The definitions below follow `flushAndRefreshData` with that path; `V` is the type
of the values pointed to, and `none` is the nil pointer. -/

/-- How a call of `flushAndRefreshData` ends: it returns, or it panics; in both cases with
the store as the call leaves it, the calls made on the wrapped store, in order, and the
errors collected in `errs`. -/
inductive FlushOutcome (V β : Type) where
  | returned (store : CachedStore V β) (calls : List (BackendCall V)) (errs : List Error) :
      FlushOutcome V β
  | panicked (store : CachedStore V β) (calls : List (BackendCall V)) (errs : List Error) :
      FlushOutcome V β

/-- Whether the call panicked. -/
def FlushOutcome.isPanic {V β : Type} : FlushOutcome V β → Bool
  | FlushOutcome.returned _ _ _ => false
  | FlushOutcome.panicked _ _ _ => true

/-- The store as the call leaves it. -/
def FlushOutcome.store {V β : Type} : FlushOutcome V β → CachedStore V β
  | FlushOutcome.returned store _ _ => store
  | FlushOutcome.panicked store _ _ => store

/-- The calls made on the wrapped store, in order. -/
def FlushOutcome.calls {V β : Type} : FlushOutcome V β → List (BackendCall V)
  | FlushOutcome.returned _ calls _ => calls
  | FlushOutcome.panicked _ calls _ => calls

/-- The errors collected in `errs`. -/
def FlushOutcome.errs {V β : Type} : FlushOutcome V β → List Error
  | FlushOutcome.returned _ _ errs => errs
  | FlushOutcome.panicked _ _ errs => errs

/-- The loop of `flushAndRefreshData` over the entries `l`, the wrapped store returning
pointers: an entry with a non-empty `sort` is one `Store` call, its error, if any, is
appended to `errs`, and `newCachedItem` panics when the pointer returned is nil; the entries
after it are then not visited. -/
def flushLoop {V β : Type} (A : Algorithm V) (P : PointerStorer V β) (algNow : Time) :
    List (String × cachedItem V) → CachedStore V β → List (BackendCall V) → List Error →
      FlushOutcome V β
  | [], store, calls, errs => FlushOutcome.returned store calls errs
  | kv :: l, store, calls, errs =>
    if kv.2.sort ≠ "" then
      match (P.Store store.actualStore kv.1 kv.2.alg).1.1 with
      | none =>
        FlushOutcome.panicked
          { store with actualStore := (P.Store store.actualStore kv.1 kv.2.alg).2 }
          (calls ++ [BackendCall.Store kv.1 kv.2.alg])
          (match (P.Store store.actualStore kv.1 kv.2.alg).1.2 with
            | some err => errs ++ [err]
            | none => errs)
      | some updated =>
        flushLoop A P algNow l
          { store with
            actualStore := (P.Store store.actualStore kv.1 kv.2.alg).2
            cache := GoMap.set store.cache kv.1 (newCachedItem A algNow updated kv.2.lastUsedAt) }
          (calls ++ [BackendCall.Store kv.1 kv.2.alg])
          (match (P.Store store.actualStore kv.1 kv.2.alg).1.2 with
            | some err => errs ++ [err]
            | none => errs)
    else flushLoop A P algNow l store calls errs

/-- `store.flushAndRefreshData()`, the wrapped store returning pointers: the sweep of the
expired entries, then the loop over the entries of the cache. -/
def flushAndRefreshDataOfPointer {V β : Type} (A : Algorithm V) (P : PointerStorer V β)
    (store : CachedStore V β) (algNow now : Time) : FlushOutcome V β :=
  flushLoop A P algNow (removeExpiredFromCache A store algNow now).2.cache
    (removeExpiredFromCache A store algNow now).2 [] []

end CachedStore

/-- A cached store of size 2 and duration one hour over an empty in-memory store of size 10,
whose cache is full: `"key1"` holds the hour-1 test double, last used at instant 0, and
`"key2"` the hour-2 test double, last used at instant 1. -/
def fixtureFullCachedStore : CachedStore storedItem (InMmemoryStore storedItem) :=
  { actualStore := InMmemoryStore.NewInMemoryStore 10
    cache := [("key1", { alg := ⟨1⟩, sort := storedItem.Format ⟨1⟩, lastUsedAt := 0 }),
      ("key2", { alg := ⟨2⟩, sort := storedItem.Format ⟨2⟩, lastUsedAt := 1 })]
    cacheSize := 2
    cacheDuration := 3600000000000 }

/-- A cached store of size 1 and duration one second with an empty cache, over an in-memory
store of size 10 that holds the hour-1 test double for `"key1"` and the hour-2 test double
for `"key2"`. -/
def fixtureSmallCachedStore : CachedStore storedItem (InMmemoryStore storedItem) :=
  { actualStore := { data := [("key1", ⟨1⟩), ("key2", ⟨2⟩)], maxSize := 10 }
    cache := []
    cacheSize := 1
    cacheDuration := 1000000000 }

/-! ## `dynamodb/dynamodb_store.go` -/

/-- `DynamoDbStore[*TokenBucket].Store` when `UpdateItem` fails with an error that is not a
failed condition check: it returns `defaultVal`, the zero value of `*TokenBucket`, which is
the nil pointer, with the error wrapped (`return defaultVal, fmt.Errorf("can't put item into
dynamodb: %w", err)`). The table is not modelled; `Error.backend` is the error of the
client. -/
def failingDynamoDbStore : PointerStorer TokenBucket Unit :=
  { Store := fun b _ _ =>
      ((none, some (Error.Errorf "can't put item into dynamodb: %w" none
        (Error.backend "UpdateItem"))), b) }

/-- A cached store of size 10 and duration one hour over `failingDynamoDbStore`, whose cache
holds for `"key1"` a bucket of capacity 10 and rate 1 with 9 tokens and for `"key2"` one with
5 tokens, both refilled and last used at 2000-01-01 01:00:00 UTC, cached with the
`SortValue` read at that instant. -/
def fixturePointerCachedStore : CachedStore TokenBucket Unit :=
  { actualStore := ()
    cache := [("key1", newCachedItem TokenBucket.algorithm 63082285200000000000
        ⟨.fin 9, .fin 10, .fin 1, 63082285200000000000⟩ 63082285200000000000),
      ("key2", newCachedItem TokenBucket.algorithm 63082285200000000000
        ⟨.fin 5, .fin 10, .fin 1, 63082285200000000000⟩ 63082285200000000000)]
    cacheSize := 10
    cacheDuration := 3600000000000 }

/-! ## `core/rate_limiter.go` -/

set_option linter.dupNamespace false

/-- The `RateLimiter[alg]` struct: the methods of the store and the factory `new`, which is
given the reading of the clock that the algorithm it builds starts from. -/
structure RateLimiter (T β : Type) where
  algStorer : AlgorithmStorer T β
  new : Time → T

/-- A step that `RateLimiter.Reserve` takes: a call on the store, on the factory or on the
algorithm. -/
inductive RateLimiterCall (T : Type) where
  | Load (key : String) : RateLimiterCall T
  | New : RateLimiterCall T
  | Reserve (alg : T) (tokens : Float64) : RateLimiterCall T
  | Store (key : String) (alg : T) : RateLimiterCall T

/-- Whether a step is a `Store` call on the store. -/
def RateLimiterCall.isStore {T : Type} : RateLimiterCall T → Bool
  | RateLimiterCall.Store _ _ => true
  | _ => false

namespace RateLimiter

/-- `r.loadAlgorithm(ctx, key)` on the state `b` of the store: the algorithm or the error
(with which Go returns the zero value of the algorithm, which the caller does not read), the
state of the store after the call and the steps taken. The algorithm is a value: a store
that hands out a pointer into its own state is not modelled. -/
def loadAlgorithm {T β : Type} (r : RateLimiter T β) (b : β) (algNow : Time) (key : String) :
    Except Error T × β × List (RateLimiterCall T) :=
  let l := r.algStorer.Load b key
  match l.1.2 with
  | some err =>
    (Except.error (Error.Errorf "can't load data from key: %w" none err), l.2,
      [RateLimiterCall.Load key])
  | none =>
    match l.1.1 with
    | none => (Except.ok (r.new algNow), l.2, [RateLimiterCall.Load key, RateLimiterCall.New])
    | some algorithm => (Except.ok algorithm, l.2, [RateLimiterCall.Load key])

/-- `r.Reserve(ctx, key, tokens)` on the state `b` of the store, `algNow` being the reading of
the algorithm's clock: the error (`none` is `nil`), the state of the store after the call and
the steps taken, in order. -/
def Reserve {T β : Type} (A : Algorithm T) (r : RateLimiter T β) (b : β) (algNow : Time)
    (key : String) (tokens : Float64) : Option Error × β × List (RateLimiterCall T) :=
  let l := loadAlgorithm r b algNow key
  match l.1 with
  | Except.error err => (some err, l.2.1, l.2.2)
  | Except.ok algorithm =>
    let res := A.Reserve algorithm algNow tokens
    match res.1 with
    | some err =>
      (some (Error.Errorf "can't reserve that capacity: %w" none err), l.2.1,
        l.2.2 ++ [RateLimiterCall.Reserve algorithm tokens])
    | none =>
      let st := r.algStorer.Store l.2.1 key res.2
      match st.1.2 with
      | some err =>
        (some (Error.Errorf "can't store key status: %w" none err), st.2,
          l.2.2 ++ [RateLimiterCall.Reserve algorithm tokens, RateLimiterCall.Store key res.2])
      | none =>
        (none, st.2,
          l.2.2 ++ [RateLimiterCall.Reserve algorithm tokens, RateLimiterCall.Store key res.2])

end RateLimiter

/-- A cached store of size 10 and duration one second over an in-memory store of size 10,
whose cache holds the hour-1 test double for `"key1"`, last used at instant 0. -/
def fixtureCachedStore : CachedStore storedItem (InMmemoryStore storedItem) :=
  { actualStore := InMmemoryStore.NewInMemoryStore 10
    cache := [("key1", { alg := ⟨1⟩, sort := storedItem.Format ⟨1⟩, lastUsedAt := 0 })]
    cacheSize := 10
    cacheDuration := 1000000000 }

/-- A cached store of size 10 and duration one second over an empty in-memory store of size
10, with an empty cache. -/
def fixtureEmptyCachedStore : CachedStore storedItem (InMmemoryStore storedItem) :=
  { actualStore := InMmemoryStore.NewInMemoryStore 10
    cache := []
    cacheSize := 10
    cacheDuration := 1000000000 }

/-- A rate limiter over an in-memory store of token buckets, all clocks reading instant 0,
whose factory builds buckets of capacity 10 and rate 1. -/
def fixtureRateLimiter : RateLimiter TokenBucket (InMmemoryStore TokenBucket) :=
  { algStorer := InMmemoryStore.storer TokenBucket.algorithm 0 0
    new := fun now => TokenBucket.NewTokenBucket (Float64.fin 10) (Float64.fin 1) now }

/-! ## Callers that issue sequences of calls -/

/-- A caller that issues `tb.Reserve(n)` for each call of a list in turn, a call being the
clock reading and the amount: the bucket after the last call and the sum of the amounts of
the calls that returned `nil`. -/
def TokenBucket.ReserveSeq (tb : TokenBucket) : List (Time × Float64) → TokenBucket × ℚ
  | [] => (tb, 0)
  | (now, n) :: calls =>
    ((TokenBucket.ReserveSeq (tb.Reserve now n).2 calls).1,
      (if (tb.Reserve now n).1 = none then n.val else 0) +
        (TokenBucket.ReserveSeq (tb.Reserve now n).2 calls).2)

/-- A call on an `InMmemoryStore`: `Store` with the two clock readings, or `Load`. -/
inductive InMmemoryStore.Call (T : Type) where
  | Store (algNow now : Time) (key : String) (alg : T) : InMmemoryStore.Call T
  | Load (key : String) : InMmemoryStore.Call T

/-- A caller that issues the calls of a list in turn: the store after the last call. `Load`
leaves the store as it is. -/
def InMmemoryStore.run {T : Type} (A : Algorithm T) :
    InMmemoryStore T → List (InMmemoryStore.Call T) → InMmemoryStore T
  | m, [] => m
  | m, InMmemoryStore.Call.Store algNow now key alg :: calls =>
    InMmemoryStore.run A (InMmemoryStore.Store A m algNow now key alg).2 calls
  | m, InMmemoryStore.Call.Load _ :: calls => InMmemoryStore.run A m calls

/-! ## Theorems: `float64` -/

namespace Float64

/-- The halving count never overshoots: `2 ^ log2Aux fuel n ≤ n` for `n ≥ 1`. -/
theorem two_pow_log2Aux_le (fuel : Nat) : ∀ n : Nat, 1 ≤ n → 2 ^ log2Aux fuel n ≤ n := by
  induction fuel with
  | zero => intro n hn; simpa [log2Aux] using hn
  | succ fuel ih =>
    intro n hn
    unfold log2Aux
    by_cases h : n < 2
    · rw [if_pos h]; simpa using hn
    · rw [if_neg h]
      have h2 : 1 ≤ n / 2 := by omega
      have := ih (n / 2) h2
      rw [pow_succ]
      omega

/-- The nearest integer to an integer is that integer. -/
theorem roundHalfEven_intCast (m : Int) : roundHalfEven (m : ℚ) = m := by
  unfold roundHalfEven
  simp

/-- A natural number below `2 ^ 53` is a binary64 value: rounding leaves it as it is. -/
theorem round_natCast (n : Nat) (h0 : 0 < n) (hn : n < 2 ^ 53) :
    round (n : ℚ) = fin (n : ℚ) := by
  have hnum : ((n : ℚ)).num.natAbs = n := by simp
  have hden : ((n : ℚ)).den = 1 := by simp
  have hl1 : log2 1 = 0 := by decide
  have hle : 2 ^ log2 n ≤ n := two_pow_log2Aux_le n n h0
  have hlog : log2 n ≤ 52 := by
    by_contra hcon
    have h53 : 53 ≤ log2 n := by omega
    have : 2 ^ 53 ≤ 2 ^ log2 n := Nat.pow_le_pow_right (by norm_num) h53
    omega
  have hfl : floorLog2 (n : ℚ) = (log2 n : Int) := by
    unfold floorLog2
    rw [hnum, hden, hl1]
    simp only [Nat.cast_zero, sub_zero]
    rw [if_pos]
    rw [zpow_natCast, abs_of_nonneg (by positivity)]
    exact_mod_cast hle
  have hulp : ulpExponent (n : ℚ) = -((52 - log2 n : Nat) : Int) := by
    unfold ulpExponent
    rw [hfl]
    omega
  have hq : (n : ℚ) / 2 ^ ulpExponent (n : ℚ) = ((n * 2 ^ (52 - log2 n) : Nat) : Int) := by
    rw [hulp, zpow_neg, zpow_natCast]
    push_cast
    field_simp
  have hr : (roundHalfEven ((n : ℚ) / 2 ^ ulpExponent (n : ℚ)) : ℚ) * 2 ^ ulpExponent (n : ℚ) =
      (n : ℚ) := by
    rw [hq, roundHalfEven_intCast, hulp, zpow_neg, zpow_natCast]
    push_cast
    field_simp
  unfold round
  rw [hr]
  have hpos : (0 : ℚ) < n := by exact_mod_cast h0
  have hlt : ¬ (2 : ℚ) ^ 1024 ≤ |(n : ℚ)| := by
    rw [abs_of_pos hpos, not_le]
    have h1 : (n : ℚ) < 2 ^ 53 := by exact_mod_cast hn
    have h2 : (2 : ℚ) ^ 53 ≤ 2 ^ 1024 := by
      apply pow_le_pow_right₀ <;> norm_num
    linarith
  rw [if_neg hlt, if_neg hpos.ne']

/-- Rounding 0 gives the positive zero. -/
theorem round_zero : round 0 = fin 0 := by decide!

/-- A natural number below `2 ^ 53`, zero included, is left as it is by rounding. -/
theorem round_natCast_lt (n : Nat) (hn : n < 2 ^ 53) : round (n : ℚ) = fin (n : ℚ) := by
  rcases Nat.eq_zero_or_pos n with h | h
  · subst h
    simpa using round_zero
  · exact round_natCast n h hn

/-- The conversion to `float64` of a natural number below `2 ^ 53` is exact. -/
theorem ofInt_natCast (n : Nat) (hn : n < 2 ^ 53) : ofInt (n : Int) = fin (n : ℚ) := by
  unfold ofInt
  rw [Int.cast_natCast]
  exact round_natCast_lt n hn

/-- The sum of two natural numbers is exact when it is below `2 ^ 53`. -/
theorem add_natCast (a b : Nat) (h : a + b < 2 ^ 53) :
    add (fin (a : ℚ)) (fin (b : ℚ)) = fin ((a + b : Nat) : ℚ) := by
  show (if (a : ℚ) + (b : ℚ) = 0 then fin 0 else round ((a : ℚ) + (b : ℚ))) = _
  have e : (a : ℚ) + (b : ℚ) = ((a + b : Nat) : ℚ) := by push_cast; ring
  rw [e]
  by_cases h0 : ((a + b : Nat) : ℚ) = 0
  · rw [if_pos h0, h0]
  · rw [if_neg h0]
    exact round_natCast_lt _ h

/-- The difference of two natural numbers below `2 ^ 53`, the second at most the first, is
exact. -/
theorem sub_natCast (a b : Nat) (ha : a < 2 ^ 53) (hb : b ≤ a) :
    sub (fin (a : ℚ)) (fin (b : ℚ)) = fin ((a - b : Nat) : ℚ) := by
  have hneg : neg (fin (b : ℚ)) = if (b : ℚ) = 0 then negZero else fin (-(b : ℚ)) := rfl
  unfold sub
  rw [hneg]
  by_cases hb0 : (b : ℚ) = 0
  · rw [if_pos hb0]
    have : b = 0 := by exact_mod_cast hb0
    subst this
    rfl
  · rw [if_neg hb0]
    show (if (a : ℚ) + -(b : ℚ) = 0 then fin 0 else round ((a : ℚ) + -(b : ℚ))) = _
    have e : (a : ℚ) + -(b : ℚ) = ((a - b : Nat) : ℚ) := by
      rw [Nat.cast_sub hb]; ring
    rw [e]
    by_cases h0 : ((a - b : Nat) : ℚ) = 0
    · rw [if_pos h0, h0]
    · rw [if_neg h0]
      exact round_natCast_lt _ (by omega)

/-- The product of two natural numbers is exact when it is below `2 ^ 53`. -/
theorem mul_natCast (a b : Nat) (h : a * b < 2 ^ 53) :
    mul (fin (a : ℚ)) (fin (b : ℚ)) = fin ((a * b : Nat) : ℚ) := by
  show (if (fin (a : ℚ)).isZero || (fin (b : ℚ)).isZero then
      zero (xor (fin (a : ℚ)).signbit (fin (b : ℚ)).signbit)
    else round ((a : ℚ) * (b : ℚ))) = _
  have sa : (fin (a : ℚ)).signbit = false := by simp [signbit]
  have sb : (fin (b : ℚ)).signbit = false := by simp [signbit]
  rw [sa, sb]
  by_cases hz : a = 0 ∨ b = 0
  · have : ((fin (a : ℚ)).isZero || (fin (b : ℚ)).isZero) = true := by
      rcases hz with h0 | h0 <;> simp [isZero, h0]
    rw [if_pos this]
    have : a * b = 0 := by rcases hz with h0 | h0 <;> simp [h0]
    rw [this]
    simp [zero]
  · push_neg at hz
    have : ((fin (a : ℚ)).isZero || (fin (b : ℚ)).isZero) = false := by
      simp [isZero, hz.1, hz.2]
    rw [this]
    simp only [Bool.false_eq_true, if_false]
    have e : (a : ℚ) * (b : ℚ) = ((a * b : Nat) : ℚ) := by push_cast; ring
    rw [e]
    exact round_natCast_lt _ h

/-- The comparison of two natural numbers. -/
theorem gt_natCast (a b : Nat) : gt (fin (a : ℚ)) (fin (b : ℚ)) = decide (b < a) := by
  show decide ((b : ℚ) < (a : ℚ)) = _
  simp

/-- The lesser of two natural numbers. -/
theorem Min_natCast (a b : Nat) :
    Min (fin (a : ℚ)) (fin (b : ℚ)) = fin ((min a b : Nat) : ℚ) := by
  unfold Min
  rw [if_neg (by simp), if_neg (by simp)]
  by_cases hz : a = 0 ∧ b = 0
  · obtain ⟨rfl, rfl⟩ := hz
    simp [isZero, signbit]
  · have : ((fin (a : ℚ)).isZero && (fin (b : ℚ)).isZero) = false := by
      simp only [isZero, Bool.and_eq_false_imp, decide_eq_true_eq, decide_eq_false_iff_not]
      intro ha hb
      exact hz ⟨by exact_mod_cast ha, by exact_mod_cast hb⟩
    rw [this]
    simp only [Bool.false_eq_true, if_false]
    have hlt : lt (fin (a : ℚ)) (fin (b : ℚ)) = decide (a < b) := by
      show decide ((a : ℚ) < (b : ℚ)) = _
      simp
    rw [hlt]
    by_cases hab : a < b
    · simp [hab, min_eq_left hab.le]
    · simp [hab, min_eq_right (not_lt.mp hab)]

/-- The nearest integer to a number `≥ 0` is `≥ 0`. -/
theorem roundHalfEven_nonneg (x : ℚ) (hx : 0 ≤ x) : 0 ≤ roundHalfEven x := by
  have hf : (0 : Int) ≤ ⌊x⌋ := Int.floor_nonneg.mpr hx
  unfold roundHalfEven
  split_ifs <;> omega

/-- Rounding a number `≥ 0` gives `+Inf` or a finite number `≥ 0`. -/
theorem round_isNonneg (x : ℚ) (hx : 0 ≤ x) : IsNonneg (round x) := by
  have hd : decide (x < 0) = false := by simpa using hx
  unfold round
  rw [hd]
  split_ifs with h1 h2
  · exact Or.inl rfl
  · exact Or.inr ⟨0, le_refl _, rfl⟩
  · refine Or.inr ⟨_, ?_, rfl⟩
    apply mul_nonneg
    · exact_mod_cast roundHalfEven_nonneg _ (div_nonneg hx (by positivity))
    · positivity

/-- A value that is not negative is not a NaN. -/
theorem IsNonneg.ne_nan {x : Float64} (h : IsNonneg x) : x ≠ nan := by
  rcases h with rfl | ⟨q, _, rfl⟩ <;> simp

/-- The sum of two values that are not negative is not negative. -/
theorem add_isNonneg {x y : Float64} (hx : IsNonneg x) (hy : IsNonneg y) :
    IsNonneg (add x y) := by
  rcases hx with rfl | ⟨a, ha, rfl⟩ <;> rcases hy with rfl | ⟨b, hb, rfl⟩
  · exact Or.inl rfl
  · exact Or.inl rfl
  · exact Or.inl rfl
  · show IsNonneg (if a + b = 0 then fin 0 else round (a + b))
    split_ifs
    · exact Or.inr ⟨0, le_refl _, rfl⟩
    · exact round_isNonneg _ (add_nonneg ha hb)

/-- The product of a finite number `> 0` and a value that is not negative is not
negative. -/
theorem mul_isNonneg (r : ℚ) (hr : 0 < r) {y : Float64} (hy : IsNonneg y) :
    IsNonneg (mul (fin r) y) := by
  rcases hy with rfl | ⟨b, hb, rfl⟩
  · show IsNonneg (if (fin r).isZero then nan else inf (xor (fin r).signbit false))
    simp [isZero, signbit, hr.ne', hr.le, IsNonneg]
  · show IsNonneg (if (fin r).isZero || (fin b).isZero then
        zero (xor (fin r).signbit (fin b).signbit) else round (r * b))
    have sr : (fin r).signbit = false := by simp [signbit, hr.le]
    have sb : (fin b).signbit = false := by simp [signbit, hb]
    rw [sr, sb]
    split_ifs
    · exact Or.inr ⟨0, le_refl _, rfl⟩
    · exact round_isNonneg _ (mul_nonneg hr.le hb)

/-- The quotient of a value that is not negative by a finite number `> 0` is not
negative. -/
theorem div_isNonneg {x : Float64} (hx : IsNonneg x) (c : ℚ) (hc : 0 < c) :
    IsNonneg (div x (fin c)) := by
  rcases hx with rfl | ⟨a, ha, rfl⟩
  · show IsNonneg (inf (xor false (fin c).signbit))
    simp [signbit, hc.le, IsNonneg]
  · show IsNonneg (if (fin c).isZero then
        (if (fin a).isZero then nan else inf (xor (fin a).signbit (fin c).signbit))
      else if (fin a).isZero then zero (xor (fin a).signbit (fin c).signbit)
      else round (a / c))
    have hz : (fin c).isZero = false := by simp [isZero, hc.ne']
    rw [hz]
    simp only [Bool.false_eq_true, if_false]
    have sa : (fin a).signbit = false := by simp [signbit, ha]
    have sc : (fin c).signbit = false := by simp [signbit, hc.le]
    rw [sa, sc]
    split_ifs
    · exact Or.inr ⟨0, le_refl _, rfl⟩
    · exact round_isNonneg _ (div_nonneg ha hc.le)

/-- The values `x` with `0 ≤ x`: the finite numbers `≥ 0`, the negative zero and `+Inf`. -/
theorem le_zero_iff (x : Float64) :
    le (fin 0) x = true ↔ x = negZero ∨ IsNonneg x := by
  cases x with
  | fin q => simp [le, lt, val, IsNonneg]
  | negZero => simp [le, lt, val]
  | inf b => cases b <;> simp [le, lt, IsNonneg]
  | nan => simp [le, IsNonneg]

/-- The values `x` with `0 < x`: the finite numbers `> 0` and `+Inf`. -/
theorem lt_zero_iff (x : Float64) :
    lt (fin 0) x = true ↔ x = inf false ∨ ∃ q : ℚ, 0 < q ∧ x = fin q := by
  cases x with
  | fin q => simp [lt, val]
  | negZero => simp [lt, val]
  | inf b => cases b <;> simp [lt]
  | nan => simp [lt]

/-- The sum of a value `x` with `0 ≤ x` and a value that is not negative is not negative. -/
theorem add_isNonneg_of_le {x y : Float64} (hx : le (fin 0) x = true) (hy : IsNonneg y) :
    IsNonneg (add x y) := by
  rcases (le_zero_iff x).mp hx with rfl | hx'
  · rcases hy with rfl | ⟨b, hb, rfl⟩
    · exact Or.inl rfl
    · exact Or.inr ⟨b, hb, rfl⟩
  · exact add_isNonneg hx' hy

/-- `math.Min` of two values that are not NaN is not NaN. -/
theorem Min_ne_nan {x y : Float64} (hx : x ≠ nan) (hy : y ≠ nan) : Min x y ≠ nan := by
  unfold Min
  split_ifs <;> simp_all

/-- `x ≤ y` is the negation of `x > y` when neither is NaN. -/
theorem le_eq_not_gt {x y : Float64} (hx : x ≠ nan) (hy : y ≠ nan) :
    le x y = !gt x y := by
  cases x <;> cases y <;> simp_all [le, gt]

/-- `x ≤ y` excludes `x > y`. -/
theorem gt_of_le {x y : Float64} (h : le x y = true) : gt x y = false := by
  cases x <;> cases y <;> simp_all [le, gt]

/-- A value `x` with `0 ≤ x` is not NaN. -/
theorem ne_nan_of_le {x y : Float64} (h : le x y = true) : y ≠ nan := by
  cases x <;> cases y <;> simp_all [le]

/-- `math.Min(x, y) ≤ y` when neither is NaN. -/
theorem Min_le_right {x y : Float64} (hx : x ≠ nan) (hy : y ≠ nan) :
    le (Min x y) y = true := by
  unfold Min
  by_cases h1 : x = inf true ∨ y = inf true
  · rw [if_pos h1]
    cases y with
    | fin q => simp [le, lt]
    | negZero => simp [le, lt]
    | inf b => simp [le, lt]
    | nan => exact absurd rfl hy
  · rw [if_neg h1, if_neg (by simp [hx, hy])]
    push_neg at h1
    by_cases hz : (x.isZero && y.isZero) = true
    · rw [if_pos hz]
      simp only [Bool.and_eq_true] at hz
      cases x <;> cases y <;> simp_all [isZero, signbit, le, lt, val]
    · rw [if_neg hz]
      by_cases hlt : lt x y = true
      · rw [if_pos hlt]
        cases x <;> cases y <;> simp_all [le, lt, val] <;> linarith
      · rw [if_neg hlt]
        cases y <;> simp_all [le, lt, val]

/-- `math.Min` of two values that are not negative is not negative. -/
theorem Min_isNonneg {x y : Float64} (hx : IsNonneg x) (hy : IsNonneg y) :
    IsNonneg (Min x y) := by
  have hx1 : x ≠ inf true := by rcases hx with rfl | ⟨q, _, rfl⟩ <;> simp
  have hy1 : y ≠ inf true := by rcases hy with rfl | ⟨q, _, rfl⟩ <;> simp
  unfold Min
  rw [if_neg (by simp [hx1, hy1]), if_neg (by simp [hx.ne_nan, hy.ne_nan])]
  split_ifs <;> assumption

/-- `math.Min(x, y)` is never above `y`. -/
theorem gt_Min_right (x y : Float64) : gt (Min x y) y = false := by
  unfold Min
  by_cases h1 : x = inf true ∨ y = inf true
  · rw [if_pos h1]
    cases y <;> simp [gt, lt]
  · rw [if_neg h1]
    by_cases h2 : x = nan ∨ y = nan
    · rw [if_pos h2]
      cases y <;> simp [gt, lt]
    · rw [if_neg h2]
      push_neg at h1 h2
      by_cases hz : (x.isZero && y.isZero) = true
      · rw [if_pos hz]
        simp only [Bool.and_eq_true] at hz
        cases x <;> cases y <;> simp_all [isZero, signbit, gt, lt, val]
      · rw [if_neg hz]
        by_cases hlt : lt x y = true
        · rw [if_pos hlt]
          cases x <;> cases y <;> simp_all [gt, lt, val] <;> linarith
        · rw [if_neg hlt]
          cases y <;> simp_all [gt, lt, val]

end Float64

/-- A whole number of seconds below `2 ^ 53` is converted exactly. -/
theorem Duration.Seconds_whole (k : Nat) (hk : k < 2 ^ 53) :
    Duration.Seconds ((k : Int) * 1000000000) = Float64.fin (k : ℚ) := by
  unfold Duration.Seconds
  have h1 : Int.tdiv ((k : Int) * 1000000000) 1000000000 = (k : Int) := by
    rw [Int.tdiv_eq_ediv (by positivity) (by norm_num)]
    exact Int.mul_ediv_cancel _ (by norm_num)
  have h2 : Int.tmod ((k : Int) * 1000000000) 1000000000 = ((0 : Nat) : Int) := by
    rw [Int.tmod_eq_emod (by positivity) (by norm_num)]
    simp
  rw [h1, h2, Float64.ofInt_natCast k hk, Float64.ofInt_natCast 0 (by norm_num)]
  have hd : Float64.div (Float64.fin ((0 : Nat) : ℚ)) (Float64.fin 1000000000) =
      Float64.fin ((0 : Nat) : ℚ) := by
    simp [Float64.div, Float64.isZero, Float64.zero, Float64.signbit]
  rw [hd]
  have := Float64.add_natCast k 0 (by simpa using hk)
  simpa using this

/-- The seconds of a duration `≥ 0` are not negative. -/
theorem Duration.Seconds_isNonneg (d : Duration) (hd : 0 ≤ d) :
    Float64.IsNonneg (Duration.Seconds d) := by
  unfold Duration.Seconds Float64.ofInt
  apply Float64.add_isNonneg
  · apply Float64.round_isNonneg
    exact_mod_cast Int.tdiv_nonneg hd (by norm_num)
  · apply Float64.div_isNonneg _ _ (by norm_num)
    apply Float64.round_isNonneg
    exact_mod_cast Int.tmod_nonneg _ hd

/-- The difference `t.Sub(u)` is not negative when `u` is not after `t`. -/
theorem Time.Sub_nonneg (t u : Time) (h : u ≤ t) : 0 ≤ Time.Sub t u := by
  unfold Time.Sub minDuration maxDuration
  have : (0 : Int) ≤ t - u := sub_nonneg.mpr h
  exact le_max_of_le_right (le_min (by norm_num) this)

/-! ## Theorems: the token bucket -/

namespace TokenBucket

/-- C3: an amount above `MaxTokens` fails with the out-of-bounds error, which is not an
`ErrTooManyRequests`, and leaves the bucket as it was; an amount that is not above
`MaxTokens`, in particular one with `n ≤ MaxTokens`, never fails with the out-of-bounds
error. -/
theorem Reserve_outOfBounds (tb : TokenBucket) (now : Time) (n : Float64) :
    (Float64.gt n tb.MaxTokens = true →
      (∃ e, (tb.Reserve now n).1 = some e ∧ e.Is Error.errOutOfBoundsRequest = true ∧
        e.AsTooManyRequests = none) ∧
      (tb.Reserve now n).2 = tb) ∧
    (Float64.gt n tb.MaxTokens = false →
      ∀ e, (tb.Reserve now n).1 = some e → e.Is Error.errOutOfBoundsRequest = false) := by
  constructor
  · intro h
    unfold Reserve
    rw [if_pos h]
    exact ⟨⟨_, rfl, by simp [Error.Is], by simp [Error.AsTooManyRequests]⟩, rfl⟩
  · intro h e he
    unfold Reserve at he
    rw [if_neg (by simp [h])] at he
    by_cases h' : Float64.gt n (tb.refill now).Tokens = true
    · simp only [h', if_true, Option.some.injEq] at he
      subst he
      simp [Error.Is]
    · simp only [h', if_false] at he
      exact absurd he (by simp)

/-- C2, at the failing input: a full bucket of capacity 10 asked for `-1` tokens accepts the
request and then holds 11 tokens, more than `MaxTokens`. -/
theorem Reserve_negative_amount_overfills :
    ((⟨.fin 10, .fin 10, .fin 1, 0⟩ : TokenBucket).Reserve 0 (.fin (-1))).1 = none ∧
      ((⟨.fin 10, .fin 10, .fin 1, 0⟩ : TokenBucket).Reserve 0 (.fin (-1))).2.Tokens =
        .fin 11 ∧
      Float64.le ((⟨.fin 10, .fin 10, .fin 1, 0⟩ : TokenBucket).Reserve 0 (.fin (-1))).2.Tokens
        ((⟨.fin 10, .fin 10, .fin 1, 0⟩ : TokenBucket).Reserve 0 (.fin (-1))).2.MaxTokens =
        false := by
  decide!

/-- The wait for one token of an empty bucket of rate 3 is a third of a second, cut to
333333333 ns. -/
theorem howMuchToWaitFor_third :
    (⟨.fin 0, .fin 1, .fin 3, 0⟩ : TokenBucket).howMuchToWaitFor (.fin 1) = 333333333 := by
  decide!

/-- C6, at the failing input: an empty bucket of capacity 1 and rate 3 refuses 1 token at
instant 0 with `RetryAfter = 333333333` ns; the same request at instant `0 + 333333333`, with
no call in between, is refused again: the bucket then holds
`9007199245733793 / 2 ^ 53` tokens, the `float64` that prints as 0.999999999, which is less
than 1. -/
theorem Reserve_after_RetryAfter_fails :
    ((⟨.fin 0, .fin 1, .fin 3, 0⟩ : TokenBucket).Reserve 0 (.fin 1)).1 =
        some (Error.ErrTooManyRequests 333333333) ∧
      ((((⟨.fin 0, .fin 1, .fin 3, 0⟩ : TokenBucket).Reserve 0 (.fin 1)).2.Reserve
        (0 + 333333333) (.fin 1)).1 ≠ none ∧
        (((⟨.fin 0, .fin 1, .fin 3, 0⟩ : TokenBucket).Reserve 0 (.fin 1)).2.Reserve
          (0 + 333333333) (.fin 1)).2.Tokens =
          .fin (9007199245733793 / 9007199254740992)) := by
  decide!

/-- The token level that a refill at `now` produces. -/
theorem refill_Tokens (tb : TokenBucket) (now : Time) :
    (tb.refill now).Tokens = tb.level now := rfl

/-- For a bucket with `MaxTokens > 0`, a finite `RefillRate > 0` and `Tokens ≥ 0`, the level
computed at a clock reading not before the last refill is `+Inf` or a finite number
`≥ 0`: it is not NaN. -/
theorem level_isNonneg (tb : TokenBucket) (now : Time)
    (hmax : Float64.lt (.fin 0) tb.MaxTokens = true)
    (hrate : Float64.lt (.fin 0) tb.RefillRate = true) (hfin : tb.RefillRate ≠ .inf false)
    (htok : Float64.le (.fin 0) tb.Tokens = true) (hnow : tb.LastRefillTime ≤ now) :
    Float64.IsNonneg (tb.level now) := by
  have hsec := Duration.Seconds_isNonneg _ (Time.Sub_nonneg now tb.LastRefillTime hnow)
  obtain ⟨r, hr, hre⟩ : ∃ r : ℚ, 0 < r ∧ tb.RefillRate = .fin r := by
    rcases (Float64.lt_zero_iff _).mp hrate with h | h
    · exact absurd h hfin
    · exact h
  have hM : Float64.IsNonneg tb.MaxTokens := by
    rcases (Float64.lt_zero_iff _).mp hmax with h | ⟨q, hq, h⟩
    · exact Or.inl h
    · exact Or.inr ⟨q, hq.le, h⟩
  unfold level
  rw [hre]
  exact Float64.Min_isNonneg
    (Float64.add_isNonneg_of_le htok (Float64.mul_isNonneg r hr hsec)) hM

/-- C1 (amended): for a bucket with `MaxTokens > 0`, a finite `RefillRate > 0` and
`0 ≤ Tokens ≤ MaxTokens`, an amount `0 ≤ n ≤ MaxTokens` and a clock reading
`now ≥ LastRefillTime`, `Reserve(n)` succeeds iff `n ≤ L`, where `L` is the level as the code
computes it in `float64`, `math.Min(Tokens + RefillRate * now.Sub(LastRefillTime).Seconds(),
MaxTokens)`, each operation rounded and the time difference capped at the greatest
`Duration`; on success the bucket holds the `float64` difference `L - n`, otherwise the
error is `ErrTooManyRequests` and it holds `L`. -/
theorem Reserve_iff_level (tb : TokenBucket) (now : Time) (n : Float64)
    (hmax : Float64.lt (.fin 0) tb.MaxTokens = true)
    (hrate : Float64.lt (.fin 0) tb.RefillRate = true) (hfin : tb.RefillRate ≠ .inf false)
    (htok : Float64.le (.fin 0) tb.Tokens = true ∧ Float64.le tb.Tokens tb.MaxTokens = true)
    (hn0 : Float64.le (.fin 0) n = true) (hn : Float64.le n tb.MaxTokens = true)
    (hnow : tb.LastRefillTime ≤ now) :
    ((tb.Reserve now n).1 = none ↔ Float64.le n (tb.level now) = true) ∧
      ((tb.Reserve now n).1 = none →
        (tb.Reserve now n).2.Tokens = Float64.sub (tb.level now) n) ∧
      ((tb.Reserve now n).1 ≠ none →
        (∃ d : Duration, (tb.Reserve now n).1 = some (Error.ErrTooManyRequests d)) ∧
        (tb.Reserve now n).2.Tokens = tb.level now) := by
  have hL := (level_isNonneg tb now hmax hrate hfin htok.1 hnow).ne_nan
  have hnn : n ≠ .nan := Float64.ne_nan_of_le hn0
  have hle := Float64.le_eq_not_gt hnn hL
  unfold Reserve
  rw [if_neg (by simp [Float64.gt_of_le hn])]
  simp only [refill_Tokens]
  by_cases h : Float64.gt n (tb.level now) = true
  · rw [if_pos h]
    rw [hle, h]
    refine ⟨⟨fun h' => by simp at h', fun h' => by simp at h'⟩,
      fun h' => by simp at h', fun _ => ⟨⟨_, rfl⟩, rfl⟩⟩
  · rw [if_neg h]
    rw [hle]
    simp only [Bool.not_eq_true] at h
    rw [h]
    exact ⟨⟨fun _ => rfl, fun _ => rfl⟩, fun _ => rfl, fun h' => absurd rfl h'⟩

/-- A bucket with capacity 10, rate 1, 5 tokens, refilled at instant 0, asked for 3 tokens
two seconds later: the level is 7 and 4 tokens are left. -/
theorem Reserve_iff_level_witness :
    ((⟨.fin 5, .fin 10, .fin 1, 0⟩ : TokenBucket).level 2000000000 = .fin 7) ∧
      ((⟨.fin 5, .fin 10, .fin 1, 0⟩ : TokenBucket).Reserve 2000000000 (.fin 3)).1 = none ∧
      ((⟨.fin 5, .fin 10, .fin 1, 0⟩ : TokenBucket).Reserve 2000000000 (.fin 3)).2.Tokens =
        Float64.sub ((⟨.fin 5, .fin 10, .fin 1, 0⟩ : TokenBucket).level 2000000000)
          (.fin 3) :=
  have h := Reserve_iff_level ⟨.fin 5, .fin 10, .fin 1, 0⟩ 2000000000 (.fin 3)
    (by decide!) (by decide!) (by decide!) (by decide!) (by decide!) (by decide!) (by decide!)
  ⟨by decide!, h.1.mpr (by decide!), h.2.1 (h.1.mpr (by decide!))⟩

/-- C1, counterexample. First, rounding: a bucket of capacity 10 and rate 1 that holds
`0.1` tokens (the `float64` nearest to it) 0.1 s after instant 0 is asked 0.2 s later for
`0.30000000000000004` tokens (the `float64` sum `0.1 + 0.2`); `Reserve` succeeds although the
amount is above the level `L = min(10, 0.1 + 1·0.2)` of exact arithmetic. Second, the cap of
`Sub`: a bucket of capacity `10^11` and rate 1 that is empty at the zero instant is asked for
`10^10` tokens in November 2026, 63929347200 s later; `Reserve` fails with
`ErrTooManyRequests` although the amount is at most `L = min(10^11, 63929347200)`. -/
theorem Reserve_level_counterexample :
    (((⟨.fin (3602879701896397 / 36028797018963968), .fin 10, .fin 1, 100000000⟩ :
          TokenBucket).Reserve 300000000 (.fin (1351079888211149 / 4503599627370496))).1 =
        none ∧
      ¬ ((1351079888211149 / 4503599627370496 : ℚ) ≤
        (⟨.fin (3602879701896397 / 36028797018963968), .fin 10, .fin 1, 100000000⟩ :
          TokenBucket).levelExact 300000000)) ∧
    ((∃ d : Duration, ((⟨.fin 0, .fin 100000000000, .fin 1, 0⟩ : TokenBucket).Reserve
          63929347200000000000 (.fin 10000000000)).1 =
        some (Error.ErrTooManyRequests d)) ∧
      (10000000000 : ℚ) ≤
        (⟨.fin 0, .fin 100000000000, .fin 1, 0⟩ : TokenBucket).levelExact
          63929347200000000000) := by
  refine ⟨⟨by decide!, by decide!⟩, ⟨⟨776627963145223680, by decide!⟩, by decide!⟩⟩

/-- C24 (amended): for a bucket with `RefillRate > 0` and `Tokens ≤ MaxTokens`, a refill at
a clock reading `now ≥ LastRefillTime` sets `Tokens` to the `float64` value
`math.Min(Tokens + RefillRate * now.Sub(LastRefillTime).Seconds(), MaxTokens)`, each
operation rounded and the time difference capped at the greatest `Duration`; this level is
never above `MaxTokens`. It sets `LastRefillTime` to `now`, which is not before the previous
one, and leaves `MaxTokens` and `RefillRate` as they are. -/
theorem refill_law (tb : TokenBucket) (now : Time)
    (_hrate : Float64.lt (.fin 0) tb.RefillRate = true)
    (_htok : Float64.le tb.Tokens tb.MaxTokens = true) (hnow : tb.LastRefillTime ≤ now) :
    (tb.refill now).Tokens = Float64.Min (Float64.add tb.Tokens
        (Float64.mul tb.RefillRate (Duration.Seconds (Time.Sub now tb.LastRefillTime))))
        tb.MaxTokens ∧
      Time.Sub now tb.LastRefillTime = min maxDuration (now - tb.LastRefillTime) ∧
      Float64.gt (tb.refill now).Tokens tb.MaxTokens = false ∧
      (tb.refill now).LastRefillTime = now ∧
      tb.LastRefillTime ≤ (tb.refill now).LastRefillTime ∧
      (tb.refill now).MaxTokens = tb.MaxTokens ∧
      (tb.refill now).RefillRate = tb.RefillRate := by
  refine ⟨rfl, ?_, Float64.gt_Min_right _ _, rfl, hnow, rfl, rfl⟩
  have h0 : (0 : Int) ≤ now - tb.LastRefillTime := sub_nonneg.mpr hnow
  unfold Time.Sub
  apply max_eq_right
  exact le_trans (by unfold minDuration; norm_num) (le_min (by unfold maxDuration; norm_num) h0)

/-- A bucket of capacity 10 and rate 1 holding 5 tokens, refilled two seconds later, holds
7 tokens. -/
theorem refill_law_witness :
    ((⟨.fin 5, .fin 10, .fin 1, 0⟩ : TokenBucket).refill 2000000000).Tokens = .fin 7 ∧
      ((⟨.fin 5, .fin 10, .fin 1, 0⟩ : TokenBucket).refill 2000000000).LastRefillTime =
        2000000000 :=
  have h := refill_law ⟨.fin 5, .fin 10, .fin 1, 0⟩ 2000000000 (by decide!) (by decide!)
    (by decide!)
  ⟨h.1.trans (by decide!), h.2.2.2.1⟩

/-- C24, counterexample. The cap of `Sub`: a bucket of capacity `10^11` and rate 1 that is
empty at the zero instant and is refilled in November 2026, 63929347200 s later, holds
`4835703278458517 / 2 ^ 19` tokens (about `9.22·10^9`, the seconds of the greatest
`Duration`), not `min(10^11, 0 + 1·63929347200)`. Rounding: a bucket of capacity 10 and rate
1 that holds `0.1` tokens and is refilled 0.2 s later holds `0.30000000000000004` tokens,
which is more than `min(10, 0.1 + 1·0.2)`. -/
theorem refill_law_counterexample :
    (((⟨.fin 0, .fin 100000000000, .fin 1, 0⟩ : TokenBucket).refill
          63929347200000000000).Tokens = .fin (4835703278458517 / 524288) ∧
      (⟨.fin 0, .fin 100000000000, .fin 1, 0⟩ : TokenBucket).levelExact
          63929347200000000000 = 63929347200) ∧
    (((⟨.fin (3602879701896397 / 36028797018963968), .fin 10, .fin 1, 100000000⟩ :
          TokenBucket).refill 300000000).Tokens =
        .fin (1351079888211149 / 4503599627370496) ∧
      (⟨.fin (3602879701896397 / 36028797018963968), .fin 10, .fin 1, 100000000⟩ :
          TokenBucket).levelExact 300000000 < 1351079888211149 / 4503599627370496) := by
  refine ⟨⟨by decide!, by decide!⟩, ⟨by decide!, by decide!⟩⟩

/-- The difference of two instants a whole number of seconds apart, within 292 years. -/
theorem Sub_whole_seconds (t0 : Time) (j k : Nat) (hjk : j ≤ k) (hk : k ≤ 9223372036) :
    Time.Sub (t0 + (k : Int) * 1000000000) (t0 + (j : Int) * 1000000000) =
      ((k - j : Nat) : Int) * 1000000000 := by
  have e : (t0 + (k : Int) * 1000000000 : Int) - (t0 + (j : Int) * 1000000000) =
      ((k - j : Nat) : Int) * 1000000000 := by
    rw [Nat.cast_sub hjk]; ring
  have h1 : (0 : Int) ≤ ((k - j : Nat) : Int) * 1000000000 := by positivity
  have h2 : ((k - j : Nat) : Int) * 1000000000 ≤ 9223372036854775807 := by
    have : ((k - j : Nat) : Int) ≤ 9223372036 := by omega
    omega
  show max (-9223372036854775808 : Int) (min (9223372036854775807 : Int)
    ((t0 + (k : Int) * 1000000000 : Int) - (t0 + (j : Int) * 1000000000))) = _
  rw [e, min_eq_right h2, max_eq_right (by omega)]

/-- A refill a whole number of seconds after the last one, all quantities being natural
numbers small enough for `float64` to hold them exactly. -/
theorem refill_whole (T M r : Nat) (t0 : Time) (j k : Nat) (hjk : j ≤ k)
    (hk : k ≤ 9223372036) (hT : T ≤ M) (hexact : M + r * k < 2 ^ 53) :
    (⟨.fin T, .fin M, .fin r, t0 + (j : Int) * 1000000000⟩ : TokenBucket).refill
        (t0 + (k : Int) * 1000000000) =
      ⟨.fin ((min (T + r * (k - j)) M : Nat) : ℚ), .fin M, .fin r,
        t0 + (k : Int) * 1000000000⟩ := by
  have hle : r * (k - j) ≤ r * k := Nat.mul_le_mul_left _ (Nat.sub_le _ _)
  have hk53 : k - j < 2 ^ 53 := by
    have : (9223372036 : Nat) < 2 ^ 53 := by norm_num
    omega
  unfold refill
  simp only
  rw [Sub_whole_seconds t0 j k hjk hk, Duration.Seconds_whole _ hk53,
    Float64.mul_natCast r (k - j) (by omega),
    Float64.add_natCast T (r * (k - j)) (by omega), Float64.Min_natCast]

/-- One `Reserve` a whole number of seconds after the last refill, all quantities being
natural numbers small enough for `float64` to hold them exactly: the amount is refused as
out of bounds when it is above `M`, refused when it is above the level
`min(T + r·(k − j), M)`, and deducted from that level otherwise. -/
theorem Reserve_whole (T M r : Nat) (t0 : Time) (j k n : Nat) (hjk : j ≤ k)
    (hk : k ≤ 9223372036) (hT : T ≤ M) (hexact : M + r * k < 2 ^ 53) :
    (M < n →
      (⟨.fin T, .fin M, .fin r, t0 + (j : Int) * 1000000000⟩ : TokenBucket).Reserve
          (t0 + (k : Int) * 1000000000) (.fin n) =
        (some (Error.Errorf "can't reserve more than %f tokens:%w" (some (.fin M))
          Error.errOutOfBoundsRequest),
          ⟨.fin T, .fin M, .fin r, t0 + (j : Int) * 1000000000⟩)) ∧
    (n ≤ M → min (T + r * (k - j)) M < n →
      ((⟨.fin T, .fin M, .fin r, t0 + (j : Int) * 1000000000⟩ : TokenBucket).Reserve
          (t0 + (k : Int) * 1000000000) (.fin n)).1 ≠ none ∧
      ((⟨.fin T, .fin M, .fin r, t0 + (j : Int) * 1000000000⟩ : TokenBucket).Reserve
          (t0 + (k : Int) * 1000000000) (.fin n)).2 =
        ⟨.fin ((min (T + r * (k - j)) M : Nat) : ℚ), .fin M, .fin r,
          t0 + (k : Int) * 1000000000⟩) ∧
    (n ≤ min (T + r * (k - j)) M →
      (⟨.fin T, .fin M, .fin r, t0 + (j : Int) * 1000000000⟩ : TokenBucket).Reserve
          (t0 + (k : Int) * 1000000000) (.fin n) =
        (none, ⟨.fin ((min (T + r * (k - j)) M - n : Nat) : ℚ), .fin M, .fin r,
          t0 + (k : Int) * 1000000000⟩)) := by
  have hre := refill_whole T M r t0 j k hjk hk hT hexact
  have hL : min (T + r * (k - j)) M < 2 ^ 53 := by
    have : min (T + r * (k - j)) M ≤ M := min_le_right _ _
    omega
  refine ⟨?_, ?_, ?_⟩
  · intro h
    unfold Reserve
    rw [Float64.gt_natCast, if_pos (by simpa using h)]
  · intro h1 h2
    unfold Reserve
    rw [Float64.gt_natCast, if_neg (by simpa using h1)]
    simp only [hre]
    rw [Float64.gt_natCast, if_pos (by simpa using h2)]
    exact ⟨by simp, rfl⟩
  · intro h
    have h1 : n ≤ M := le_trans h (min_le_right _ _)
    unfold Reserve
    rw [Float64.gt_natCast, if_neg (by simpa using h1)]
    simp only [hre]
    rw [Float64.gt_natCast, if_neg (by simpa using h), Float64.sub_natCast _ _ hL h]

/-- A sequence of `Reserve` calls at whole seconds, none before the last refill and none
after `K` seconds, all quantities being natural numbers small enough for `float64` to hold
them exactly: the sum of the accepted amounts is at most the tokens held plus what is
refilled until `K` seconds. -/
theorem ReserveSeq_whole (M r : Nat) (t0 : Time) (K : Nat) (hK : K ≤ 9223372036)
    (hexact : M + r * K < 2 ^ 53) (calls : List (Nat × Nat)) :
    ∀ (T j : Nat), T ≤ M → j ≤ K →
      List.Chain (fun a b : Nat => a ≤ b) j (calls.map Prod.fst) →
      (∀ c ∈ calls, c.1 ≤ K) →
      ((⟨.fin T, .fin M, .fin r, t0 + (j : Int) * 1000000000⟩ : TokenBucket).ReserveSeq
        (calls.map (fun c => (t0 + (c.1 : Int) * 1000000000, Float64.fin (c.2 : ℚ))))).2 ≤
        ((T + r * (K - j) : Nat) : ℚ) := by
  induction calls with
  | nil =>
    intro T j _ _ _ _
    simp only [List.map_nil, ReserveSeq]
    positivity
  | cons c calls ih =>
    intro T j hT hj hchain hall
    obtain ⟨k, n⟩ := c
    rw [List.map_cons, List.chain_cons] at hchain
    obtain ⟨hjk, hchain'⟩ := hchain
    have hkK : k ≤ K := hall (k, n) (List.mem_cons_self _ _)
    have hall' : ∀ c ∈ calls, c.1 ≤ K := fun c hc => hall c (List.mem_cons_of_mem _ hc)
    have hk : k ≤ 9223372036 := le_trans hkK hK
    have hrk : r * k ≤ r * K := Nat.mul_le_mul_left _ hkK
    obtain ⟨h1, h2, h3⟩ := Reserve_whole T M r t0 j k n hjk hk hT (by omega)
    have hsplit : r * (k - j) + r * (K - k) = r * (K - j) := by
      rw [← Nat.mul_add]; congr 1; omega
    simp only [List.map_cons, ReserveSeq]
    by_cases hn : M < n
    · rw [h1 hn]
      simp only [reduceCtorEq, if_false, zero_add]
      have hchain2 : List.Chain (fun a b : Nat => a ≤ b) j (calls.map Prod.fst) :=
        hchain'.imp' (fun _ _ h => h) (fun x hx => le_trans hjk hx)
      exact ih T j hT hj hchain2 hall'
    · have hnM : n ≤ M := not_lt.mp hn
      by_cases hL : min (T + r * (k - j)) M < n
      · obtain ⟨e1, e2⟩ := h2 hnM hL
        rw [e2, if_neg e1, zero_add]
        refine le_trans (ih _ k (min_le_right _ _) hkK hchain' hall') ?_
        have : min (T + r * (k - j)) M ≤ T + r * (k - j) := min_le_left _ _
        exact_mod_cast (by omega : min (T + r * (k - j)) M + r * (K - k) ≤ T + r * (K - j))
      · have hL' : n ≤ min (T + r * (k - j)) M := not_lt.mp hL
        rw [h3 hL']
        simp only [if_true]
        have hih := ih (min (T + r * (k - j)) M - n) k
          (le_trans (Nat.sub_le _ _) (min_le_right _ _)) hkK hchain' hall'
        have : min (T + r * (k - j)) M ≤ T + r * (k - j) := min_le_left _ _
        have hnat : n + (min (T + r * (k - j)) M - n + r * (K - k)) ≤ T + r * (K - j) := by
          omega
        have hq : ((n : ℚ)) + ((min (T + r * (k - j)) M - n + r * (K - k) : Nat) : ℚ) ≤
            ((T + r * (K - j) : Nat) : ℚ) := by exact_mod_cast hnat
        show (Float64.fin (n : ℚ)).val + _ ≤ _
        simp only [Float64.val]
        linarith

/-- C7, at the failing input: a bucket of capacity 10 and rate 1 is built at
2000-01-01 01:00:00 UTC and emptied at once by `Reserve(10)`. Read 4 s later, its `SortValue`
is `2000-01-01 01:00:14`; `Reserve(1)` at 5 s succeeds, and read at 5 s its `SortValue` is
`2000-01-01 01:00:11`, which is less than the one read before the call. -/
theorem SortValue_drops_after_idle_Reserve :
    (NewTokenBucket (.fin 10) (.fin 1) 63082285200000000000).Reserve 63082285200000000000
        (.fin 10) = (none, ⟨.fin 0, .fin 10, .fin 1, 63082285200000000000⟩) ∧
      (⟨.fin 0, .fin 10, .fin 1, 63082285200000000000⟩ : TokenBucket).SortValue
        63082285204000000000 = "2000-01-01 01:00:14 +0000 UTC" ∧
      ((⟨.fin 0, .fin 10, .fin 1, 63082285200000000000⟩ : TokenBucket).Reserve
        63082285205000000000 (.fin 1)).1 = none ∧
      ((⟨.fin 0, .fin 10, .fin 1, 63082285200000000000⟩ : TokenBucket).Reserve
        63082285205000000000 (.fin 1)).2.SortValue 63082285205000000000 =
        "2000-01-01 01:00:11 +0000 UTC" ∧
      ((⟨.fin 0, .fin 10, .fin 1, 63082285200000000000⟩ : TokenBucket).Reserve
        63082285205000000000 (.fin 1)).2.SortValue 63082285205000000000 <
        (⟨.fin 0, .fin 10, .fin 1, 63082285200000000000⟩ : TokenBucket).SortValue
          63082285204000000000 := by
  decide!

/-- C8, at the failing inputs, the buckets being built at 2000-01-01 01:00:00 UTC. A tie: of
two buckets of capacity 10 and rate 1, one reserves 1 token and the other
`1.0000000005` tokens (the `float64` nearest to it, which is more than 1), both
successfully; both `SortValue`s read at that instant are `2000-01-01 01:00:01`. A reversal:
of two buckets of capacity `10^10` and rate 1, one reserves 1 token and the other `10^10`
tokens, both successfully; the wait of the second does not fit in a `Duration`, and its
`SortValue` is in the year 1707, less than the one of the first. -/
theorem SortValue_not_greater_of_more_reserved :
    ((NewTokenBucket (.fin 10) (.fin 1) 63082285200000000000).ReserveAll
          63082285200000000000 [.fin 1] =
        some ⟨.fin 9, .fin 10, .fin 1, 63082285200000000000⟩ ∧
      (NewTokenBucket (.fin 10) (.fin 1) 63082285200000000000).ReserveAll
          63082285200000000000 [.fin (562949953702787 / 562949953421312)] =
        some ⟨.fin (5066549580510333 / 562949953421312), .fin 10, .fin 1,
          63082285200000000000⟩ ∧
      (1 : ℚ) < 562949953702787 / 562949953421312 ∧
      (⟨.fin 9, .fin 10, .fin 1, 63082285200000000000⟩ : TokenBucket).SortValue
          63082285200000000000 = "2000-01-01 01:00:01 +0000 UTC" ∧
      (⟨.fin (5066549580510333 / 562949953421312), .fin 10, .fin 1,
          63082285200000000000⟩ : TokenBucket).SortValue 63082285200000000000 =
        "2000-01-01 01:00:01 +0000 UTC") ∧
    ((NewTokenBucket (.fin 10000000000) (.fin 1) 63082285200000000000).ReserveAll
          63082285200000000000 [.fin 1] =
        some ⟨.fin 9999999999, .fin 10000000000, .fin 1, 63082285200000000000⟩ ∧
      (NewTokenBucket (.fin 10000000000) (.fin 1) 63082285200000000000).ReserveAll
          63082285200000000000 [.fin 10000000000] =
        some ⟨.fin 0, .fin 10000000000, .fin 1, 63082285200000000000⟩ ∧
      (⟨.fin 9999999999, .fin 10000000000, .fin 1, 63082285200000000000⟩ :
          TokenBucket).SortValue 63082285200000000000 = "2000-01-01 01:00:01 +0000 UTC" ∧
      (⟨.fin 0, .fin 10000000000, .fin 1, 63082285200000000000⟩ : TokenBucket).SortValue
          63082285200000000000 = "1707-09-22 01:12:43.145224192 +0000 UTC" ∧
      (⟨.fin 0, .fin 10000000000, .fin 1, 63082285200000000000⟩ : TokenBucket).SortValue
          63082285200000000000 <
        (⟨.fin 9999999999, .fin 10000000000, .fin 1, 63082285200000000000⟩ :
          TokenBucket).SortValue 63082285200000000000) := by
  refine ⟨⟨by decide!, by decide!, by decide!, by decide!, by decide!⟩,
    ⟨by decide!, by decide!, by decide!, by decide!, by decide!⟩⟩

/-- C23, at the failing input: a bucket of capacity `10^10` and rate 1 is emptied by
`Reserve(10^10)`; the same request at the same instant is refused with
`ErrTooManyRequests{RetryAfter: -9223372036854775808}`: the wait of `10^19` ns does not fit
in a `Duration`, and the `RetryAfter` returned is negative. -/
theorem Reserve_RetryAfter_negative :
    (NewTokenBucket (.fin 10000000000) (.fin 1) 63929347200000000000).Reserve
        63929347200000000000 (.fin 10000000000) =
      (none, ⟨.fin 0, .fin 10000000000, .fin 1, 63929347200000000000⟩) ∧
    ((⟨.fin 0, .fin 10000000000, .fin 1, 63929347200000000000⟩ : TokenBucket).Reserve
        63929347200000000000 (.fin 10000000000)).1 =
      some (Error.ErrTooManyRequests (-9223372036854775808)) ∧
    (-9223372036854775808 : Duration) < 0 := by
  refine ⟨by decide!, by decide!, by decide⟩

/-- C30, at the failing input: a bucket of capacity `10^10` and rate 1 that was emptied by
`Reserve(10^10)` has `RefillRate > 0` and `Tokens ≤ MaxTokens`; read in November 2026 at the
instant `now`, its `ExpireAt` is `now - 9223372036854775808` ns, in the year 1734, and
`ExpireAt().Before(now)` is true. -/
theorem ExpireAt_before_now :
    (NewTokenBucket (.fin 10000000000) (.fin 1) 63929347200000000000).Reserve
        63929347200000000000 (.fin 10000000000) =
      (none, ⟨.fin 0, .fin 10000000000, .fin 1, 63929347200000000000⟩) ∧
    Float64.lt (.fin 0)
      (⟨.fin 0, .fin 10000000000, .fin 1, 63929347200000000000⟩ : TokenBucket).RefillRate =
      true ∧
    Float64.le (⟨.fin 0, .fin 10000000000, .fin 1, 63929347200000000000⟩ : TokenBucket).Tokens
      (⟨.fin 0, .fin 10000000000, .fin 1, 63929347200000000000⟩ : TokenBucket).MaxTokens =
      true ∧
    (⟨.fin 0, .fin 10000000000, .fin 1, 63929347200000000000⟩ : TokenBucket).ExpireAt
        63929347200000000000 = 63929347200000000000 - 9223372036854775808 ∧
    Time.String ((⟨.fin 0, .fin 10000000000, .fin 1, 63929347200000000000⟩ :
        TokenBucket).ExpireAt 63929347200000000000) =
      "1734-07-26 00:12:43.145224192 +0000 UTC" ∧
    Time.Before ((⟨.fin 0, .fin 10000000000, .fin 1, 63929347200000000000⟩ :
        TokenBucket).ExpireAt 63929347200000000000) 63929347200000000000 = true := by
  refine ⟨by decide!, by decide!, by decide!, by decide!, by decide!, by decide!⟩

/-- C29 (amended): a bucket is built at the clock reading `t0` with capacity `M > 0` and rate
`r > 0`, both natural numbers; `Reserve(n_i)` is then called with natural numbers `n_i` at
non-decreasing clock readings a whole number of seconds after `t0`, none more than `K`
seconds after it, where `K` seconds fit in a `Duration` and `M + r·K < 2^53`, so that
`float64` holds every quantity exactly. The sum of the amounts that were accepted is at most
`M + r·K`. -/
theorem ReserveSeq_rate_bound (M r : Nat) (t0 : Time) (K : Nat) (calls : List (Nat × Nat))
    (_hM : 0 < M) (_hr : 0 < r) (hK : K ≤ 9223372036) (hexact : M + r * K < 2 ^ 53)
    (hclock : List.Chain (fun a b : Nat => a ≤ b) 0 (calls.map Prod.fst))
    (hall : ∀ c ∈ calls, c.1 ≤ K) :
    ((NewTokenBucket (.fin M) (.fin r) t0).ReserveSeq
      (calls.map (fun c => (t0 + (c.1 : Int) * 1000000000, Float64.fin (c.2 : ℚ))))).2 ≤
      (M : ℚ) + (r : ℚ) * (K : ℚ) := by
  have h := ReserveSeq_whole M r t0 K hK hexact calls M 0 (le_refl _) (Nat.zero_le _) hclock
    hall
  have e : (⟨.fin M, .fin M, .fin r, t0 + ((0 : Nat) : Int) * 1000000000⟩ : TokenBucket) =
      NewTokenBucket (.fin M) (.fin r) t0 := by
    simp [NewTokenBucket]
  rw [e] at h
  refine le_trans h ?_
  push_cast
  simp

/-- A bucket of capacity 10 and rate 1 built at instant 0 is asked for 10 tokens at once and
for 1 token one second later: both are accepted, 11 tokens in all. -/
theorem ReserveSeq_rate_bound_witness :
    ((NewTokenBucket (.fin 10) (.fin 1) 0).ReserveSeq
        [(0, .fin 10), (1000000000, .fin 1)]).2 = 11 ∧
      ((NewTokenBucket (.fin 10) (.fin 1) 0).ReserveSeq
        [(0, .fin 10), (1000000000, .fin 1)]).2 ≤ (10 : ℚ) + 1 * 1 :=
  have h := ReserveSeq_rate_bound 10 1 0 1 [(0, 10), (1, 1)] (by norm_num) (by norm_num)
    (by norm_num) (by norm_num) (by simp) (by simp)
  ⟨by decide!, by simpa using h⟩

/-- C29, counterexample: a bucket of capacity 10 and rate 1 built at instant 0 is asked for
10 tokens at once, for 0 tokens at 0.1 s and for `0.30000000000000004` tokens (the `float64`
sum `0.1 + 0.2`) at 0.3 s. All three calls are accepted, and the amounts accepted sum to more
than `10 + 1·0.3`. -/
theorem ReserveSeq_exceeds_rate_bound :
    ((NewTokenBucket (.fin 10) (.fin 1) 0).ReserveSeq
        [(0, .fin 10), (100000000, .fin 0),
          (300000000, .fin (1351079888211149 / 4503599627370496))]).2 =
      10 + 0 + 1351079888211149 / 4503599627370496 ∧
    ¬ ((10 : ℚ) + 0 + 1351079888211149 / 4503599627370496 ≤
      10 + 1 * ((((300000000 : Int) - 0 : Int) : ℚ) / 1000000000)) := by
  refine ⟨by decide!, by decide!⟩

end TokenBucket

/-! ## Theorems: the in-memory store -/

namespace InMmemoryStore

/-- On every path `Store` returns the value it was given. -/
theorem Store_returns_candidate {T : Type} (A : Algorithm T) (m : InMmemoryStore T)
    (algNow now : Time) (key : String) (alg : T) :
    (Store A m algNow now key alg).1.1 = alg := by
  unfold Store
  simp only
  split
  · rfl
  · split
    · split <;> rfl
    · rfl

/-- The text of the test double built for hour 1. -/
theorem Format_hour1 : storedItem.Format ⟨1⟩ = "01/01 01:00:00AM '00 +0000" := by decide

/-- The text of the test double built for hour 2. -/
theorem Format_hour2 : storedItem.Format ⟨2⟩ = "01/01 02:00:00AM '00 +0000" := by decide

/-- The test double built for hour 1 sorts before the one built for hour 2. -/
theorem SortValue_hour1_lt_hour2 (a b : Time) :
    storedItem.algorithm.SortValue ⟨1⟩ a < storedItem.algorithm.SortValue ⟨2⟩ b := by
  show storedItem.Format ⟨1⟩ < storedItem.Format ⟨2⟩
  rw [Format_hour1, Format_hour2, String.lt_iff_toList_lt]
  decide

/-- The first `Store` of a key on an empty store of size 1 inserts the value. -/
theorem Store_first (now : Time) :
    Store storedItem.algorithm (NewInMemoryStore 1) now now "key1" ⟨2⟩ =
      ((⟨2⟩, none), { data := [("key1", ⟨2⟩)], maxSize := 1 }) := by
  simp [Store, NewInMemoryStore, GoMap.get, GoMap.set, GoMap.len]

/-- The second `Store`, of the value built for hour 1 over the one built for hour 2, at an
instant of the year 2026: the incumbent has not expired and is overwritten. -/
theorem Store_second :
    Store storedItem.algorithm { data := [("key1", ⟨2⟩)], maxSize := 1 }
        63929347200000000000 63929347200000000000 "key1" ⟨1⟩ =
      ((⟨1⟩, none), { data := [("key1", ⟨1⟩)], maxSize := 1 }) := by
  have hexp : Time.Before (storedItem.algorithm.ExpireAt ⟨2⟩ 63929347200000000000)
      63929347200000000000 = false := by
    simp [Time.Before, storedItem.algorithm, storedItem.ExpireAt]
  simp [Store, GoMap.get, GoMap.set, GoMap.len, hexp]

/-- C4, at the failing input: on an empty store of size 1, at an instant of the year 2026,
`Store("key1", hour 2)` returns the hour-2 value, and the following `Store("key1", hour 1)`,
whose sort value is smaller, returns the hour-1 value and not the incumbent. -/
theorem Store_lesser_returns_candidate :
    (Store storedItem.algorithm (NewInMemoryStore 1) 63929347200000000000
        63929347200000000000 "key1" ⟨2⟩).1 = (⟨2⟩, none) ∧
      storedItem.algorithm.SortValue ⟨1⟩ 63929347200000000000 <
        storedItem.algorithm.SortValue ⟨2⟩ 63929347200000000000 ∧
      (Store storedItem.algorithm
        (Store storedItem.algorithm (NewInMemoryStore 1) 63929347200000000000
          63929347200000000000 "key1" ⟨2⟩).2
        63929347200000000000 63929347200000000000 "key1" ⟨1⟩).1 = (⟨1⟩, none) := by
  rw [Store_first, Store_second]
  exact ⟨rfl, SortValue_hour1_lt_hour2 _ _, rfl⟩

/-- C5, at the failing input: a store that holds the hour-2 value for `"key1"` is given the
hour-1 value at an instant of the year 2026; afterwards it holds the hour-1 value, whose sort
value is smaller than the one it held before. -/
theorem Store_lesser_overwrites_incumbent :
    GoMap.get ({ data := [("key1", ⟨2⟩)], maxSize := 1 } : InMmemoryStore storedItem).data
        "key1" = some ⟨2⟩ ∧
      GoMap.get (Store storedItem.algorithm { data := [("key1", ⟨2⟩)], maxSize := 1 }
        63929347200000000000 63929347200000000000 "key1" ⟨1⟩).2.data "key1" = some ⟨1⟩ ∧
      storedItem.algorithm.SortValue ⟨1⟩ 63929347200000000000 <
        storedItem.algorithm.SortValue ⟨2⟩ 63929347200000000000 := by
  rw [Store_second]
  exact ⟨by simp [GoMap.get], by simp [GoMap.get], SortValue_hour1_lt_hour2 _ _⟩

end InMmemoryStore

/-! ## Theorems: Go maps -/

namespace GoMap

/-- After `m[k] = v`, `m[k]` is `v`. -/
theorem get_set_self {V : Type} (m : List (String × V)) (k : String) (v : V) :
    get (set m k v) k = some v := by
  induction m with
  | nil => simp [set, get]
  | cons e m ih =>
    obtain ⟨k', v'⟩ := e
    by_cases h : k' = k
    · simp [set, get, h]
    · simp [set, get, h, ih]

/-- After `m[k] = v`, the other keys hold what they held. -/
theorem get_set_other {V : Type} (m : List (String × V)) (k k1 : String) (v : V)
    (hk : k1 ≠ k) : get (set m k v) k1 = get m k1 := by
  induction m with
  | nil =>
    have hk' : ¬ k = k1 := fun h => hk h.symm
    simp [set, get, hk']
  | cons e m ih =>
    obtain ⟨k', v'⟩ := e
    by_cases h : k' = k
    · subst h
      have hk' : ¬ k' = k1 := fun h => hk h.symm
      simp [set, get, hk']
    · by_cases h1 : k' = k1
      · subst h1
        simp [set, get, h]
      · simp [set, get, h, h1, ih]

/-- Writing a key that the map holds does not change its length. -/
theorem length_set_of_get {V : Type} (m : List (String × V)) (k : String) (v w : V)
    (hk : get m k = some w) : (set m k v).length = m.length := by
  induction m with
  | nil => simp [get] at hk
  | cons e m ih =>
    obtain ⟨k', v'⟩ := e
    by_cases h : k' = k
    · simp [set, h]
    · simp only [get, h, if_false] at hk
      simp [set, h, ih hk]

/-- Deleting a key keeps the entries of the other keys, in order. -/
theorem delete_eq_filter {V : Type} (m : List (String × V)) (k : String) :
    delete m k = m.filter (fun e => decide (e.1 ≠ k)) := by
  induction m with
  | nil => rfl
  | cons e m ih =>
    obtain ⟨k', v'⟩ := e
    by_cases h : k' = k
    · simp [delete, h, ih]
    · simp [delete, h, ih]

/-- What a key holds is an entry of the list. -/
theorem mem_of_get {V : Type} (m : List (String × V)) (k : String) (v : V)
    (h : get m k = some v) : (k, v) ∈ m := by
  induction m with
  | nil => simp [get] at h
  | cons e m ih =>
    obtain ⟨k', v'⟩ := e
    by_cases hk : k' = k
    · simp only [get, hk, if_true, Option.some.injEq] at h
      subst hk; subst h
      exact List.mem_cons_self _ _
    · simp only [get, hk, if_false] at h
      exact List.mem_cons_of_mem _ (ih h)

/-- A key that holds nothing is not among the keys. -/
theorem get_eq_none_iff {V : Type} (m : List (String × V)) (k : String) :
    get m k = none ↔ k ∉ m.map Prod.fst := by
  induction m with
  | nil => simp [get]
  | cons e m ih =>
    obtain ⟨k', v'⟩ := e
    by_cases hk : k' = k
    · simp [get, hk]
    · have hk' : ¬ k = k' := fun h => hk h.symm
      simp [get, hk, hk', ih]

/-- In a list with distinct keys an entry is what its key holds. -/
theorem get_of_mem {V : Type} (m : List (String × V)) (k : String) (v : V)
    (hnd : (m.map Prod.fst).Nodup) (h : (k, v) ∈ m) : get m k = some v := by
  induction m with
  | nil => simp at h
  | cons e m ih =>
    obtain ⟨k', v'⟩ := e
    rw [List.map_cons, List.nodup_cons] at hnd
    rcases List.mem_cons.mp h with heq | hmem
    · simp only [Prod.mk.injEq] at heq
      obtain ⟨rfl, rfl⟩ := heq
      simp [get]
    · have hk : k' ≠ k := by
        intro hk
        subst hk
        exact hnd.1 (List.mem_map.mpr ⟨(k', v), hmem, rfl⟩)
      simp only [get, hk, if_false]
      exact ih hnd.2 hmem

/-- What a key holds after a filter, in a list with distinct keys. -/
theorem get_filter {V : Type} (m : List (String × V)) (p : String × V → Bool) (k : String)
    (hnd : (m.map Prod.fst).Nodup) :
    get (m.filter p) k = (get m k).filter (fun v => p (k, v)) := by
  induction m with
  | nil => simp [get]
  | cons e m ih =>
    obtain ⟨k', v'⟩ := e
    rw [List.map_cons, List.nodup_cons] at hnd
    by_cases hk : k' = k
    · subst hk
      have hnone : get m k' = none := (get_eq_none_iff m k').mpr hnd.1
      by_cases hp : p (k', v') = true
      · simp [List.filter_cons, hp, get, Option.filter]
      · have hp' : p (k', v') = false := by simpa using hp
        simp [List.filter_cons, hp', get, Option.filter, ih hnd.2, hnone]
    · by_cases hp : p (k', v') = true
      · simp [List.filter_cons, hp, get, hk, ih hnd.2]
      · have hp' : p (k', v') = false := by simpa using hp
        simp [List.filter_cons, hp', get, hk, ih hnd.2]

/-- What the keys hold after a key is deleted. -/
theorem get_delete {V : Type} (m : List (String × V)) (k k1 : String) :
    get (delete m k) k1 = if k1 = k then none else get m k1 := by
  induction m with
  | nil => simp [delete, get]
  | cons e m ih =>
    obtain ⟨k', v'⟩ := e
    by_cases hk : k' = k
    · subst hk
      by_cases h1 : k1 = k'
      · subst h1
        simp [delete, ih]
      · have h1' : ¬ k' = k1 := fun h => h1 h.symm
        simp [delete, get, ih, h1, h1']
    · by_cases h1 : k' = k1
      · subst h1
        simp [delete, get, hk]
      · simp [delete, get, hk, h1, ih]

/-- Writing a key that is among the keys keeps the keys, in order. -/
theorem keys_set_of_mem {V : Type} (m : List (String × V)) (k : String) (v : V)
    (h : k ∈ m.map Prod.fst) : (set m k v).map Prod.fst = m.map Prod.fst := by
  induction m with
  | nil => simp at h
  | cons e m ih =>
    obtain ⟨k', v'⟩ := e
    by_cases hk : k' = k
    · simp [set, hk]
    · have hk' : ¬ k = k' := fun h => hk h.symm
      have hmem : k ∈ m.map Prod.fst := by simpa [hk'] using h
      simp [set, hk, ih hmem]

/-- Writing a key that is not among the keys adds it at the end. -/
theorem set_of_not_mem {V : Type} (m : List (String × V)) (k : String) (v : V)
    (h : k ∉ m.map Prod.fst) : set m k v = m ++ [(k, v)] := by
  induction m with
  | nil => rfl
  | cons e m ih =>
    obtain ⟨k', v'⟩ := e
    have hk : ¬ k' = k := fun hk => h (by simp [hk])
    have hmem : k ∉ m.map Prod.fst := fun hm => h (by simp [hm])
    simp [set, hk, ih hmem]

/-- Writing the key of an entry that no earlier entry has replaces that entry. -/
theorem set_append_cons {V : Type} (pre post : List (String × V)) (k : String) (v w : V)
    (h : k ∉ pre.map Prod.fst) :
    set (pre ++ (k, v) :: post) k w = pre ++ (k, w) :: post := by
  induction pre with
  | nil => simp [set]
  | cons e pre ih =>
    obtain ⟨k', v'⟩ := e
    have hk : ¬ k' = k := fun hk => h (by simp [hk])
    have hmem : k ∉ pre.map Prod.fst := fun hm => h (by simp [hm])
    simp [set, hk, ih hmem]

/-- In a list with distinct keys the entries of a key are the one entry it holds. -/
theorem filter_key {V : Type} (m : List (String × V)) (k : String) (v : V)
    (hnd : (m.map Prod.fst).Nodup) (h : get m k = some v) :
    m.filter (fun e => decide (e.1 = k)) = [(k, v)] := by
  induction m with
  | nil => simp [get] at h
  | cons e m ih =>
    obtain ⟨k', v'⟩ := e
    rw [List.map_cons, List.nodup_cons] at hnd
    by_cases hk : k' = k
    · subst hk
      simp only [get, if_true, Option.some.injEq] at h
      subst h
      have hnone : ∀ e ∈ m, ¬ (decide (e.1 = k') = true) := by
        intro e he hdec
        have : e.1 = k' := by simpa using hdec
        exact hnd.1 (this ▸ List.mem_map.mpr ⟨e, he, rfl⟩)
      simp [List.filter_cons, List.filter_eq_nil_iff.mpr hnone]
    · simp only [get, hk, if_false] at h
      simp [List.filter_cons, hk, ih hnd.2 h]

/-- Writing a key adds at most one entry. -/
theorem length_set_le {V : Type} (m : List (String × V)) (k : String) (v : V) :
    (set m k v).length ≤ m.length + 1 := by
  induction m with
  | nil => simp [set]
  | cons e m ih =>
    obtain ⟨k', v'⟩ := e
    by_cases h : k' = k
    · simp [set, h]
    · simp [set, h, ih]

/-- Deleting a key that a list with distinct keys holds removes one entry. -/
theorem length_delete_of_mem {V : Type} (m : List (String × V)) (k : String)
    (hnd : (m.map Prod.fst).Nodup) (h : k ∈ m.map Prod.fst) :
    (delete m k).length + 1 = m.length := by
  induction m with
  | nil => simp at h
  | cons e m ih =>
    obtain ⟨k', v'⟩ := e
    rw [List.map_cons, List.nodup_cons] at hnd
    by_cases hk : k' = k
    · subst hk
      have hnone : get m k' = none := (get_eq_none_iff m k').mpr hnd.1
      have hdel : delete m k' = m := by
        rw [delete_eq_filter]
        apply List.filter_eq_self.mpr
        intro e he
        have : e.1 ≠ k' := fun hek => hnd.1 (hek ▸ List.mem_map.mpr ⟨e, he, rfl⟩)
        simpa using this
      simp [delete, hdel]
    · have hk' : ¬ k = k' := fun h => hk h.symm
      have hmem : k ∈ m.map Prod.fst := by simpa [hk'] using h
      simp [delete, hk, ih hnd.2 hmem]

end GoMap

/-! ## Theorems: the cached store -/

namespace CachedStore

/-- The sweep of the expired entries leaves the wrapped store and the parameters of the
cache as they are. -/
theorem removeExpiredFromCache_frame {T β : Type} (A : Algorithm T) (store : CachedStore T β)
    (algNow now : Time) :
    (removeExpiredFromCache A store algNow now).2.actualStore = store.actualStore ∧
      (removeExpiredFromCache A store algNow now).2.cacheSize = store.cacheSize ∧
      (removeExpiredFromCache A store algNow now).2.cacheDuration = store.cacheDuration := by
  unfold removeExpiredFromCache
  generalize store.cache = l
  have key : ∀ (l : List (String × cachedItem T)) (acc : Bool × CachedStore T β),
      (l.foldl (fun (acc : Bool × CachedStore T β) (kv : String × cachedItem T) =>
          if isExpiredFromCache A store algNow now kv.2 then
            (true, { acc.2 with cache := GoMap.delete acc.2.cache kv.1 })
          else acc) acc).2.actualStore = acc.2.actualStore ∧
      (l.foldl (fun (acc : Bool × CachedStore T β) (kv : String × cachedItem T) =>
          if isExpiredFromCache A store algNow now kv.2 then
            (true, { acc.2 with cache := GoMap.delete acc.2.cache kv.1 })
          else acc) acc).2.cacheSize = acc.2.cacheSize ∧
      (l.foldl (fun (acc : Bool × CachedStore T β) (kv : String × cachedItem T) =>
          if isExpiredFromCache A store algNow now kv.2 then
            (true, { acc.2 with cache := GoMap.delete acc.2.cache kv.1 })
          else acc) acc).2.cacheDuration = acc.2.cacheDuration := by
    intro l
    induction l with
    | nil => intro acc; exact ⟨rfl, rfl, rfl⟩
    | cons kv l ih =>
      intro acc
      simp only [List.foldl_cons]
      by_cases h : isExpiredFromCache A store algNow now kv.2 = true
      · rw [if_pos h]
        exact ih _
      · rw [if_neg h]
        exact ih _
  exact key l (false, store)

/-- The store that `Store` hands to the wrapped store after making room: the wrapped store
and the size of the cache are those of the call. -/
theorem makeRoom_frame {T β : Type} (A : Algorithm T) (store : CachedStore T β)
    (algNow now : Time) :
    (if GoMap.len store.cache ≥ store.cacheSize then
        if (!(removeExpiredFromCache A store algNow now).1) = true then
          removeLastCached (removeExpiredFromCache A store algNow now).2
        else (removeExpiredFromCache A store algNow now).2
      else store).actualStore = store.actualStore ∧
    (if GoMap.len store.cache ≥ store.cacheSize then
        if (!(removeExpiredFromCache A store algNow now).1) = true then
          removeLastCached (removeExpiredFromCache A store algNow now).2
        else (removeExpiredFromCache A store algNow now).2
      else store).cacheSize = store.cacheSize := by
  have hf := removeExpiredFromCache_frame A store algNow now
  split
  · split
    · exact ⟨hf.1, hf.2.1⟩
    · exact ⟨hf.1, hf.2.1⟩
  · exact ⟨rfl, rfl⟩

/-- C9: for a key that the cache holds (expired or not), `Store(key, alg)` makes no call on
the wrapped store, returns `alg` and no error, replaces the entry of the key with
`{alg, SortValue(alg), lastUsedAt = now}` and leaves every other entry, the number of entries
and the wrapped store unchanged. -/
theorem Store_cached_absorbs {T β : Type} (A : Algorithm T) (S : AlgorithmStorer T β)
    (store : CachedStore T β) (algNow now : Time) (key : String) (alg : T)
    (item : cachedItem T) (hcached : GoMap.get store.cache key = some item) :
    (Store A S store algNow now key alg).2.2 = [] ∧
      (Store A S store algNow now key alg).1 = (alg, none) ∧
      GoMap.get (Store A S store algNow now key alg).2.1.cache key =
        some { alg := alg, sort := A.SortValue alg algNow, lastUsedAt := now } ∧
      (∀ k, k ≠ key →
        GoMap.get (Store A S store algNow now key alg).2.1.cache k = GoMap.get store.cache k) ∧
      GoMap.len (Store A S store algNow now key alg).2.1.cache = GoMap.len store.cache ∧
      (Store A S store algNow now key alg).2.1.actualStore = store.actualStore := by
  unfold Store
  rw [hcached]
  refine ⟨rfl, rfl, ?_, ?_, ?_, rfl⟩
  · exact GoMap.get_set_self _ _ _
  · intro k hk
    exact GoMap.get_set_other _ _ _ _ hk
  · show ((GoMap.set store.cache key (newCachedItem A algNow alg now)).length : Int) =
      (store.cache.length : Int)
    rw [GoMap.length_set_of_get _ _ _ item hcached]

/-- The cached store that holds `"key1"` is given the hour-2 test double for `"key1"`. -/
theorem Store_cached_absorbs_witness :
    (Store storedItem.algorithm (InMmemoryStore.storer storedItem.algorithm 5 5)
        fixtureCachedStore 5 5 "key1" ⟨2⟩).2.2 = [] ∧
      (Store storedItem.algorithm (InMmemoryStore.storer storedItem.algorithm 5 5)
        fixtureCachedStore 5 5 "key1" ⟨2⟩).1 = (⟨2⟩, none) ∧
      GoMap.get (Store storedItem.algorithm (InMmemoryStore.storer storedItem.algorithm 5 5)
        fixtureCachedStore 5 5 "key1" ⟨2⟩).2.1.cache "key1" =
        some { alg := ⟨2⟩, sort := storedItem.algorithm.SortValue ⟨2⟩ 5, lastUsedAt := 5 } ∧
      (∀ k, k ≠ "key1" →
        GoMap.get (Store storedItem.algorithm (InMmemoryStore.storer storedItem.algorithm 5 5)
          fixtureCachedStore 5 5 "key1" ⟨2⟩).2.1.cache k =
          GoMap.get fixtureCachedStore.cache k) ∧
      GoMap.len (Store storedItem.algorithm (InMmemoryStore.storer storedItem.algorithm 5 5)
        fixtureCachedStore 5 5 "key1" ⟨2⟩).2.1.cache = GoMap.len fixtureCachedStore.cache ∧
      (Store storedItem.algorithm (InMmemoryStore.storer storedItem.algorithm 5 5)
        fixtureCachedStore 5 5 "key1" ⟨2⟩).2.1.actualStore = fixtureCachedStore.actualStore :=
  Store_cached_absorbs storedItem.algorithm (InMmemoryStore.storer storedItem.algorithm 5 5)
    fixtureCachedStore 5 5 "key1" ⟨2⟩
    { alg := ⟨1⟩, sort := storedItem.Format ⟨1⟩, lastUsedAt := 0 }
    (by simp [fixtureCachedStore, GoMap.get])

/-- C10: for a key that the cache does not hold, `Store(key, alg)` makes exactly one call on
the wrapped store, `Store(key, alg)`, on the state the wrapped store had at the call; when
that call returns `persisted` and no error, `Store` returns `persisted` and no error, the
wrapped store is in the state the call left, and, if `cacheSize > 0`, the cache then holds
`{persisted, SortValue(persisted), lastUsedAt = now}` for the key. -/
theorem Store_uncached_writes_through {T β : Type} (A : Algorithm T)
    (S : AlgorithmStorer T β) (store : CachedStore T β) (algNow now : Time) (key : String)
    (alg : T) (huncached : GoMap.get store.cache key = none) :
    (Store A S store algNow now key alg).2.2 = [BackendCall.Store key alg] ∧
      ∀ (persisted : T) (b : β),
        S.Store store.actualStore key alg = ((persisted, none), b) →
        (Store A S store algNow now key alg).1 = (persisted, none) ∧
        (Store A S store algNow now key alg).2.1.actualStore = b ∧
        (store.cacheSize > 0 →
          GoMap.get (Store A S store algNow now key alg).2.1.cache key =
            some { alg := persisted, sort := A.SortValue persisted algNow,
                   lastUsedAt := now }) := by
  have hf := makeRoom_frame A store algNow now
  unfold Store
  rw [huncached]
  simp only
  generalize (if GoMap.len store.cache ≥ store.cacheSize then
      if (!(removeExpiredFromCache A store algNow now).1) = true then
        removeLastCached (removeExpiredFromCache A store algNow now).2
      else (removeExpiredFromCache A store algNow now).2
    else store) = store1 at hf ⊢
  obtain ⟨h1, h2⟩ := hf
  rw [h1]
  constructor
  · split <;> rfl
  · intro persisted b hb
    rw [hb]
    simp only
    rw [h2]
    by_cases hsize : store.cacheSize > 0
    · rw [if_pos hsize]
      exact ⟨trivial, rfl, fun _ => GoMap.get_set_self _ _ _⟩
    · rw [if_neg hsize]
      exact ⟨trivial, rfl, fun h => absurd h hsize⟩

/-- The cached store with an empty cache is given the hour-2 test double for `"key1"`. -/
theorem Store_uncached_writes_through_witness :
    (Store storedItem.algorithm (InMmemoryStore.storer storedItem.algorithm 5 5)
        fixtureEmptyCachedStore 5 5 "key1" ⟨2⟩).2.2 = [BackendCall.Store "key1" ⟨2⟩] ∧
      ∀ (persisted : storedItem) (b : InMmemoryStore storedItem),
        (InMmemoryStore.storer storedItem.algorithm 5 5).Store
          fixtureEmptyCachedStore.actualStore "key1" ⟨2⟩ = ((persisted, none), b) →
        (Store storedItem.algorithm (InMmemoryStore.storer storedItem.algorithm 5 5)
          fixtureEmptyCachedStore 5 5 "key1" ⟨2⟩).1 = (persisted, none) ∧
        (Store storedItem.algorithm (InMmemoryStore.storer storedItem.algorithm 5 5)
          fixtureEmptyCachedStore 5 5 "key1" ⟨2⟩).2.1.actualStore = b ∧
        (fixtureEmptyCachedStore.cacheSize > 0 →
          GoMap.get (Store storedItem.algorithm
            (InMmemoryStore.storer storedItem.algorithm 5 5)
            fixtureEmptyCachedStore 5 5 "key1" ⟨2⟩).2.1.cache "key1" =
            some { alg := persisted, sort := storedItem.algorithm.SortValue persisted 5,
                   lastUsedAt := 5 }) :=
  Store_uncached_writes_through storedItem.algorithm
    (InMmemoryStore.storer storedItem.algorithm 5 5) fixtureEmptyCachedStore 5 5 "key1" ⟨2⟩
    (by simp [fixtureEmptyCachedStore, GoMap.get])

/-- The loop of the sweep, for any test `P` of the entries: the flag records whether an
entry passed the test, and the keys of the entries that passed are deleted. -/
theorem sweep_foldl {T β : Type} (P : String × cachedItem T → Bool)
    (l : List (String × cachedItem T)) :
    ∀ (flag : Bool) (st : CachedStore T β),
      l.foldl (fun (acc : Bool × CachedStore T β) (kv : String × cachedItem T) =>
          if P kv = true then (true, { acc.2 with cache := GoMap.delete acc.2.cache kv.1 })
          else acc) (flag, st) =
        (flag || l.any P,
          { st with cache :=
              st.cache.filter (fun e => decide (e.1 ∉ (l.filter P).map Prod.fst)) }) := by
  induction l with
  | nil =>
    intro flag st
    simp
  | cons kv l ih =>
    intro flag st
    simp only [List.foldl_cons]
    by_cases hP : P kv = true
    · rw [if_pos hP, ih]
      simp only [GoMap.delete_eq_filter, List.filter_filter, List.any_cons, hP,
        List.filter_cons_of_pos, List.map_cons, List.mem_cons, not_or, Bool.true_or,
        Bool.or_true]
      congr 2
      apply List.filter_congr
      intro e _
      simp [Bool.and_comm]
    · rw [if_neg hP, ih]
      have hP' : P kv = false := by simpa using hP
      have hf : List.filter P (kv :: l) = List.filter P l := by
        simp [List.filter_cons, hP']
      rw [hf]
      simp [List.any_cons, hP']

/-- The sweep of a cache with distinct keys: it reports whether an entry is expired and
leaves exactly the entries that are not, in order. -/
theorem removeExpiredFromCache_eq {T β : Type} (A : Algorithm T) (store : CachedStore T β)
    (algNow now : Time) (hnd : (store.cache.map Prod.fst).Nodup) :
    removeExpiredFromCache A store algNow now =
      (store.cache.any (fun kv => isExpiredFromCache A store algNow now kv.2),
        { store with cache :=
            store.cache.filter (fun kv => !isExpiredFromCache A store algNow now kv.2) }) := by
  unfold removeExpiredFromCache
  rw [sweep_foldl (fun kv => isExpiredFromCache A store algNow now kv.2)]
  simp only [Bool.false_or]
  congr 2
  apply List.filter_congr
  intro e he
  by_cases hP : isExpiredFromCache A store algNow now e.2 = true
  · have hmem : e.1 ∈ (store.cache.filter
        (fun kv => isExpiredFromCache A store algNow now kv.2)).map Prod.fst :=
      List.mem_map.mpr ⟨e, List.mem_filter.mpr ⟨he, hP⟩, rfl⟩
    simp [hP, hmem]
  · have hP' : isExpiredFromCache A store algNow now e.2 = false := by simpa using hP
    have hnot : e.1 ∉ (store.cache.filter
        (fun kv => isExpiredFromCache A store algNow now kv.2)).map Prod.fst := by
      intro hmem
      obtain ⟨e', he', hfst⟩ := List.mem_map.mp hmem
      obtain ⟨hin, hexp⟩ := List.mem_filter.mp he'
      have : e' = e := List.inj_on_of_nodup_map hnd hin he hfst
      subst this
      exact hP hexp
    simp [hP', hnot]

/-- An entry is expired iff the clock is past the expiry of its algorithm or it has not been
used for more than the cache duration, both comparisons being strict. -/
theorem isExpiredFromCache_iff {T β : Type} (A : Algorithm T) (store : CachedStore T β)
    (algNow now : Time) (item : cachedItem T) :
    isExpiredFromCache A store algNow now item = true ↔
      (now > A.ExpireAt item.alg algNow ∨
        Time.Sub now item.lastUsedAt > store.cacheDuration) := by
  simp [isExpiredFromCache, Time.After]

/-- C11: for a key whose cached entry is not expired at the clock reading, `Load(key)`
returns the cached algorithm and no error, makes no call on the wrapped store and leaves the
store, hence the whole cache and the `lastUsedAt` of the entry, as it was. -/
theorem Load_hit {T β : Type} (A : Algorithm T) (S : AlgorithmStorer T β)
    (store : CachedStore T β) (algNow now : Time) (key : String) (item : cachedItem T)
    (hcached : GoMap.get store.cache key = some item)
    (hfresh : ¬ (now > A.ExpireAt item.alg algNow ∨
      Time.Sub now item.lastUsedAt > store.cacheDuration)) :
    (Load A S store algNow now key).1 = (some item.alg, none) ∧
      (Load A S store algNow now key).2.2 = [] ∧
      (Load A S store algNow now key).2.1 = store ∧
      GoMap.get (Load A S store algNow now key).2.1.cache key = some item := by
  have hexp : isExpiredFromCache A store algNow now item = false := by
    rw [← Bool.not_eq_true, isExpiredFromCache_iff]
    exact hfresh
  have hload : Load A S store algNow now key = ((some item.alg, none), store, []) := by
    unfold Load
    simp only [hcached, hexp, Bool.not_false, if_true]
  rw [hload]
  exact ⟨rfl, rfl, rfl, hcached⟩

/-- The cached store that holds `"key1"`, read five nanoseconds after the entry was last
used. -/
theorem Load_hit_witness :
    (Load storedItem.algorithm (InMmemoryStore.storer storedItem.algorithm 5 5)
        fixtureCachedStore 5 5 "key1").1 = (some ⟨1⟩, none) ∧
      (Load storedItem.algorithm (InMmemoryStore.storer storedItem.algorithm 5 5)
        fixtureCachedStore 5 5 "key1").2.2 = [] ∧
      (Load storedItem.algorithm (InMmemoryStore.storer storedItem.algorithm 5 5)
        fixtureCachedStore 5 5 "key1").2.1 = fixtureCachedStore ∧
      GoMap.get (Load storedItem.algorithm (InMmemoryStore.storer storedItem.algorithm 5 5)
        fixtureCachedStore 5 5 "key1").2.1.cache "key1" =
        some { alg := ⟨1⟩, sort := storedItem.Format ⟨1⟩, lastUsedAt := 0 } :=
  Load_hit storedItem.algorithm (InMmemoryStore.storer storedItem.algorithm 5 5)
    fixtureCachedStore 5 5 "key1"
    { alg := ⟨1⟩, sort := storedItem.Format ⟨1⟩, lastUsedAt := 0 }
    (by simp [fixtureCachedStore, GoMap.get])
    (by norm_num [Time.Sub, minDuration, maxDuration,
      fixtureCachedStore, storedItem.algorithm, storedItem.ExpireAt])

/-- On a miss or an expired entry `Load` takes the path that reads the wrapped store. -/
theorem Load_of_miss {T β : Type} (A : Algorithm T) (S : AlgorithmStorer T β)
    (store : CachedStore T β) (algNow now : Time) (key : String)
    (hmiss : GoMap.get store.cache key = none ∨
      ∃ e, GoMap.get store.cache key = some e ∧
        (now > A.ExpireAt e.alg algNow ∨ Time.Sub now e.lastUsedAt > store.cacheDuration)) :
    Load A S store algNow now key =
      match (S.Load store.actualStore key).1.2 with
      | some err =>
        (((S.Load store.actualStore key).1.1,
            some (Error.Errorf "can't load alg: %w" none err)),
          { store with actualStore := (S.Load store.actualStore key).2 },
          [BackendCall.Load key])
      | none =>
        match (S.Load store.actualStore key).1.1 with
        | none =>
          ((none, none), { store with actualStore := (S.Load store.actualStore key).2 },
            [BackendCall.Load key])
        | some alg =>
          ((some alg, none),
            (if store.cacheSize > 0 then
              { store with
                actualStore := (S.Load store.actualStore key).2
                cache := GoMap.set store.cache key (newCachedItem A algNow alg now) }
            else { store with actualStore := (S.Load store.actualStore key).2 }),
            [BackendCall.Load key]) := by
  unfold Load
  rcases hmiss with h | ⟨e, h, hexp⟩
  · simp only [h]
  · have hexp' : isExpiredFromCache A store algNow now e = true :=
      (isExpiredFromCache_iff A store algNow now e).mpr hexp
    simp only [h, hexp', Bool.not_true, Bool.false_eq_true, if_false]

/-- C12: for a key that is not cached, or whose entry is expired (`now > ExpireAt` or
`now − lastUsedAt > cacheDuration`, both strict), `Load(key)` makes exactly one call on the
wrapped store, `Load(key)`. When that call finds nothing, `Load` returns nothing and the cache
is as it was; when it finds `v`, `Load` returns `v` and, if `cacheSize > 0`, the entry of the
key becomes `{v, SortValue(v), lastUsedAt = now}`, the other keys holding what they held;
when it fails, `Load` returns its error wrapped and the cache is as it was. -/
theorem Load_miss_reads_through {T β : Type} (A : Algorithm T) (S : AlgorithmStorer T β)
    (store : CachedStore T β) (algNow now : Time) (key : String)
    (hmiss : GoMap.get store.cache key = none ∨
      ∃ e, GoMap.get store.cache key = some e ∧
        (now > A.ExpireAt e.alg algNow ∨ Time.Sub now e.lastUsedAt > store.cacheDuration)) :
    (Load A S store algNow now key).2.2 = [BackendCall.Load key] ∧
      (Load A S store algNow now key).2.1.actualStore = (S.Load store.actualStore key).2 ∧
      ((S.Load store.actualStore key).1 = (none, none) →
        (Load A S store algNow now key).1 = (none, none) ∧
        (Load A S store algNow now key).2.1.cache = store.cache) ∧
      (∀ v, (S.Load store.actualStore key).1 = (some v, none) →
        (Load A S store algNow now key).1 = (some v, none) ∧
        (store.cacheSize > 0 →
          GoMap.get (Load A S store algNow now key).2.1.cache key =
            some { alg := v, sort := A.SortValue v algNow, lastUsedAt := now }) ∧
        (∀ k, k ≠ key →
          GoMap.get (Load A S store algNow now key).2.1.cache k = GoMap.get store.cache k)) ∧
      (∀ ov err, (S.Load store.actualStore key).1 = (ov, some err) →
        (Load A S store algNow now key).1 =
          (ov, some (Error.Errorf "can't load alg: %w" none err)) ∧
        (Load A S store algNow now key).2.1.cache = store.cache) := by
  rw [Load_of_miss A S store algNow now key hmiss]
  rcases hr : S.Load store.actualStore key with ⟨⟨ov, oe⟩, b⟩
  cases oe with
  | some err =>
    refine ⟨rfl, rfl, fun h => ?_, fun v h => ?_, fun ov' err' h => ?_⟩
    · simp at h
    · simp at h
    · simp only [Prod.mk.injEq, Option.some.injEq] at h
      obtain ⟨rfl, rfl⟩ := h
      exact ⟨rfl, rfl⟩
  | none =>
    cases ov with
    | none =>
      refine ⟨rfl, rfl, fun _ => ⟨rfl, rfl⟩, fun v h => ?_, fun ov' err' h => ?_⟩
      · simp at h
      · simp at h
    | some w =>
      refine ⟨rfl, ?_, fun h => ?_, fun v h => ?_, fun ov' err' h => ?_⟩
      · simp only
        split <;> rfl
      · simp at h
      · simp only [Prod.mk.injEq, Option.some.injEq, and_true] at h
        subst h
        simp only
        refine ⟨trivial, fun hsize => ?_, fun k hk => ?_⟩
        · rw [if_pos hsize]
          exact GoMap.get_set_self _ _ _
        · by_cases hsize : store.cacheSize > 0
          · rw [if_pos hsize]
            exact GoMap.get_set_other _ _ _ _ hk
          · rw [if_neg hsize]
      · simp at h

/-- The cached store with an empty cache, over an empty in-memory store, asked for
`"key1"`. -/
theorem Load_miss_reads_through_witness :
    (Load storedItem.algorithm (InMmemoryStore.storer storedItem.algorithm 5 5)
        fixtureEmptyCachedStore 5 5 "key1").2.2 = [BackendCall.Load "key1"] ∧
      (Load storedItem.algorithm (InMmemoryStore.storer storedItem.algorithm 5 5)
        fixtureEmptyCachedStore 5 5 "key1").1 = (none, none) :=
  have h := Load_miss_reads_through storedItem.algorithm
    (InMmemoryStore.storer storedItem.algorithm 5 5) fixtureEmptyCachedStore 5 5 "key1"
    (Or.inl (by simp [fixtureEmptyCachedStore, GoMap.get]))
  ⟨h.1, (h.2.2.1 (by
    simp [InMmemoryStore.storer, InMmemoryStore.Load, fixtureEmptyCachedStore,
      InMmemoryStore.NewInMemoryStore, GoMap.get])).1⟩

/-- After `Store` of a key that was not cached, every other key holds what it held once
room was made. -/
theorem Store_get_other {T β : Type} (A : Algorithm T) (S : AlgorithmStorer T β)
    (store : CachedStore T β) (algNow now : Time) (key : String) (alg : T)
    (huncached : GoMap.get store.cache key = none) (k : String) (hk : k ≠ key) :
    GoMap.get (Store A S store algNow now key alg).2.1.cache k =
      GoMap.get (freeSpace A store algNow now).cache k := by
  unfold Store freeSpace
  rw [huncached]
  simp only
  generalize (if GoMap.len store.cache ≥ store.cacheSize then
      if (!(removeExpiredFromCache A store algNow now).1) = true then
        removeLastCached (removeExpiredFromCache A store algNow now).2
      else (removeExpiredFromCache A store algNow now).2
    else store) = store1
  split
  · rfl
  · simp only
    split
    · exact GoMap.get_set_other _ _ _ _ hk
    · rfl

/-- Room is made by the sweep alone when the cache is full and holds an expired entry. -/
theorem freeSpace_of_expired {T β : Type} (A : Algorithm T) (store : CachedStore T β)
    (algNow now : Time) (hnd : (store.cache.map Prod.fst).Nodup)
    (hfull : GoMap.len store.cache ≥ store.cacheSize)
    (hexp : ∃ kv ∈ store.cache, isExpiredFromCache A store algNow now kv.2 = true) :
    freeSpace A store algNow now =
      { store with cache :=
          store.cache.filter (fun kv => !isExpiredFromCache A store algNow now kv.2) } := by
  unfold freeSpace
  rw [if_pos hfull, removeExpiredFromCache_eq A store algNow now hnd]
  have hany : store.cache.any (fun kv => isExpiredFromCache A store algNow now kv.2) =
      true := by
    obtain ⟨kv, hmem, h⟩ := hexp
    exact List.any_eq_true.mpr ⟨kv, hmem, h⟩
  simp [hany]

/-- C14: the cache, a map with distinct keys, holds at least `cacheSize` entries of which at
least one is expired at the clock reading (`now > ExpireAt` or
`now − lastUsedAt > cacheDuration`); after `Store` of a key that is not cached, a key other
than the stored one holds nothing if its entry was expired and holds its entry otherwise,
whatever the `lastUsedAt` of the entries. -/
theorem Store_sweeps_expired {T β : Type} (A : Algorithm T) (S : AlgorithmStorer T β)
    (store : CachedStore T β) (algNow now : Time) (key : String) (alg : T)
    (hnd : (store.cache.map Prod.fst).Nodup)
    (huncached : GoMap.get store.cache key = none)
    (hfull : GoMap.len store.cache ≥ store.cacheSize)
    (hexp : ∃ kv ∈ store.cache,
      now > A.ExpireAt kv.2.alg algNow ∨ Time.Sub now kv.2.lastUsedAt > store.cacheDuration) :
    ∀ (k : String) (item : cachedItem T), k ≠ key → GoMap.get store.cache k = some item →
      ((now > A.ExpireAt item.alg algNow ∨ Time.Sub now item.lastUsedAt > store.cacheDuration) →
        GoMap.get (Store A S store algNow now key alg).2.1.cache k = none) ∧
      (¬ (now > A.ExpireAt item.alg algNow ∨ Time.Sub now item.lastUsedAt > store.cacheDuration) →
        GoMap.get (Store A S store algNow now key alg).2.1.cache k = some item) := by
  intro k item hk hget
  have hexp' : ∃ kv ∈ store.cache, isExpiredFromCache A store algNow now kv.2 = true := by
    obtain ⟨kv, hmem, h⟩ := hexp
    exact ⟨kv, hmem, (isExpiredFromCache_iff A store algNow now kv.2).mpr h⟩
  rw [Store_get_other A S store algNow now key alg huncached k hk,
    freeSpace_of_expired A store algNow now hnd hfull hexp']
  simp only
  rw [GoMap.get_filter _ _ _ hnd, hget]
  constructor
  · intro h
    have := (isExpiredFromCache_iff A store algNow now item).mpr h
    simp [Option.filter, this]
  · intro h
    have : isExpiredFromCache A store algNow now item = false := by
      rw [← Bool.not_eq_true, isExpiredFromCache_iff]
      exact h
    simp [Option.filter, this]

/-- The full cached store, one nanosecond after `"key1"` has been idle for an hour, is given
the hour-3 test double for `"key3"`: `"key1"` is swept and `"key2"` is kept. -/
theorem Store_sweeps_expired_witness :
    GoMap.get (Store storedItem.algorithm (InMmemoryStore.storer storedItem.algorithm 5 5)
        fixtureFullCachedStore 3600000000001 3600000000001 "key3" ⟨3⟩).2.1.cache "key1" =
        none ∧
      GoMap.get (Store storedItem.algorithm (InMmemoryStore.storer storedItem.algorithm 5 5)
        fixtureFullCachedStore 3600000000001 3600000000001 "key3" ⟨3⟩).2.1.cache "key2" =
        some { alg := ⟨2⟩, sort := storedItem.Format ⟨2⟩, lastUsedAt := 1 } :=
  have h := Store_sweeps_expired storedItem.algorithm
    (InMmemoryStore.storer storedItem.algorithm 5 5) fixtureFullCachedStore
    3600000000001 3600000000001 "key3" ⟨3⟩
    (by simp [fixtureFullCachedStore])
    (by simp [fixtureFullCachedStore, GoMap.get])
    (by simp [fixtureFullCachedStore, GoMap.len])
    ⟨("key1", { alg := ⟨1⟩, sort := storedItem.Format ⟨1⟩, lastUsedAt := 0 }),
      by simp [fixtureFullCachedStore],
      Or.inr (by norm_num [Time.Sub, minDuration, maxDuration,
      fixtureFullCachedStore])⟩
  ⟨(h "key1" { alg := ⟨1⟩, sort := storedItem.Format ⟨1⟩, lastUsedAt := 0 } (by decide)
      (by simp [fixtureFullCachedStore, GoMap.get])).1
      (Or.inr (by norm_num [Time.Sub, minDuration, maxDuration,
      fixtureFullCachedStore])),
    (h "key2" { alg := ⟨2⟩, sort := storedItem.Format ⟨2⟩, lastUsedAt := 1 } (by decide)
      (by simp [fixtureFullCachedStore, GoMap.get])).2
      (by norm_num [Time.Sub, minDuration, maxDuration,
      fixtureFullCachedStore, storedItem.algorithm, storedItem.ExpireAt])⟩

/-- The `lastUsedAt` read through a key that holds an entry. -/
theorem lastUsedAtOf_of_get {T : Type} (cache : List (String × cachedItem T)) (k : String)
    (item : cachedItem T) (h : GoMap.get cache k = some item) :
    lastUsedAtOf cache k = item.lastUsedAt := by
  unfold lastUsedAtOf
  rw [h]

/-- The second loop of `removeLastCached`, over any entries `l` of the cache and from any
cached key `minKey`: the key it ends on is cached and was last used no later than `minKey`
and than every entry of `l`. -/
theorem minKey_foldl {T : Type} (cache : List (String × cachedItem T))
    (hnd : (cache.map Prod.fst).Nodup) (l : List (String × cachedItem T)) :
    ∀ (minKey : String), (∀ kv ∈ l, kv ∈ cache) → minKey ∈ cache.map Prod.fst →
      (l.foldl (fun (minKey : String) (kv : String × cachedItem T) =>
          if Time.After (lastUsedAtOf cache minKey) kv.2.lastUsedAt then kv.1 else minKey)
        minKey) ∈ cache.map Prod.fst ∧
      lastUsedAtOf cache (l.foldl (fun (minKey : String) (kv : String × cachedItem T) =>
          if Time.After (lastUsedAtOf cache minKey) kv.2.lastUsedAt then kv.1 else minKey)
        minKey) ≤ lastUsedAtOf cache minKey ∧
      ∀ kv ∈ l, lastUsedAtOf cache (l.foldl
          (fun (minKey : String) (kv : String × cachedItem T) =>
            if Time.After (lastUsedAtOf cache minKey) kv.2.lastUsedAt then kv.1 else minKey)
          minKey) ≤ kv.2.lastUsedAt := by
  induction l with
  | nil =>
    intro minKey _ hmin
    exact ⟨hmin, le_refl _, fun kv h => absurd h (List.not_mem_nil kv)⟩
  | cons e l ih =>
    intro minKey hl hmin
    have he : e ∈ cache := hl e (List.mem_cons_self _ _)
    have hl' : ∀ kv ∈ l, kv ∈ cache := fun kv h => hl kv (List.mem_cons_of_mem _ h)
    have hlast : lastUsedAtOf cache e.1 = e.2.lastUsedAt := by
      unfold lastUsedAtOf
      rw [GoMap.get_of_mem cache e.1 e.2 hnd he]
    simp only [List.foldl_cons]
    by_cases hafter : Time.After (lastUsedAtOf cache minKey) e.2.lastUsedAt = true
    · rw [if_pos hafter]
      have hlt : e.2.lastUsedAt < lastUsedAtOf cache minKey := by
        simpa [Time.After] using hafter
      obtain ⟨h1, h2, h3⟩ := ih e.1 hl' (List.mem_map.mpr ⟨e, he, rfl⟩)
      rw [hlast] at h2
      refine ⟨h1, le_trans h2 (le_of_lt hlt), fun kv hkv => ?_⟩
      rcases List.mem_cons.mp hkv with rfl | hmem
      · exact h2
      · exact h3 kv hmem
    · rw [if_neg hafter]
      have hle : lastUsedAtOf cache minKey ≤ e.2.lastUsedAt := by
        simpa [Time.After] using hafter
      obtain ⟨h1, h2, h3⟩ := ih minKey hl' hmin
      refine ⟨h1, h2, fun kv hkv => ?_⟩
      rcases List.mem_cons.mp hkv with rfl | hmem
      · exact le_trans h2 hle
      · exact h3 kv hmem

/-- What `removeLastCached` does to a non-empty cache with distinct keys: it deletes one
cached key, whose entry was last used no later than any entry. -/
theorem removeLastCached_spec {T β : Type} (store : CachedStore T β)
    (hnd : (store.cache.map Prod.fst).Nodup) (hne : store.cache ≠ []) :
    ∃ (victim : String) (item : cachedItem T),
      GoMap.get store.cache victim = some item ∧
      (∀ kv ∈ store.cache, item.lastUsedAt ≤ kv.2.lastUsedAt) ∧
      removeLastCached store = { store with cache := GoMap.delete store.cache victim } := by
  obtain ⟨e, rest, hcache⟩ := List.exists_cons_of_ne_nil hne
  have hmin0 : e.1 ∈ store.cache.map Prod.fst := by
    rw [hcache]; simp
  have hfold := minKey_foldl store.cache hnd store.cache e.1 (fun kv h => h) hmin0
  obtain ⟨h1, _, h3⟩ := hfold
  obtain ⟨kv, hkv, hfst⟩ := List.mem_map.mp h1
  have hget := GoMap.get_of_mem store.cache kv.1 kv.2 hnd hkv
  rw [hfst] at hget
  refine ⟨_, kv.2, hget, fun x hx => ?_, ?_⟩
  · have := h3 x hx
    rw [lastUsedAtOf_of_get _ _ _ hget] at this
    exact this
  · unfold removeLastCached
    have h0 : (match store.cache with
        | [] => ""
        | (key, _) :: _ => key) = e.1 := by
      rw [hcache]
    simp only [h0]

/-- Room is made by `removeLastCached` when the cache is full and holds no expired entry. -/
theorem freeSpace_of_fresh {T β : Type} (A : Algorithm T) (store : CachedStore T β)
    (algNow now : Time) (hnd : (store.cache.map Prod.fst).Nodup)
    (hfull : GoMap.len store.cache ≥ store.cacheSize)
    (hfresh : ∀ kv ∈ store.cache, isExpiredFromCache A store algNow now kv.2 = false) :
    freeSpace A store algNow now = removeLastCached store := by
  unfold freeSpace
  rw [if_pos hfull, removeExpiredFromCache_eq A store algNow now hnd]
  have hany : store.cache.any (fun kv => isExpiredFromCache A store algNow now kv.2) =
      false := by
    rw [Bool.eq_false_iff]
    intro h
    obtain ⟨kv, hmem, hkv⟩ := List.any_eq_true.mp h
    rw [hfresh kv hmem] at hkv
    exact Bool.false_ne_true hkv
  have hfilter : store.cache.filter
      (fun kv => !isExpiredFromCache A store algNow now kv.2) = store.cache := by
    apply List.filter_eq_self.mpr
    intro kv hmem
    simp [hfresh kv hmem]
  simp only [hany, hfilter, Bool.not_false, if_true]

/-- C13: the cache, a map with distinct keys, of a store with `cacheSize ≥ 1` holds at least
`cacheSize` entries, none of them expired at the clock reading; `Store` of a key that is not
cached removes one cached entry, whose `lastUsedAt` is the minimum over all cached entries,
and every other key that was cached still holds its entry afterwards. -/
theorem Store_evicts_least_recently_used {T β : Type} (A : Algorithm T)
    (S : AlgorithmStorer T β) (store : CachedStore T β) (algNow now : Time) (key : String)
    (alg : T) (hnd : (store.cache.map Prod.fst).Nodup) (hsize : store.cacheSize ≥ 1)
    (hfull : GoMap.len store.cache ≥ store.cacheSize)
    (huncached : GoMap.get store.cache key = none)
    (hfresh : ∀ kv ∈ store.cache,
      ¬ (now > A.ExpireAt kv.2.alg algNow ∨ Time.Sub now kv.2.lastUsedAt > store.cacheDuration)) :
    ∃ (victim : String) (item : cachedItem T),
      GoMap.get store.cache victim = some item ∧
      (∀ kv ∈ store.cache, item.lastUsedAt ≤ kv.2.lastUsedAt) ∧
      GoMap.get (Store A S store algNow now key alg).2.1.cache victim = none ∧
      ∀ k, k ≠ victim → k ≠ key →
        GoMap.get (Store A S store algNow now key alg).2.1.cache k =
          GoMap.get store.cache k := by
  have hfresh' : ∀ kv ∈ store.cache, isExpiredFromCache A store algNow now kv.2 = false := by
    intro kv hmem
    rw [← Bool.not_eq_true, isExpiredFromCache_iff]
    exact hfresh kv hmem
  have hne : store.cache ≠ [] := by
    intro h
    have hlen : GoMap.len store.cache = 0 := by simp [GoMap.len, h]
    rw [hlen] at hfull
    have h1 : (1 : Int) ≤ 0 := le_trans hsize hfull
    exact absurd h1 (by decide)
  obtain ⟨victim, item, hget, hmin, hrm⟩ := removeLastCached_spec store hnd hne
  have hfs := freeSpace_of_fresh A store algNow now hnd hfull hfresh'
  have hvk : victim ≠ key := by
    intro h
    rw [h, huncached] at hget
    exact absurd hget (by simp)
  refine ⟨victim, item, hget, hmin, ?_, fun k hk1 hk2 => ?_⟩
  · rw [Store_get_other A S store algNow now key alg huncached victim hvk, hfs, hrm]
    simp [GoMap.get_delete]
  · rw [Store_get_other A S store algNow now key alg huncached k hk2, hfs, hrm]
    simp [GoMap.get_delete, hk1]

/-- The full cached store, none of whose entries is expired at instant 2, is given the
hour-3 test double for `"key3"`. -/
theorem Store_evicts_least_recently_used_witness :
    ∃ (victim : String) (item : cachedItem storedItem),
      GoMap.get fixtureFullCachedStore.cache victim = some item ∧
      (∀ kv ∈ fixtureFullCachedStore.cache, item.lastUsedAt ≤ kv.2.lastUsedAt) ∧
      GoMap.get (Store storedItem.algorithm (InMmemoryStore.storer storedItem.algorithm 2 2)
        fixtureFullCachedStore 2 2 "key3" ⟨3⟩).2.1.cache victim = none ∧
      ∀ k, k ≠ victim → k ≠ "key3" →
        GoMap.get (Store storedItem.algorithm
          (InMmemoryStore.storer storedItem.algorithm 2 2)
          fixtureFullCachedStore 2 2 "key3" ⟨3⟩).2.1.cache k =
          GoMap.get fixtureFullCachedStore.cache k :=
  Store_evicts_least_recently_used storedItem.algorithm
    (InMmemoryStore.storer storedItem.algorithm 2 2) fixtureFullCachedStore 2 2 "key3" ⟨3⟩
    (by simp [fixtureFullCachedStore])
    (by simp [fixtureFullCachedStore])
    (by simp [fixtureFullCachedStore, GoMap.len])
    (by simp [fixtureFullCachedStore, GoMap.get])
    (by
      intro kv hmem
      simp only [fixtureFullCachedStore, List.mem_cons, List.mem_singleton,
        List.not_mem_nil, or_false] at hmem
      rcases hmem with rfl | rfl <;>
        norm_num [Time.Sub, minDuration, maxDuration,
      fixtureFullCachedStore, storedItem.algorithm, storedItem.ExpireAt])

/-- The flush keeps the keys of the entries, in order. -/
theorem flushedEntries_keys {T β : Type} (A : Algorithm T) (S : AlgorithmStorer T β)
    (algNow : Time) (l : List (String × cachedItem T)) :
    ∀ b : β, (flushedEntries A S algNow b l).map Prod.fst = l.map Prod.fst := by
  induction l with
  | nil => intro b; rfl
  | cons kv l ih =>
    intro b
    unfold flushedEntries
    by_cases h : kv.2.sort ≠ ""
    · rw [if_pos h]
      simp [ih]
    · rw [if_neg h]
      simp [ih]

/-- The flush of an entry with a non-empty `sort`, then of the entries after it. -/
theorem flushedEntries_cons_pos {T β : Type} (A : Algorithm T) (S : AlgorithmStorer T β)
    (algNow : Time) (b : β) (kv : String × cachedItem T) (l : List (String × cachedItem T))
    (h : kv.2.sort ≠ "") :
    flushedEntries A S algNow b (kv :: l) =
      (kv.1, newCachedItem A algNow (S.Store b kv.1 kv.2.alg).1.1 kv.2.lastUsedAt) ::
        flushedEntries A S algNow (S.Store b kv.1 kv.2.alg).2 l := by
  conv_lhs => unfold flushedEntries
  rw [if_pos h]

/-- The flush of an entry with an empty `sort`, then of the entries after it. -/
theorem flushedEntries_cons_neg {T β : Type} (A : Algorithm T) (S : AlgorithmStorer T β)
    (algNow : Time) (b : β) (kv : String × cachedItem T) (l : List (String × cachedItem T))
    (h : ¬ kv.2.sort ≠ "") :
    flushedEntries A S algNow b (kv :: l) = kv :: flushedEntries A S algNow b l := by
  conv_lhs => unfold flushedEntries
  rw [if_neg h]

/-- The wrapped store after an entry with a non-empty `sort`, then the entries after it. -/
theorem flushedStore_cons_pos {T β : Type} (S : AlgorithmStorer T β) (b : β)
    (kv : String × cachedItem T) (l : List (String × cachedItem T)) (h : kv.2.sort ≠ "") :
    flushedStore S b (kv :: l) = flushedStore S (S.Store b kv.1 kv.2.alg).2 l := by
  conv_lhs => unfold flushedStore
  rw [if_pos h]

/-- The wrapped store after an entry with an empty `sort`, then the entries after it. -/
theorem flushedStore_cons_neg {T β : Type} (S : AlgorithmStorer T β) (b : β)
    (kv : String × cachedItem T) (l : List (String × cachedItem T)) (h : ¬ kv.2.sort ≠ "") :
    flushedStore S b (kv :: l) = flushedStore S b l := by
  conv_lhs => unfold flushedStore
  rw [if_neg h]

/-- The flush of a list of entries, entry by entry: the entries before a given one are
flushed first, and the given one is flushed in the state they leave. -/
theorem flushedEntries_append {T β : Type} (A : Algorithm T) (S : AlgorithmStorer T β)
    (algNow : Time) (pre : List (String × cachedItem T)) (kv : String × cachedItem T)
    (post : List (String × cachedItem T)) :
    ∀ b : β, flushedEntries A S algNow b (pre ++ kv :: post) =
      flushedEntries A S algNow b pre ++
        (if kv.2.sort ≠ "" then
          (kv.1, newCachedItem A algNow (S.Store (flushedStore S b pre) kv.1 kv.2.alg).1.1
            kv.2.lastUsedAt)
        else kv) ::
        flushedEntries A S algNow
          (if kv.2.sort ≠ "" then (S.Store (flushedStore S b pre) kv.1 kv.2.alg).2
            else flushedStore S b pre) post := by
  induction pre with
  | nil =>
    intro b
    have h0 : flushedStore S b [] = b := rfl
    have h1 : flushedEntries A S algNow b [] = [] := rfl
    rw [List.nil_append, h0, h1, List.nil_append]
    by_cases h : kv.2.sort ≠ ""
    · rw [if_pos h, if_pos h, flushedEntries_cons_pos A S algNow b kv post h]
    · rw [if_neg h, if_neg h, flushedEntries_cons_neg A S algNow b kv post h]
  | cons e pre ih =>
    intro b
    rw [List.cons_append]
    by_cases h : e.2.sort ≠ ""
    · rw [flushedEntries_cons_pos A S algNow b e (pre ++ kv :: post) h, ih,
        flushedEntries_cons_pos A S algNow b e pre h, flushedStore_cons_pos S b e pre h,
        List.cons_append]
    · rw [flushedEntries_cons_neg A S algNow b e (pre ++ kv :: post) h, ih,
        flushedEntries_cons_neg A S algNow b e pre h, flushedStore_cons_neg S b e pre h,
        List.cons_append]

/-- The loop of the flush, over the entries `rest` that are still to visit, the entries `pre`
having been visited: the entries become what the specification says, the wrapped store ends
in the state that the `Store` calls leave, and one call is made for each entry with a
non-empty `sort`, in order. -/
theorem flush_foldl {T β : Type} (A : Algorithm T) (S : AlgorithmStorer T β) (algNow : Time)
    (rest : List (String × cachedItem T)) :
    ∀ (pre : List (String × cachedItem T)) (st : CachedStore T β)
      (tr : List (BackendCall T)) (errs : List Error),
      st.cache = pre ++ rest → ((pre ++ rest).map Prod.fst).Nodup →
      ∃ errs1 : List Error,
        rest.foldl
          (fun (acc : CachedStore T β × List (BackendCall T) × List Error)
              (kv : String × cachedItem T) =>
            if kv.2.sort ≠ "" then
              let r := S.Store acc.1.actualStore kv.1 kv.2.alg
              let errs := match r.1.2 with
                | some err => acc.2.2 ++ [err]
                | none => acc.2.2
              ({ acc.1 with
                  actualStore := r.2
                  cache := GoMap.set acc.1.cache kv.1
                    (newCachedItem A algNow r.1.1 kv.2.lastUsedAt) },
                acc.2.1 ++ [BackendCall.Store kv.1 kv.2.alg], errs)
            else acc)
          (st, tr, errs) =
        ({ st with
            actualStore := flushedStore S st.actualStore rest
            cache := pre ++ flushedEntries A S algNow st.actualStore rest },
          tr ++ (rest.filter (fun kv => decide (kv.2.sort ≠ ""))).map
            (fun kv => BackendCall.Store kv.1 kv.2.alg),
          errs1) := by
  induction rest with
  | nil =>
    intro pre st tr errs hc _
    refine ⟨errs, ?_⟩
    simp only [List.foldl_nil, flushedStore, flushedEntries, List.filter_nil, List.map_nil,
      List.append_nil]
    rw [List.append_nil] at hc
    rw [← hc]
  | cons kv rest ih =>
    intro pre st tr errs hc hnd
    have hnotin : kv.1 ∉ pre.map Prod.fst := by
      intro hmem
      rw [List.map_append, List.map_cons] at hnd
      have hd := (List.nodup_append.mp hnd).2.2
      exact hd hmem (List.mem_cons_self _ _)
    simp only [List.foldl_cons]
    by_cases h : kv.2.sort ≠ ""
    · rw [if_pos h]
      have hset : GoMap.set st.cache kv.1
          (newCachedItem A algNow (S.Store st.actualStore kv.1 kv.2.alg).1.1
            kv.2.lastUsedAt) =
          (pre ++ [(kv.1, newCachedItem A algNow (S.Store st.actualStore kv.1 kv.2.alg).1.1
            kv.2.lastUsedAt)]) ++ rest := by
        rw [hc]
        have hkv : kv = (kv.1, kv.2) := rfl
        rw [hkv, GoMap.set_append_cons pre rest kv.1 kv.2 _ hnotin]
        simp
      have hnd' : (((pre ++ [(kv.1, newCachedItem A algNow
          (S.Store st.actualStore kv.1 kv.2.alg).1.1 kv.2.lastUsedAt)]) ++ rest).map
          Prod.fst).Nodup := by
        simpa using hnd
      obtain ⟨errs1, hih⟩ := ih _
        { st with
            actualStore := (S.Store st.actualStore kv.1 kv.2.alg).2
            cache := GoMap.set st.cache kv.1
              (newCachedItem A algNow (S.Store st.actualStore kv.1 kv.2.alg).1.1
                kv.2.lastUsedAt) }
        (tr ++ [BackendCall.Store kv.1 kv.2.alg])
        (match (S.Store st.actualStore kv.1 kv.2.alg).1.2 with
          | some err => errs ++ [err]
          | none => errs) hset hnd'
      refine ⟨errs1, ?_⟩
      simp only at hih ⊢
      rw [hih]
      rw [flushedEntries_cons_pos A S algNow st.actualStore kv rest h,
        flushedStore_cons_pos S st.actualStore kv rest h]
      simp [List.filter_cons, h]
    · rw [if_neg h]
      have hc' : st.cache = (pre ++ [kv]) ++ rest := by
        rw [hc]; simp
      have hnd' : (((pre ++ [kv]) ++ rest).map Prod.fst).Nodup := by
        simpa using hnd
      obtain ⟨errs1, hih⟩ := ih (pre ++ [kv]) st tr errs hc' hnd'
      refine ⟨errs1, ?_⟩
      rw [hih]
      rw [flushedEntries_cons_neg A S algNow st.actualStore kv rest h,
        flushedStore_cons_neg S st.actualStore kv rest h]
      simp [List.filter_cons, h]

/-- The entries that are not expired have distinct keys when the cache has. -/
theorem nodup_keys_filter {T : Type} (cache : List (String × cachedItem T))
    (p : String × cachedItem T → Bool) (hnd : (cache.map Prod.fst).Nodup) :
    ((cache.filter p).map Prod.fst).Nodup :=
  hnd.sublist ((List.filter_sublist cache).map Prod.fst)

/-- The flush of a cache with distinct keys: the expired entries are removed, the others
become what the specification says, one `Store` call is made for each of them that has a
non-empty `sort`, in order, and the wrapped store ends in the state these calls leave. -/
theorem flushAndRefreshData_eq {T β : Type} (A : Algorithm T) (S : AlgorithmStorer T β)
    (store : CachedStore T β) (algNow now : Time) (hnd : (store.cache.map Prod.fst).Nodup) :
    ∃ errs : List Error,
      flushAndRefreshData A S store algNow now =
        ({ store with
            actualStore := flushedStore S store.actualStore
              (store.cache.filter (fun kv => !isExpiredFromCache A store algNow now kv.2))
            cache := flushedEntries A S algNow store.actualStore
              (store.cache.filter (fun kv => !isExpiredFromCache A store algNow now kv.2)) },
          ((store.cache.filter (fun kv => !isExpiredFromCache A store algNow now kv.2)).filter
            (fun kv => decide (kv.2.sort ≠ ""))).map
            (fun kv => BackendCall.Store kv.1 kv.2.alg),
          errs) := by
  have hdef : flushAndRefreshData A S store algNow now =
      (removeExpiredFromCache A store algNow now).2.cache.foldl
        (fun (acc : CachedStore T β × List (BackendCall T) × List Error)
            (kv : String × cachedItem T) =>
          if kv.2.sort ≠ "" then
            let r := S.Store acc.1.actualStore kv.1 kv.2.alg
            let errs := match r.1.2 with
              | some err => acc.2.2 ++ [err]
              | none => acc.2.2
            ({ acc.1 with
                actualStore := r.2
                cache := GoMap.set acc.1.cache kv.1
                  (newCachedItem A algNow r.1.1 kv.2.lastUsedAt) },
              acc.2.1 ++ [BackendCall.Store kv.1 kv.2.alg], errs)
          else acc)
        ((removeExpiredFromCache A store algNow now).2, [], []) := rfl
  rw [hdef, removeExpiredFromCache_eq A store algNow now hnd]
  obtain ⟨errs1, h⟩ := flush_foldl A S algNow
    (store.cache.filter (fun kv => !isExpiredFromCache A store algNow now kv.2)) []
    { store with cache :=
        store.cache.filter (fun kv => !isExpiredFromCache A store algNow now kv.2) }
    [] [] rfl (nodup_keys_filter store.cache _ hnd)
  refine ⟨errs1, ?_⟩
  simp only at h ⊢
  rw [h]
  simp

/-- C16: one flush of a cache with distinct keys. The keys afterwards are the keys of the
entries that were not expired, in order, so a key holds an entry afterwards iff it held one
that was not expired; the calls on the wrapped store are one `Store(key, cached alg)` for
each such entry with a non-empty `sort`, in order; such an entry becomes
`{returned value, SortValue(returned value), its previous lastUsedAt}`, the returned value
being that of its `Store` call in the state left by the calls for the entries before it; an
entry with an empty `sort` is left untouched. -/
theorem flushAndRefreshData_spec {T β : Type} (A : Algorithm T) (S : AlgorithmStorer T β)
    (store : CachedStore T β) (algNow now : Time) (hnd : (store.cache.map Prod.fst).Nodup) :
    (flushAndRefreshData A S store algNow now).1.cache.map Prod.fst =
        (store.cache.filter
          (fun kv => !isExpiredFromCache A store algNow now kv.2)).map Prod.fst ∧
      (∀ k, (GoMap.get (flushAndRefreshData A S store algNow now).1.cache k).isSome = true ↔
        ∃ item, GoMap.get store.cache k = some item ∧
          ¬ (now > A.ExpireAt item.alg algNow ∨
            Time.Sub now item.lastUsedAt > store.cacheDuration)) ∧
      (flushAndRefreshData A S store algNow now).2.1 =
        ((store.cache.filter (fun kv => !isExpiredFromCache A store algNow now kv.2)).filter
          (fun kv => decide (kv.2.sort ≠ ""))).map
          (fun kv => BackendCall.Store kv.1 kv.2.alg) ∧
      (∀ pre kv post,
        store.cache.filter (fun kv => !isExpiredFromCache A store algNow now kv.2) =
          pre ++ kv :: post →
        (kv.2.sort ≠ "" →
          GoMap.get (flushAndRefreshData A S store algNow now).1.cache kv.1 =
            some { alg := (S.Store (flushedStore S store.actualStore pre) kv.1 kv.2.alg).1.1
                   sort := A.SortValue
                     (S.Store (flushedStore S store.actualStore pre) kv.1 kv.2.alg).1.1 algNow
                   lastUsedAt := kv.2.lastUsedAt }) ∧
        (kv.2.sort = "" →
          GoMap.get (flushAndRefreshData A S store algNow now).1.cache kv.1 = some kv.2)) ∧
      (flushAndRefreshData A S store algNow now).1.actualStore =
        flushedStore S store.actualStore
          (store.cache.filter (fun kv => !isExpiredFromCache A store algNow now kv.2)) := by
  obtain ⟨errs, heq⟩ := flushAndRefreshData_eq A S store algNow now hnd
  rw [heq]
  have hkeys := flushedEntries_keys A S algNow
    (store.cache.filter (fun kv => !isExpiredFromCache A store algNow now kv.2))
    store.actualStore
  have hndf := nodup_keys_filter store.cache
    (fun kv => !isExpiredFromCache A store algNow now kv.2) hnd
  refine ⟨hkeys, fun k => ?_, rfl, fun pre kv post hsplit => ?_, rfl⟩
  · show (GoMap.get (flushedEntries A S algNow store.actualStore
      (store.cache.filter (fun kv => !isExpiredFromCache A store algNow now kv.2))) k).isSome
      = true ↔ _
    rw [← Bool.not_eq_false, Option.not_isSome, Option.isNone_iff_eq_none,
      GoMap.get_eq_none_iff, hkeys, ← GoMap.get_eq_none_iff, GoMap.get_filter _ _ _ hnd]
    constructor
    · intro h
      cases hget : GoMap.get store.cache k with
      | none => rw [hget] at h; exact absurd rfl h
      | some item =>
        refine ⟨item, rfl, fun hexp => ?_⟩
        have := (isExpiredFromCache_iff A store algNow now item).mpr hexp
        rw [hget] at h
        simp [Option.filter, this] at h
    · rintro ⟨item, hget, hfresh⟩
      have : isExpiredFromCache A store algNow now item = false := by
        rw [← Bool.not_eq_true, isExpiredFromCache_iff]
        exact hfresh
      rw [hget]
      simp [Option.filter, this]
  · show (kv.2.sort ≠ "" → GoMap.get (flushedEntries A S algNow store.actualStore
      (store.cache.filter (fun kv => !isExpiredFromCache A store algNow now kv.2))) kv.1 = _) ∧
      (kv.2.sort = "" → GoMap.get (flushedEntries A S algNow store.actualStore
      (store.cache.filter (fun kv => !isExpiredFromCache A store algNow now kv.2))) kv.1 = _)
    have hnd' : ((flushedEntries A S algNow store.actualStore
        (store.cache.filter
          (fun kv => !isExpiredFromCache A store algNow now kv.2))).map Prod.fst).Nodup := by
      rw [hkeys]; exact hndf
    rw [hsplit] at hnd' ⊢
    rw [flushedEntries_append] at hnd' ⊢
    constructor
    · intro hs
      rw [if_pos hs] at hnd' ⊢
      exact GoMap.get_of_mem _ _ _ hnd'
        (List.mem_append_right _ (List.mem_cons_self _ _))
    · intro hs
      have hs' : ¬ kv.2.sort ≠ "" := fun h => h hs
      rw [if_neg hs'] at hnd' ⊢
      exact GoMap.get_of_mem _ _ _ hnd'
        (List.mem_append_right _ (List.mem_cons_self _ _))

/-- The full cached store, flushed at instant 2. -/
theorem flushAndRefreshData_spec_witness :
    (flushAndRefreshData storedItem.algorithm (InMmemoryStore.storer storedItem.algorithm 2 2)
        fixtureFullCachedStore 2 2).2.1 =
      ((fixtureFullCachedStore.cache.filter
          (fun kv => !isExpiredFromCache storedItem.algorithm fixtureFullCachedStore 2 2
            kv.2)).filter
        (fun kv => decide (kv.2.sort ≠ ""))).map
        (fun kv => BackendCall.Store kv.1 kv.2.alg) :=
  (flushAndRefreshData_spec storedItem.algorithm
    (InMmemoryStore.storer storedItem.algorithm 2 2) fixtureFullCachedStore 2 2
    (by simp [fixtureFullCachedStore])).2.2.1

/-- C17 (amended): the final flush that `Stop()` performs on a cache with distinct keys, for
a key that is cached: when the entry is not expired at the clock reading of the flush and has
a non-empty `sort`, a `Store` call carrying the cached algorithm is made on the wrapped store
for the key; when the entry is expired at that clock reading, the key is no longer cached
after `Stop()` and no call on the wrapped store is made for it. -/
theorem Stop_stores_fresh_entries {T β : Type} (A : Algorithm T) (S : AlgorithmStorer T β)
    (store : CachedStore T β) (algNow now : Time) (hnd : (store.cache.map Prod.fst).Nodup)
    (k : String) (item : cachedItem T) (hget : GoMap.get store.cache k = some item) :
    (¬ (now > A.ExpireAt item.alg algNow ∨
        Time.Sub now item.lastUsedAt > store.cacheDuration) →
      item.sort ≠ "" →
        BackendCall.Store k item.alg ∈ (Stop A S store algNow now).2.1) ∧
    ((now > A.ExpireAt item.alg algNow ∨
        Time.Sub now item.lastUsedAt > store.cacheDuration) →
      GoMap.get (Stop A S store algNow now).1.cache k = none ∧
        ∀ c ∈ (Stop A S store algNow now).2.1, c.key ≠ k) := by
  obtain ⟨errs, heq⟩ := flushAndRefreshData_eq A S store algNow now hnd
  unfold Stop
  rw [heq]
  constructor
  · intro hfresh hsort
    have hexp : isExpiredFromCache A store algNow now item = false := by
      rw [← Bool.not_eq_true, isExpiredFromCache_iff]
      exact hfresh
    refine List.mem_map.mpr ⟨(k, item), ?_, rfl⟩
    refine List.mem_filter.mpr ⟨List.mem_filter.mpr ⟨GoMap.mem_of_get _ _ _ hget, ?_⟩, ?_⟩
    · simp [hexp]
    · simpa using hsort
  · intro hexpired
    have hexp : isExpiredFromCache A store algNow now item = true :=
      (isExpiredFromCache_iff A store algNow now item).mpr hexpired
    have hnot : ∀ kv ∈ store.cache.filter
        (fun kv => !isExpiredFromCache A store algNow now kv.2), kv.1 ≠ k := by
      intro kv hkv hk
      obtain ⟨hmem, hfr⟩ := List.mem_filter.mp hkv
      have hkv' : (k, kv.2) ∈ store.cache := by rw [← hk]; exact hmem
      have := GoMap.get_of_mem _ _ _ hnd hkv'
      rw [hget, Option.some.injEq] at this
      rw [← this, hexp] at hfr
      simp at hfr
    constructor
    · show GoMap.get (flushedEntries A S algNow store.actualStore
        (store.cache.filter (fun kv => !isExpiredFromCache A store algNow now kv.2))) k = none
      rw [GoMap.get_eq_none_iff, flushedEntries_keys]
      intro hmem
      obtain ⟨kv, hkv, hk⟩ := List.mem_map.mp hmem
      exact hnot kv hkv hk
    · intro c hc
      obtain ⟨kv, hkv, rfl⟩ := List.mem_map.mp hc
      exact hnot kv (List.mem_filter.mp hkv).1

/-- The full cached store, stopped at instant 2: `"key1"` is cached, not expired and has a
non-empty `sort`. -/
theorem Stop_stores_fresh_entries_witness :
    BackendCall.Store "key1" ⟨1⟩ ∈
      (Stop storedItem.algorithm (InMmemoryStore.storer storedItem.algorithm 2 2)
        fixtureFullCachedStore 2 2).2.1 :=
  (Stop_stores_fresh_entries storedItem.algorithm
    (InMmemoryStore.storer storedItem.algorithm 2 2) fixtureFullCachedStore 2 2
    (by simp [fixtureFullCachedStore]) "key1"
    { alg := ⟨1⟩, sort := storedItem.Format ⟨1⟩, lastUsedAt := 0 }
    (by simp [fixtureFullCachedStore, GoMap.get])).1
    (by
      norm_num [Time.Sub, minDuration, maxDuration, fixtureFullCachedStore,
        storedItem.algorithm, storedItem.ExpireAt])
    (by
      show storedItem.Format ⟨1⟩ ≠ ""
      rw [InMmemoryStore.Format_hour1]
      decide)

/-- C17, counterexample: the cached store of duration one second holds `"key1"` with a
non-empty `sort`, last used at instant 0; stopped at an instant of the year 2026, when the
entry has been idle for more than the cache duration, `Stop()` makes no call on the wrapped
store and the entry is gone. -/
theorem Stop_drops_expired_entry :
    GoMap.get fixtureCachedStore.cache "key1" =
        some { alg := ⟨1⟩, sort := storedItem.Format ⟨1⟩, lastUsedAt := 0 } ∧
      storedItem.Format ⟨1⟩ ≠ "" ∧
      (Stop storedItem.algorithm (InMmemoryStore.storer storedItem.algorithm
        63929347200000000000 63929347200000000000) fixtureCachedStore
        63929347200000000000 63929347200000000000).2.1 = [] ∧
      (Stop storedItem.algorithm (InMmemoryStore.storer storedItem.algorithm
        63929347200000000000 63929347200000000000) fixtureCachedStore
        63929347200000000000 63929347200000000000).1.cache = [] := by
  have hexp : isExpiredFromCache storedItem.algorithm fixtureCachedStore
      63929347200000000000 63929347200000000000
      { alg := ⟨1⟩, sort := storedItem.Format ⟨1⟩, lastUsedAt := 0 } = true := by
    rw [isExpiredFromCache_iff]
    right
    norm_num [Time.Sub, minDuration, maxDuration,
      fixtureCachedStore]
  have hc : fixtureCachedStore.cache =
      [("key1", { alg := ⟨1⟩, sort := storedItem.Format ⟨1⟩, lastUsedAt := 0 })] := rfl
  have hswept : fixtureCachedStore.cache.filter
      (fun kv => !isExpiredFromCache storedItem.algorithm fixtureCachedStore
        63929347200000000000 63929347200000000000 kv.2) = [] := by
    rw [hc]
    simp [List.filter_cons, hexp]
  refine ⟨by simp [fixtureCachedStore, GoMap.get], ?_, ?_, ?_⟩
  · rw [InMmemoryStore.Format_hour1]
    decide
  · unfold Stop
    obtain ⟨errs, heq⟩ := flushAndRefreshData_eq storedItem.algorithm
      (InMmemoryStore.storer storedItem.algorithm 63929347200000000000
        63929347200000000000) fixtureCachedStore 63929347200000000000
      63929347200000000000 (by simp [fixtureCachedStore])
    rw [heq, hswept]
    rfl
  · unfold Stop
    obtain ⟨errs, heq⟩ := flushAndRefreshData_eq storedItem.algorithm
      (InMmemoryStore.storer storedItem.algorithm 63929347200000000000
        63929347200000000000) fixtureCachedStore 63929347200000000000
      63929347200000000000 (by simp [fixtureCachedStore])
    rw [heq, hswept]
    rfl

/-- `Store` of a key that the cache holds. -/
theorem Store_of_cached {T β : Type} (A : Algorithm T) (S : AlgorithmStorer T β)
    (store : CachedStore T β) (algNow now : Time) (key : String) (alg : T)
    (hcached : key ∈ store.cache.map Prod.fst) :
    Store A S store algNow now key alg =
      ((alg, none),
        { store with cache := GoMap.set store.cache key (newCachedItem A algNow alg now) },
        []) := by
  unfold Store
  cases hget : GoMap.get store.cache key with
  | none => exact absurd hcached ((GoMap.get_eq_none_iff _ _).mp hget)
  | some item => rfl

/-- A first write, then the writes after it. -/
theorem StoreAll_cons {T β : Type} (A : Algorithm T) (S : AlgorithmStorer T β)
    (key : String) (store : CachedStore T β) (algNow now : Time) (alg : T)
    (ws : List (Time × Time × T)) :
    StoreAll A S key store ((algNow, now, alg) :: ws) =
      ((StoreAll A S key (Store A S store algNow now key alg).2.1 ws).1,
        (Store A S store algNow now key alg).2.2 ++
          (StoreAll A S key (Store A S store algNow now key alg).2.1 ws).2) := rfl

/-- Writes of a key that the cache holds make no call on the wrapped store and keep the keys
of the cache, the wrapped store and the parameters of the cache. -/
theorem StoreAll_cached {T β : Type} (A : Algorithm T) (S : AlgorithmStorer T β)
    (key : String) (ws : List (Time × Time × T)) :
    ∀ (store : CachedStore T β), key ∈ store.cache.map Prod.fst →
      (StoreAll A S key store ws).2 = [] ∧
      (StoreAll A S key store ws).1.cache.map Prod.fst = store.cache.map Prod.fst ∧
      (StoreAll A S key store ws).1.actualStore = store.actualStore ∧
      (StoreAll A S key store ws).1.cacheSize = store.cacheSize ∧
      (StoreAll A S key store ws).1.cacheDuration = store.cacheDuration := by
  induction ws with
  | nil => intro store _; exact ⟨rfl, rfl, rfl, rfl, rfl⟩
  | cons w ws ih =>
    intro store hcached
    obtain ⟨algNow, now, alg⟩ := w
    rw [StoreAll_cons, Store_of_cached A S store algNow now key alg hcached]
    have hkeys := GoMap.keys_set_of_mem store.cache key (newCachedItem A algNow alg now)
      hcached
    obtain ⟨h1, h2, h3, h4, h5⟩ := ih
      { store with cache := GoMap.set store.cache key (newCachedItem A algNow alg now) }
      (by rw [hkeys]; exact hcached)
    refine ⟨?_, ?_, h3, h4, h5⟩
    · show [] ++ _ = []
      rw [h1]; rfl
    · show (StoreAll A S key _ ws).1.cache.map Prod.fst = _
      rw [h2, hkeys]

/-- Writes in turn: the writes of a first list, then those of a second. -/
theorem StoreAll_append {T β : Type} (A : Algorithm T) (S : AlgorithmStorer T β)
    (key : String) (ws1 ws2 : List (Time × Time × T)) :
    ∀ (store : CachedStore T β),
      StoreAll A S key store (ws1 ++ ws2) =
        ((StoreAll A S key (StoreAll A S key store ws1).1 ws2).1,
          (StoreAll A S key store ws1).2 ++
            (StoreAll A S key (StoreAll A S key store ws1).1 ws2).2) := by
  induction ws1 with
  | nil => intro store; simp [StoreAll]
  | cons w ws1 ih =>
    intro store
    obtain ⟨algNow, now, alg⟩ := w
    rw [List.cons_append, StoreAll_cons, StoreAll_cons, ih, List.append_assoc]

/-- Two filters in either order. -/
theorem filter_swap {α : Type} (p q : α → Bool) (l : List α) :
    (l.filter p).filter q = (l.filter q).filter p := by
  rw [List.filter_filter, List.filter_filter]
  apply List.filter_congr
  intro a _
  exact Bool.and_comm _ _

/-- The `Store` calls made for a list of entries that are about a key are those made for the
entries of that key. -/
theorem calls_filter_key {T : Type} (l : List (String × cachedItem T)) (key : String) :
    (l.map (fun kv => BackendCall.Store kv.1 kv.2.alg)).filter
        (fun c => decide (c.key = key)) =
      (l.filter (fun e => decide (e.1 = key))).map
        (fun kv => BackendCall.Store kv.1 kv.2.alg) := by
  induction l with
  | nil => rfl
  | cons e l ih =>
    have hk : (BackendCall.Store e.1 e.2.alg : BackendCall T).key = e.1 := rfl
    simp only [List.map_cons, List.filter_cons, hk, ih]
    by_cases h : e.1 = key
    · simp [h]
    · simp [h]

/-- The store after writes of a key that the cache holds, the last of them writing `algK`:
no call has been made, and the cache is the one before the last write with
`{algK, SortValue(algK), lastUsedAt = nowK}` under the key. -/
theorem StoreAll_cached_last {T β : Type} (A : Algorithm T) (S : AlgorithmStorer T β)
    (store : CachedStore T β) (key : String) (ws : List (Time × Time × T))
    (algNowK nowK : Time) (algK : T) (hcached : key ∈ store.cache.map Prod.fst) :
    StoreAll A S key store (ws ++ [(algNowK, nowK, algK)]) =
      ({ (StoreAll A S key store ws).1 with
          cache := GoMap.set (StoreAll A S key store ws).1.cache key
            (newCachedItem A algNowK algK nowK) }, []) := by
  obtain ⟨h1, h2, _, _, _⟩ := StoreAll_cached A S key ws store hcached
  have hmem1 : key ∈ (StoreAll A S key store ws).1.cache.map Prod.fst := by
    rw [h2]; exact hcached
  rw [StoreAll_append, StoreAll_cons, h1,
    Store_of_cached A S _ algNowK nowK key algK hmem1]
  rfl

/-- C18: a key is cached in a cache with distinct keys; `k ≥ 1` consecutive
`Store(key, alg_1 … alg_k)` make no call on the wrapped store, and the flush that follows, at
which the entry written last is not expired and has a non-empty `sort`, makes exactly one
call about that key, `Store(key, alg_k)`. -/
theorem Store_coalesces {T β : Type} (A : Algorithm T) (S : AlgorithmStorer T β)
    (store : CachedStore T β) (key : String) (item0 : cachedItem T)
    (ws : List (Time × Time × T)) (algNowK nowK : Time) (algK : T) (algNowF nowF : Time)
    (hnd : (store.cache.map Prod.fst).Nodup)
    (hcached : GoMap.get store.cache key = some item0)
    (hfresh : ¬ (nowF > A.ExpireAt algK algNowF ∨ Time.Sub nowF nowK > store.cacheDuration))
    (hsort : A.SortValue algK algNowK ≠ "") :
    (StoreAll A S key store (ws ++ [(algNowK, nowK, algK)])).2 = [] ∧
      (flushAndRefreshData A S (StoreAll A S key store (ws ++ [(algNowK, nowK, algK)])).1
        algNowF nowF).2.1.filter (fun c => decide (c.key = key)) =
        [BackendCall.Store key algK] := by
  have hmem : key ∈ store.cache.map Prod.fst :=
    List.mem_map.mpr ⟨(key, item0), GoMap.mem_of_get _ _ _ hcached, rfl⟩
  obtain ⟨_, h2, _, _, h5⟩ := StoreAll_cached A S key ws store hmem
  have hmem1 : key ∈ (StoreAll A S key store ws).1.cache.map Prod.fst := by
    rw [h2]; exact hmem
  rw [StoreAll_cached_last A S store key ws algNowK nowK algK hmem]
  refine ⟨rfl, ?_⟩
  have hkeys := GoMap.keys_set_of_mem (StoreAll A S key store ws).1.cache key
    (newCachedItem A algNowK algK nowK) hmem1
  have hnd2 : ((GoMap.set (StoreAll A S key store ws).1.cache key
      (newCachedItem A algNowK algK nowK)).map Prod.fst).Nodup := by
    rw [hkeys, h2]; exact hnd
  obtain ⟨errs, heq⟩ := flushAndRefreshData_eq A S
    { (StoreAll A S key store ws).1 with
        cache := GoMap.set (StoreAll A S key store ws).1.cache key
          (newCachedItem A algNowK algK nowK) } algNowF nowF hnd2
  simp only at heq ⊢
  rw [heq]
  simp only
  have hexp : isExpiredFromCache A
      { (StoreAll A S key store ws).1 with
          cache := GoMap.set (StoreAll A S key store ws).1.cache key
            (newCachedItem A algNowK algK nowK) } algNowF nowF
      (newCachedItem A algNowK algK nowK) = false := by
    rw [← Bool.not_eq_true, isExpiredFromCache_iff]
    show ¬ (nowF > A.ExpireAt algK algNowF ∨
      Time.Sub nowF nowK > (StoreAll A S key store ws).1.cacheDuration)
    rw [h5]
    exact hfresh
  have hfk := GoMap.filter_key _ key (newCachedItem A algNowK algK nowK) hnd2
    (GoMap.get_set_self _ _ _)
  rw [calls_filter_key, filter_swap _ (fun e : String × cachedItem T => decide (e.1 = key)),
    filter_swap _ (fun e : String × cachedItem T => decide (e.1 = key)), hfk]
  have hs : (newCachedItem A algNowK algK nowK).sort ≠ "" := hsort
  simp [List.filter_cons, hexp, hs]
  rfl

/-- The cached store that holds `"key1"` is given the hour-2 and then the hour-3 test double
for `"key1"` and is flushed at instant 3. -/
theorem Store_coalesces_witness :
    (StoreAll storedItem.algorithm (InMmemoryStore.storer storedItem.algorithm 3 3) "key1"
        fixtureCachedStore ([(1, 1, ⟨2⟩)] ++ [(2, 2, ⟨3⟩)])).2 = [] ∧
      (flushAndRefreshData storedItem.algorithm
        (InMmemoryStore.storer storedItem.algorithm 3 3)
        (StoreAll storedItem.algorithm (InMmemoryStore.storer storedItem.algorithm 3 3) "key1"
          fixtureCachedStore ([(1, 1, ⟨2⟩)] ++ [(2, 2, ⟨3⟩)])).1
        3 3).2.1.filter (fun c => decide (c.key = "key1")) =
        [BackendCall.Store "key1" ⟨3⟩] :=
  Store_coalesces storedItem.algorithm (InMmemoryStore.storer storedItem.algorithm 3 3)
    fixtureCachedStore "key1" { alg := ⟨1⟩, sort := storedItem.Format ⟨1⟩, lastUsedAt := 0 }
    [(1, 1, ⟨2⟩)] 2 2 ⟨3⟩ 3 3
    (by simp [fixtureCachedStore])
    (by simp [fixtureCachedStore, GoMap.get])
    (by norm_num [Time.Sub, minDuration, maxDuration,
      fixtureCachedStore, storedItem.algorithm, storedItem.ExpireAt])
    (by
      show storedItem.Format ⟨3⟩ ≠ ""
      decide)

/-- C15, at the failing input: a cached store of size 1 with an empty cache, over a store
that holds `"key1"` and `"key2"`, is asked to `Load("key1")` and then `Load("key2")`, at an
instant of the year 2026; both miss, both insert what the wrapped store returns, and the
cache then holds 2 entries, more than `cacheSize`. -/
theorem Load_exceeds_cacheSize :
    fixtureSmallCachedStore.cacheSize = 1 ∧
      GoMap.len fixtureSmallCachedStore.cache = 0 ∧
      (Load storedItem.algorithm
        (InMmemoryStore.storer storedItem.algorithm 63929347200000000000
          63929347200000000000)
        (Load storedItem.algorithm
          (InMmemoryStore.storer storedItem.algorithm 63929347200000000000
            63929347200000000000)
          fixtureSmallCachedStore 63929347200000000000 63929347200000000000 "key1").2.1
        63929347200000000000 63929347200000000000 "key2").2.1.cache =
        [("key1", { alg := ⟨1⟩, sort := storedItem.Format ⟨1⟩,
                    lastUsedAt := 63929347200000000000 }),
          ("key2", { alg := ⟨2⟩, sort := storedItem.Format ⟨2⟩,
                     lastUsedAt := 63929347200000000000 })] := by
  refine ⟨rfl, rfl, ?_⟩
  simp [Load, fixtureSmallCachedStore, InMmemoryStore.storer, InMmemoryStore.Load, GoMap.get,
    GoMap.set, newCachedItem, storedItem.algorithm, storedItem.SortValue]

/-- Making room in a full cache with distinct keys, of a store with `cacheSize ≥ 1`, leaves
fewer entries than there were. -/
theorem freeSpace_length_lt {T β : Type} (A : Algorithm T) (store : CachedStore T β)
    (algNow now : Time) (hnd : (store.cache.map Prod.fst).Nodup) (hsize : store.cacheSize ≥ 1)
    (hfull : GoMap.len store.cache ≥ store.cacheSize) :
    (freeSpace A store algNow now).cache.length < store.cache.length := by
  have hne : store.cache ≠ [] := by
    intro h
    have hlen : GoMap.len store.cache = 0 := by simp [GoMap.len, h]
    rw [hlen] at hfull
    exact absurd (le_trans hsize hfull) (by decide)
  by_cases hexp : ∃ kv ∈ store.cache, isExpiredFromCache A store algNow now kv.2 = true
  · rw [freeSpace_of_expired A store algNow now hnd hfull hexp]
    apply List.length_filter_lt_length_iff_exists.mpr
    obtain ⟨kv, hmem, h⟩ := hexp
    exact ⟨kv, hmem, by simp [h]⟩
  · have hfresh : ∀ kv ∈ store.cache, isExpiredFromCache A store algNow now kv.2 = false := by
      intro kv hmem
      rw [← Bool.not_eq_true]
      exact fun h => hexp ⟨kv, hmem, h⟩
    rw [freeSpace_of_fresh A store algNow now hnd hfull hfresh]
    obtain ⟨victim, item, hget, _, hrm⟩ := removeLastCached_spec store hnd hne
    rw [hrm]
    have hmem : victim ∈ store.cache.map Prod.fst :=
      List.mem_map.mpr ⟨(victim, item), GoMap.mem_of_get _ _ _ hget, rfl⟩
    have := GoMap.length_delete_of_mem store.cache victim hnd hmem
    show (GoMap.delete store.cache victim).length < store.cache.length
    omega

/-- `Store` keeps the bound: on a cache with distinct keys that holds at most `cacheSize ≥ 1`
entries, the cache holds at most `cacheSize` entries after the call. -/
theorem Store_keeps_bound {T β : Type} (A : Algorithm T) (S : AlgorithmStorer T β)
    (store : CachedStore T β) (algNow now : Time) (key : String) (alg : T)
    (hnd : (store.cache.map Prod.fst).Nodup) (hsize : store.cacheSize ≥ 1)
    (hlen : GoMap.len store.cache ≤ store.cacheSize) :
    GoMap.len (Store A S store algNow now key alg).2.1.cache ≤ store.cacheSize := by
  cases hget : GoMap.get store.cache key with
  | some item =>
    have hmem : key ∈ store.cache.map Prod.fst :=
      List.mem_map.mpr ⟨(key, item), GoMap.mem_of_get _ _ _ hget, rfl⟩
    rw [Store_of_cached A S store algNow now key alg hmem]
    show ((GoMap.set store.cache key (newCachedItem A algNow alg now)).length : Int) ≤
      store.cacheSize
    rw [GoMap.length_set_of_get _ _ _ item hget]
    exact hlen
  | none =>
    have hfs : ((freeSpace A store algNow now).cache.length : Int) + 1 ≤ store.cacheSize := by
      by_cases hfull : GoMap.len store.cache ≥ store.cacheSize
      · have hlt := freeSpace_length_lt A store algNow now hnd hsize hfull
        have hlen' : (store.cache.length : Int) ≤ store.cacheSize := hlen
        omega
      · have hfs' : freeSpace A store algNow now = store := by
          unfold freeSpace
          rw [if_neg hfull]
        rw [hfs']
        have hlt : (store.cache.length : Int) < store.cacheSize := not_le.mp hfull
        omega
    have hcases : (Store A S store algNow now key alg).2.1.cache =
          (freeSpace A store algNow now).cache ∨
        ∃ item, (Store A S store algNow now key alg).2.1.cache =
          GoMap.set (freeSpace A store algNow now).cache key item := by
      unfold Store freeSpace
      rw [hget]
      simp only
      generalize (if GoMap.len store.cache ≥ store.cacheSize then
          if (!(removeExpiredFromCache A store algNow now).1) = true then
            removeLastCached (removeExpiredFromCache A store algNow now).2
          else (removeExpiredFromCache A store algNow now).2
        else store) = store1
      split
      · exact Or.inl rfl
      · simp only
        split
        · exact Or.inr ⟨_, rfl⟩
        · exact Or.inl rfl
    rcases hcases with h | ⟨item, h⟩
    · rw [h]
      show ((freeSpace A store algNow now).cache.length : Int) ≤ store.cacheSize
      omega
    · rw [h]
      have := GoMap.length_set_le (freeSpace A store algNow now).cache key item
      show ((GoMap.set (freeSpace A store algNow now).cache key item).length : Int) ≤
        store.cacheSize
      omega

/-- The flush keeps the bound: it leaves at most as many entries as there were. -/
theorem flushAndRefreshData_keeps_bound {T β : Type} (A : Algorithm T)
    (S : AlgorithmStorer T β) (store : CachedStore T β) (algNow now : Time)
    (hnd : (store.cache.map Prod.fst).Nodup) :
    GoMap.len (flushAndRefreshData A S store algNow now).1.cache ≤ GoMap.len store.cache := by
  obtain ⟨errs, heq⟩ := flushAndRefreshData_eq A S store algNow now hnd
  rw [heq]
  have hkeys := flushedEntries_keys A S algNow
    (store.cache.filter (fun kv => !isExpiredFromCache A store algNow now kv.2))
    store.actualStore
  have hlen := congrArg List.length hkeys
  rw [List.length_map, List.length_map] at hlen
  have hle := List.length_filter_le
    (fun kv => !isExpiredFromCache A store algNow now kv.2) store.cache
  show ((flushedEntries A S algNow store.actualStore
    (store.cache.filter (fun kv => !isExpiredFromCache A store algNow now kv.2))).length : Int)
    ≤ (store.cache.length : Int)
  omega

/-- The errors collected for an entry with a non-empty `sort`, then for the entries after
it. -/
theorem flushedErrors_cons_pos {T β : Type} (S : AlgorithmStorer T β) (b : β)
    (kv : String × cachedItem T) (l : List (String × cachedItem T)) (h : kv.2.sort ≠ "") :
    flushedErrors S b (kv :: l) =
      (S.Store b kv.1 kv.2.alg).1.2.toList ++
        flushedErrors S (S.Store b kv.1 kv.2.alg).2 l := by
  conv_lhs => unfold flushedErrors
  rw [if_pos h]

/-- The errors collected for an entry with an empty `sort`, then for the entries after it. -/
theorem flushedErrors_cons_neg {T β : Type} (S : AlgorithmStorer T β) (b : β)
    (kv : String × cachedItem T) (l : List (String × cachedItem T)) (h : ¬ kv.2.sort ≠ "") :
    flushedErrors S b (kv :: l) = flushedErrors S b l := by
  conv_lhs => unfold flushedErrors
  rw [if_neg h]

/-- The error of the `Store` call made for an entry with a non-empty `sort` is among the
errors collected, whatever the entries before and after it. -/
theorem mem_flushedErrors {T β : Type} (S : AlgorithmStorer T β)
    (pre : List (String × cachedItem T)) (kv : String × cachedItem T)
    (post : List (String × cachedItem T)) (e : Error) (hsort : kv.2.sort ≠ "") :
    ∀ b : β, (S.Store (flushedStore S b pre) kv.1 kv.2.alg).1.2 = some e →
      e ∈ flushedErrors S b (pre ++ kv :: post) := by
  induction pre with
  | nil =>
    intro b herr
    have h0 : flushedStore S b [] = b := rfl
    rw [h0] at herr
    rw [List.nil_append, flushedErrors_cons_pos S b kv post hsort, herr]
    simp
  | cons x pre ih =>
    intro b herr
    rw [List.cons_append]
    by_cases h : x.2.sort ≠ ""
    · rw [flushedStore_cons_pos S b x pre h] at herr
      rw [flushedErrors_cons_pos S b x (pre ++ kv :: post) h]
      exact List.mem_append_right _ (ih _ herr)
    · rw [flushedStore_cons_neg S b x pre h] at herr
      rw [flushedErrors_cons_neg S b x (pre ++ kv :: post) h]
      exact ih _ herr

/-- The errors that the loop of the flush collects, over the entries `rest` and from any
accumulator. -/
theorem flush_foldl_errs {T β : Type} (A : Algorithm T) (S : AlgorithmStorer T β)
    (algNow : Time) (rest : List (String × cachedItem T)) :
    ∀ (st : CachedStore T β) (tr : List (BackendCall T)) (errs : List Error),
      (rest.foldl
          (fun (acc : CachedStore T β × List (BackendCall T) × List Error)
              (kv : String × cachedItem T) =>
            if kv.2.sort ≠ "" then
              let r := S.Store acc.1.actualStore kv.1 kv.2.alg
              let errs := match r.1.2 with
                | some err => acc.2.2 ++ [err]
                | none => acc.2.2
              ({ acc.1 with
                  actualStore := r.2
                  cache := GoMap.set acc.1.cache kv.1
                    (newCachedItem A algNow r.1.1 kv.2.lastUsedAt) },
                acc.2.1 ++ [BackendCall.Store kv.1 kv.2.alg], errs)
            else acc)
          (st, tr, errs)).2.2 = errs ++ flushedErrors S st.actualStore rest := by
  induction rest with
  | nil =>
    intro st tr errs
    simp [flushedErrors]
  | cons kv rest ih =>
    intro st tr errs
    simp only [List.foldl_cons]
    by_cases h : kv.2.sort ≠ ""
    · rw [if_pos h, ih, flushedErrors_cons_pos S st.actualStore kv rest h]
      cases (S.Store st.actualStore kv.1 kv.2.alg).1.2 <;> simp
    · rw [if_neg h, ih, flushedErrors_cons_neg S st.actualStore kv rest h]

/-- The errors that a flush of a cache with distinct keys collects: those of the `Store`
calls made for the entries that are not expired, in order. -/
theorem flushAndRefreshData_errs {T β : Type} (A : Algorithm T) (S : AlgorithmStorer T β)
    (store : CachedStore T β) (algNow now : Time) (hnd : (store.cache.map Prod.fst).Nodup) :
    (flushAndRefreshData A S store algNow now).2.2 =
      flushedErrors S store.actualStore
        (store.cache.filter (fun kv => !isExpiredFromCache A store algNow now kv.2)) := by
  have hdef : flushAndRefreshData A S store algNow now =
      (removeExpiredFromCache A store algNow now).2.cache.foldl
        (fun (acc : CachedStore T β × List (BackendCall T) × List Error)
            (kv : String × cachedItem T) =>
          if kv.2.sort ≠ "" then
            let r := S.Store acc.1.actualStore kv.1 kv.2.alg
            let errs := match r.1.2 with
              | some err => acc.2.2 ++ [err]
              | none => acc.2.2
            ({ acc.1 with
                actualStore := r.2
                cache := GoMap.set acc.1.cache kv.1
                  (newCachedItem A algNow r.1.1 kv.2.lastUsedAt) },
              acc.2.1 ++ [BackendCall.Store kv.1 kv.2.alg], errs)
          else acc)
        ((removeExpiredFromCache A store algNow now).2, [], []) := rfl
  rw [hdef, flush_foldl_errs, removeExpiredFromCache_eq A store algNow now hnd]
  simp

/-- For an algorithm type whose `SortValue` does not panic: in a flush of a cache with
distinct keys, the `Store` call made for an entry that is not expired and has a non-empty
`sort` returns an error. The error is collected, the calls made are still one `Store` for
each entry that is not expired and has a non-empty `sort`, the keys of the cache are those of
the entries that were not expired, and the key of the failing entry then holds
`{value returned with the error, SortValue(that value), its previous lastUsedAt}`. -/
theorem flushAndRefreshData_backend_error {T β : Type} (A : Algorithm T)
    (S : AlgorithmStorer T β) (store : CachedStore T β) (algNow now : Time)
    (hnd : (store.cache.map Prod.fst).Nodup)
    (pre : List (String × cachedItem T)) (kv : String × cachedItem T)
    (post : List (String × cachedItem T)) (e : Error)
    (hsplit : store.cache.filter (fun kv => !isExpiredFromCache A store algNow now kv.2) =
      pre ++ kv :: post)
    (hsort : kv.2.sort ≠ "")
    (herr : (S.Store (flushedStore S store.actualStore pre) kv.1 kv.2.alg).1.2 = some e) :
    e ∈ (flushAndRefreshData A S store algNow now).2.2 ∧
      (flushAndRefreshData A S store algNow now).2.1 =
        ((pre ++ kv :: post).filter (fun kv => decide (kv.2.sort ≠ ""))).map
          (fun kv => BackendCall.Store kv.1 kv.2.alg) ∧
      (∀ x ∈ post, x.2.sort ≠ "" →
        BackendCall.Store x.1 x.2.alg ∈ (flushAndRefreshData A S store algNow now).2.1) ∧
      (flushAndRefreshData A S store algNow now).1.cache.map Prod.fst =
        (pre ++ kv :: post).map Prod.fst ∧
      GoMap.get (flushAndRefreshData A S store algNow now).1.cache kv.1 =
        some { alg := (S.Store (flushedStore S store.actualStore pre) kv.1 kv.2.alg).1.1
               sort := A.SortValue
                 (S.Store (flushedStore S store.actualStore pre) kv.1 kv.2.alg).1.1 algNow
               lastUsedAt := kv.2.lastUsedAt } := by
  have herrs := flushAndRefreshData_errs A S store algNow now hnd
  obtain ⟨errs, heq⟩ := flushAndRefreshData_eq A S store algNow now hnd
  have hndf := nodup_keys_filter store.cache
    (fun kv => !isExpiredFromCache A store algNow now kv.2) hnd
  rw [hsplit] at herrs heq hndf
  have hkeys := flushedEntries_keys A S algNow (pre ++ kv :: post) store.actualStore
  refine ⟨?_, ?_, ?_, ?_, ?_⟩
  · rw [herrs]
    exact mem_flushedErrors S pre kv post e hsort store.actualStore herr
  · rw [heq]
  · intro x hx hxs
    rw [heq]
    refine List.mem_map.mpr ⟨x, List.mem_filter.mpr ⟨?_, by simpa using hxs⟩, rfl⟩
    exact List.mem_append_right _ (List.mem_cons_of_mem _ hx)
  · rw [heq]
    exact hkeys
  · rw [heq]
    show GoMap.get (flushedEntries A S algNow store.actualStore (pre ++ kv :: post)) kv.1 = _
    have hnd' : ((flushedEntries A S algNow store.actualStore
        (pre ++ kv :: post)).map Prod.fst).Nodup := by
      rw [hkeys]; exact hndf
    rw [flushedEntries_append] at hnd' ⊢
    rw [if_pos hsort] at hnd' ⊢
    exact GoMap.get_of_mem _ _ _ hnd' (List.mem_append_right _ (List.mem_cons_self _ _))

/-- The loop of the flush over a wrapped store that never returns a nil pointer is the loop
of `flushAndRefreshData`: it returns, with the same store, calls and errors. -/
theorem flushLoop_toPointer {V β : Type} (A : Algorithm V) (S : AlgorithmStorer V β)
    (algNow : Time) (l : List (String × cachedItem V)) :
    ∀ (store : CachedStore V β) (calls : List (BackendCall V)) (errs : List Error),
      flushLoop A S.toPointer algNow l store calls errs =
        FlushOutcome.returned
          (l.foldl
            (fun (acc : CachedStore V β × List (BackendCall V) × List Error)
                (kv : String × cachedItem V) =>
              if kv.2.sort ≠ "" then
                let r := S.Store acc.1.actualStore kv.1 kv.2.alg
                let errs := match r.1.2 with
                  | some err => acc.2.2 ++ [err]
                  | none => acc.2.2
                ({ acc.1 with
                    actualStore := r.2
                    cache := GoMap.set acc.1.cache kv.1
                      (newCachedItem A algNow r.1.1 kv.2.lastUsedAt) },
                  acc.2.1 ++ [BackendCall.Store kv.1 kv.2.alg], errs)
              else acc)
            (store, calls, errs)).1
          (l.foldl
            (fun (acc : CachedStore V β × List (BackendCall V) × List Error)
                (kv : String × cachedItem V) =>
              if kv.2.sort ≠ "" then
                let r := S.Store acc.1.actualStore kv.1 kv.2.alg
                let errs := match r.1.2 with
                  | some err => acc.2.2 ++ [err]
                  | none => acc.2.2
                ({ acc.1 with
                    actualStore := r.2
                    cache := GoMap.set acc.1.cache kv.1
                      (newCachedItem A algNow r.1.1 kv.2.lastUsedAt) },
                  acc.2.1 ++ [BackendCall.Store kv.1 kv.2.alg], errs)
              else acc)
            (store, calls, errs)).2.1
          (l.foldl
            (fun (acc : CachedStore V β × List (BackendCall V) × List Error)
                (kv : String × cachedItem V) =>
              if kv.2.sort ≠ "" then
                let r := S.Store acc.1.actualStore kv.1 kv.2.alg
                let errs := match r.1.2 with
                  | some err => acc.2.2 ++ [err]
                  | none => acc.2.2
                ({ acc.1 with
                    actualStore := r.2
                    cache := GoMap.set acc.1.cache kv.1
                      (newCachedItem A algNow r.1.1 kv.2.lastUsedAt) },
                  acc.2.1 ++ [BackendCall.Store kv.1 kv.2.alg], errs)
              else acc)
            (store, calls, errs)).2.2 := by
  induction l with
  | nil => intro store calls errs; rfl
  | cons kv l ih =>
    intro store calls errs
    rw [List.foldl_cons]
    by_cases hs : kv.2.sort ≠ ""
    · simp only [flushLoop, if_pos hs, AlgorithmStorer.toPointer]
      rw [← ih]
      rfl
    · simp only [flushLoop, if_neg hs]
      rw [← ih]

/-- The flush over a wrapped store that never returns a nil pointer returns, and is
`flushAndRefreshData`. -/
theorem flushAndRefreshDataOfPointer_toPointer {V β : Type} (A : Algorithm V)
    (S : AlgorithmStorer V β) (store : CachedStore V β) (algNow now : Time) :
    flushAndRefreshDataOfPointer A S.toPointer store algNow now =
      FlushOutcome.returned (flushAndRefreshData A S store algNow now).1
        (flushAndRefreshData A S store algNow now).2.1
        (flushAndRefreshData A S store algNow now).2.2 := by
  unfold flushAndRefreshDataOfPointer
  rw [flushLoop_toPointer]
  rfl

/-- C32, at the failing input: a `CachedStore[*TokenBucket]` over a `DynamoDbStore` whose
`UpdateItem` fails holds two entries that are not expired and have a non-empty `sort`,
`"key1"` and `"key2"`. The flush makes the `Store` call for `"key1"`, which returns the nil
pointer with the error, collects the error, and panics in `newCachedItem`: no call is made
for `"key2"`, and `"key1"` still holds the algorithm that was cached before the flush. -/
theorem flushAndRefreshData_panics_on_nil :
    (removeExpiredFromCache TokenBucket.algorithm fixturePointerCachedStore
        63082285200000000000 63082285200000000000).2.cache.map Prod.fst =
      ["key1", "key2"] ∧
    (fixturePointerCachedStore.cache.map (fun kv => decide (kv.2.sort ≠ ""))) =
      [true, true] ∧
    (failingDynamoDbStore.Store () "key1"
        ⟨.fin 9, .fin 10, .fin 1, 63082285200000000000⟩).1 =
      (none, some (Error.Errorf "can't put item into dynamodb: %w" none
        (Error.backend "UpdateItem"))) ∧
    (flushAndRefreshDataOfPointer TokenBucket.algorithm failingDynamoDbStore
        fixturePointerCachedStore 63082285200000000000 63082285200000000000).isPanic =
      true ∧
    (flushAndRefreshDataOfPointer TokenBucket.algorithm failingDynamoDbStore
        fixturePointerCachedStore 63082285200000000000 63082285200000000000).calls.map
        BackendCall.key = ["key1"] ∧
    (flushAndRefreshDataOfPointer TokenBucket.algorithm failingDynamoDbStore
        fixturePointerCachedStore 63082285200000000000 63082285200000000000).errs =
      [Error.Errorf "can't put item into dynamodb: %w" none (Error.backend "UpdateItem")] ∧
    (GoMap.get (flushAndRefreshDataOfPointer TokenBucket.algorithm failingDynamoDbStore
        fixturePointerCachedStore 63082285200000000000
        63082285200000000000).store.cache "key1").map cachedItem.alg =
      some ⟨.fin 9, .fin 10, .fin 1, 63082285200000000000⟩ := by
  refine ⟨by decide!, by decide!, by decide!, by decide!, by decide!, by decide!, by decide!⟩

/-- With `cacheSize = 0` and an empty cache, `Store` is one `Store` call on the wrapped
store: it returns the value of that call and, wrapped, its error, and leaves the cache
empty. -/
theorem Store_of_cacheSize_zero {T β : Type} (A : Algorithm T) (S : AlgorithmStorer T β)
    (store : CachedStore T β) (algNow now : Time) (key : String) (alg : T)
    (hsize : store.cacheSize = 0) (hcache : store.cache = []) :
    Store A S store algNow now key alg =
      (((S.Store store.actualStore key alg).1.1,
          (S.Store store.actualStore key alg).1.2.map
            (Error.Errorf "can't store alg: %w" none)),
        { store with actualStore := (S.Store store.actualStore key alg).2 },
        [BackendCall.Store key alg]) := by
  obtain ⟨b, cache, size, dur⟩ := store
  simp only at hsize hcache
  subst hsize hcache
  simp only [Store, GoMap.get, GoMap.len, removeExpiredFromCache, removeLastCached,
    GoMap.delete, List.foldl_nil, List.length_nil, Nat.cast_zero, ge_iff_le, le_refl,
    if_true, Bool.not_false, gt_iff_lt, lt_self_iff_false, if_false]
  cases h : (S.Store b key alg).1.2 <;> simp

/-- With `cacheSize = 0` and an empty cache, `Load` is one `Load` call on the wrapped store:
it returns the value of that call and, wrapped, its error, and leaves the cache empty. -/
theorem Load_of_cacheSize_zero {T β : Type} (A : Algorithm T) (S : AlgorithmStorer T β)
    (store : CachedStore T β) (algNow now : Time) (key : String)
    (hsize : store.cacheSize = 0) (hcache : store.cache = []) :
    Load A S store algNow now key =
      (((S.Load store.actualStore key).1.1,
          (S.Load store.actualStore key).1.2.map (Error.Errorf "can't load alg: %w" none)),
        { store with actualStore := (S.Load store.actualStore key).2 },
        [BackendCall.Load key]) := by
  obtain ⟨b, cache, size, dur⟩ := store
  simp only at hsize hcache
  subst hsize hcache
  simp only [Load, GoMap.get, gt_iff_lt, lt_self_iff_false, if_false]
  cases h : (S.Load b key).1.2 with
  | some e => simp
  | none =>
    cases h' : (S.Load b key).1.1 <;> simp

/-- The flush of a store whose cache is empty makes no call and changes nothing. -/
theorem flushAndRefreshData_of_cache_nil {T β : Type} (A : Algorithm T)
    (S : AlgorithmStorer T β) (store : CachedStore T β) (algNow now : Time)
    (hcache : store.cache = []) :
    flushAndRefreshData A S store algNow now = (store, [], []) := by
  obtain ⟨b, cache, size, dur⟩ := store
  simp only at hcache
  subst hcache
  simp [flushAndRefreshData, removeExpiredFromCache]

/-- C31: a `CachedStore` with `cacheSize = 0` and an empty cache, as `NewCachedStore` makes
it, refines the pass-through over any list of `Store`, `Load` and flush calls: the cache is
empty at the end (and `cacheSize` still 0), the wrapped store has received exactly the calls
of the pass-through, one `Store(key, alg)` for each `Store(key, alg)` and one `Load(key)`
for each `Load(key)`, and is in the same state, and each call has returned the value that
the wrapped store returned, with an error exactly when the wrapped store returned one. -/
theorem run_refines_passThrough {T β : Type} (A : Algorithm T) (S : AlgorithmStorer T β)
    (calls : List (Call T)) (store : CachedStore T β)
    (hsize : store.cacheSize = 0) (hcache : store.cache = []) :
    (run A S store calls).1.cache = [] ∧
      (run A S store calls).1.cacheSize = 0 ∧
      (run A S store calls).1.actualStore = (passThrough S store.actualStore calls).1 ∧
      (run A S store calls).2.1 = (passThrough S store.actualStore calls).2.1 ∧
      (run A S store calls).2.2.map answer =
        (passThrough S store.actualStore calls).2.2.map answer := by
  induction calls generalizing store with
  | nil => exact ⟨hcache, hsize, rfl, rfl, rfl⟩
  | cons c calls ih =>
    cases c with
    | Store algNow now key alg =>
      have hS := Store_of_cacheSize_zero A S store algNow now key alg hsize hcache
      have ih' := ih { store with actualStore := (S.Store store.actualStore key alg).2 }
        hsize hcache
      simp only [run, passThrough, hS, List.map_cons, List.singleton_append]
      refine ⟨ih'.1, ih'.2.1, ih'.2.2.1, by rw [ih'.2.2.2.1], ?_⟩
      rw [ih'.2.2.2.2]
      congr 1
      cases h : (S.Store store.actualStore key alg).1.2 <;> simp [answer, h]
    | Load algNow now key =>
      have hL := Load_of_cacheSize_zero A S store algNow now key hsize hcache
      have ih' := ih { store with actualStore := (S.Load store.actualStore key).2 }
        hsize hcache
      simp only [run, passThrough, hL, List.map_cons, List.singleton_append]
      refine ⟨ih'.1, ih'.2.1, ih'.2.2.1, by rw [ih'.2.2.2.1], ?_⟩
      rw [ih'.2.2.2.2]
      congr 1
      cases h : (S.Load store.actualStore key).1.2 <;> simp [answer, h]
    | Flush algNow now =>
      have hF := flushAndRefreshData_of_cache_nil A S store algNow now hcache
      have ih' := ih store hsize hcache
      simp only [run, passThrough, hF, List.nil_append]
      exact ih'

/-- A store made by `NewCachedStore` with `cacheSize = 0` over an empty in-memory store of
size 10, for a `Store`, a `Load` of the same key, a flush and a `Load` of another key: two
`Load` calls and one `Store` call reach the wrapped store, and the cache is empty. -/
theorem run_refines_passThrough_witness :
    (run storedItem.algorithm (InMmemoryStore.storer storedItem.algorithm 5 5)
        (NewCachedStore (InMmemoryStore.NewInMemoryStore 10) 0 1000000000)
        [Call.Store 5 5 "key1" ⟨1⟩, Call.Load 5 5 "key1", Call.Flush 5 5,
          Call.Load 5 5 "key2"]).1.cache = [] ∧
      (run storedItem.algorithm (InMmemoryStore.storer storedItem.algorithm 5 5)
        (NewCachedStore (InMmemoryStore.NewInMemoryStore 10) 0 1000000000)
        [Call.Store 5 5 "key1" ⟨1⟩, Call.Load 5 5 "key1", Call.Flush 5 5,
          Call.Load 5 5 "key2"]).2.1 =
        [BackendCall.Store "key1" ⟨1⟩, BackendCall.Load "key1", BackendCall.Load "key2"] :=
  have h := run_refines_passThrough storedItem.algorithm
    (InMmemoryStore.storer storedItem.algorithm 5 5)
    [Call.Store 5 5 "key1" ⟨1⟩, Call.Load 5 5 "key1", Call.Flush 5 5, Call.Load 5 5 "key2"]
    (NewCachedStore (InMmemoryStore.NewInMemoryStore 10) 0 1000000000) rfl rfl
  ⟨h.1, by rw [h.2.2.2.1]; rfl⟩

end CachedStore

/-! ## Theorems: the in-memory store, its map -/

namespace InMmemoryStore

/-- `Store` of a key that the store does not hold, when there is room. -/
theorem Store_of_absent_room {T : Type} (A : Algorithm T) (m : InMmemoryStore T)
    (algNow now : Time) (key : String) (c : T)
    (hroom : GoMap.len m.data < m.maxSize) (habs : GoMap.get m.data key = none) :
    Store A m algNow now key c = ((c, none), { m with data := GoMap.set m.data key c }) := by
  have hnot : ¬ GoMap.len m.data ≥ m.maxSize := not_le.mpr hroom
  unfold Store
  simp only [habs, Option.isNone_none, Bool.true_and, decide_eq_true_eq, hnot, if_false]

/-- `Store` of a key that the store does not hold, when there is no room. -/
theorem Store_of_absent_full {T : Type} (A : Algorithm T) (m : InMmemoryStore T)
    (algNow now : Time) (key : String) (c : T)
    (hfull : GoMap.len m.data ≥ m.maxSize) (habs : GoMap.get m.data key = none) :
    Store A m algNow now key c = ((c, some Error.ErrMaxSizeReached), m) := by
  unfold Store
  simp only [habs, Option.isNone_none, Bool.true_and, decide_eq_true_eq, hfull, if_true]

/-- `Store` of a key that the store holds: the incumbent is kept when its sort value is
greater than the candidate's and it expired before `now`, and is overwritten otherwise. -/
theorem Store_of_held {T : Type} (A : Algorithm T) (m : InMmemoryStore T)
    (algNow now : Time) (key : String) (c v : T) (hheld : GoMap.get m.data key = some v) :
    Store A m algNow now key c =
      if A.SortValue v algNow > A.SortValue c algNow ∧ A.ExpireAt v algNow < now then
        ((c, none), m)
      else ((c, none), { m with data := GoMap.set m.data key c }) := by
  unfold Store
  simp only [hheld, Option.isNone_some, Bool.false_and, Bool.false_eq_true, if_false]
  by_cases h1 : A.SortValue v algNow > A.SortValue c algNow
  · by_cases h2 : A.ExpireAt v algNow < now
    · simp [h1, h2, Time.Before]
    · simp [h1, h2, Time.Before]
  · simp [h1]

/-- C25: a store holds fewer than `maxSize` keys and does not hold `key`; `Store(key, c)`
returns `c` and no error, a following `Load(key)` returns `c`, and `Load` of any other key
returns what it returned before. -/
theorem Store_new_key {T : Type} (A : Algorithm T) (m : InMmemoryStore T)
    (algNow now : Time) (key : String) (c : T)
    (hroom : GoMap.len m.data < m.maxSize) (habs : GoMap.get m.data key = none) :
    (Store A m algNow now key c).1 = (c, none) ∧
      Load (Store A m algNow now key c).2 key = (some c, none) ∧
      ∀ k, k ≠ key → Load (Store A m algNow now key c).2 k = Load m k := by
  rw [Store_of_absent_room A m algNow now key c hroom habs]
  refine ⟨rfl, ?_, fun k hk => ?_⟩
  · unfold Load
    simp only [GoMap.get_set_self]
  · unfold Load
    simp only [GoMap.get_set_other _ _ _ _ hk]

/-- An empty store of size 1 is given the hour-2 test double for `"key1"`. -/
theorem Store_new_key_witness :
    (Store storedItem.algorithm (NewInMemoryStore 1) 5 5 "key1" ⟨2⟩).1 = (⟨2⟩, none) ∧
      Load (Store storedItem.algorithm (NewInMemoryStore 1) 5 5 "key1" ⟨2⟩).2 "key1" =
        (some ⟨2⟩, none) ∧
      ∀ k, k ≠ "key1" →
        Load (Store storedItem.algorithm (NewInMemoryStore 1) 5 5 "key1" ⟨2⟩).2 k =
          Load (NewInMemoryStore 1) k :=
  Store_new_key storedItem.algorithm (NewInMemoryStore 1) 5 5 "key1" ⟨2⟩
    (by simp [NewInMemoryStore, GoMap.len]) (by simp [NewInMemoryStore, GoMap.get])

/-- C26: a store that holds `maxSize` keys or more and does not hold `key` answers
`Store(key, c)` with `c` and `ErrMaxSizeReached` and is left exactly as it was; `Store` of a
key that the store holds returns no error. -/
theorem Store_full {T : Type} (A : Algorithm T) (m : InMmemoryStore T)
    (algNow now : Time) (key : String) (c : T) :
    (GoMap.len m.data ≥ m.maxSize → GoMap.get m.data key = none →
        (Store A m algNow now key c).1 = (c, some Error.ErrMaxSizeReached) ∧
        (Store A m algNow now key c).2 = m) ∧
      (∀ v, GoMap.get m.data key = some v →
        (Store A m algNow now key c).1 = (c, none)) := by
  constructor
  · intro hfull habs
    rw [Store_of_absent_full A m algNow now key c hfull habs]
    exact ⟨rfl, rfl⟩
  · intro v hheld
    rw [Store_of_held A m algNow now key c v hheld]
    split <;> rfl

/-- C28: a store holds `v` for `key`. When `SortValue(v) > SortValue(c)` and `v` expired
before the current time, `Store(key, c)` leaves the store as it was, `v` included; in every
other case the store then holds `c` for `key`, the other keys holding what they held. In
both cases it returns `c` and no error. -/
theorem Store_held_key {T : Type} (A : Algorithm T) (m : InMmemoryStore T)
    (algNow now : Time) (key : String) (c v : T) (hheld : GoMap.get m.data key = some v) :
    (A.SortValue v algNow > A.SortValue c algNow ∧ A.ExpireAt v algNow < now →
        (Store A m algNow now key c).2 = m ∧
        GoMap.get (Store A m algNow now key c).2.data key = some v) ∧
      (¬ (A.SortValue v algNow > A.SortValue c algNow ∧ A.ExpireAt v algNow < now) →
        GoMap.get (Store A m algNow now key c).2.data key = some c ∧
        (∀ k, k ≠ key →
          GoMap.get (Store A m algNow now key c).2.data k = GoMap.get m.data k)) ∧
      (Store A m algNow now key c).1 = (c, none) := by
  rw [Store_of_held A m algNow now key c v hheld]
  refine ⟨fun h => ?_, fun h => ?_, ?_⟩
  · rw [if_pos h]
    exact ⟨rfl, hheld⟩
  · rw [if_neg h]
    exact ⟨GoMap.get_set_self _ _ _, fun k hk => GoMap.get_set_other _ _ _ _ hk⟩
  · split <;> rfl

/-- A store that holds the hour-2 test double for `"key1"` is given the hour-1 test double,
at an instant of the year 2026. -/
theorem Store_held_key_witness :
    GoMap.get (Store storedItem.algorithm { data := [("key1", ⟨2⟩)], maxSize := 1 }
        63929347200000000000 63929347200000000000 "key1" ⟨1⟩).2.data "key1" = some ⟨1⟩ :=
  ((Store_held_key storedItem.algorithm { data := [("key1", ⟨2⟩)], maxSize := 1 }
    63929347200000000000 63929347200000000000 "key1" ⟨1⟩ ⟨2⟩
    (by simp [GoMap.get])).2.1
    (by
      intro h
      have := h.2
      norm_num [storedItem.algorithm, storedItem.ExpireAt] at this)).1

/-- `Store` keeps the bound: a store that holds at most `maxSize` keys holds at most
`maxSize` keys after the call, and `maxSize` is not changed. -/
theorem Store_keeps_maxSize {T : Type} (A : Algorithm T) (m : InMmemoryStore T)
    (algNow now : Time) (key : String) (c : T) (hlen : GoMap.len m.data ≤ m.maxSize) :
    GoMap.len (Store A m algNow now key c).2.data ≤ (Store A m algNow now key c).2.maxSize ∧
      (Store A m algNow now key c).2.maxSize = m.maxSize := by
  cases hget : GoMap.get m.data key with
  | none =>
    by_cases hfull : GoMap.len m.data ≥ m.maxSize
    · rw [Store_of_absent_full A m algNow now key c hfull hget]
      exact ⟨hlen, rfl⟩
    · have hroom : GoMap.len m.data < m.maxSize := not_le.mp hfull
      rw [Store_of_absent_room A m algNow now key c hroom hget]
      refine ⟨?_, rfl⟩
      have h1 := GoMap.length_set_le m.data key c
      have h2 : (m.data.length : Int) < m.maxSize := hroom
      show ((GoMap.set m.data key c).length : Int) ≤ m.maxSize
      omega
  | some v =>
    rw [Store_of_held A m algNow now key c v hget]
    split
    · exact ⟨hlen, rfl⟩
    · refine ⟨?_, rfl⟩
      show ((GoMap.set m.data key c).length : Int) ≤ m.maxSize
      rw [GoMap.length_set_of_get _ _ _ v hget]
      exact hlen

/-- Any sequence of calls keeps the bound. -/
theorem run_keeps_bound {T : Type} (A : Algorithm T) (calls : List (Call T)) :
    ∀ m : InMmemoryStore T, GoMap.len m.data ≤ m.maxSize →
      GoMap.len (run A m calls).data ≤ m.maxSize ∧ (run A m calls).maxSize = m.maxSize := by
  induction calls with
  | nil => intro m h; exact ⟨h, rfl⟩
  | cons call calls ih =>
    intro m h
    cases call with
    | Store algNow now key alg =>
      obtain ⟨h1, h2⟩ := Store_keeps_maxSize A m algNow now key alg h
      obtain ⟨i1, i2⟩ := ih (Store A m algNow now key alg).2 h1
      rw [h2] at i1 i2
      exact ⟨i1, i2⟩
    | Load key => exact ih m h

/-- C27: a store created with `maxSize ≥ 0` holds at most `maxSize` keys after any sequence
of `Store` and `Load` calls. -/
theorem run_bounded {T : Type} (A : Algorithm T) (maxSize : Int) (hmax : 0 ≤ maxSize)
    (calls : List (Call T)) :
    GoMap.len (run A (NewInMemoryStore maxSize) calls).data ≤ maxSize :=
  (run_keeps_bound A calls (NewInMemoryStore maxSize) hmax).1

/-- A store of size 1 is given two keys and asked for one. -/
theorem run_bounded_witness :
    GoMap.len (run storedItem.algorithm (NewInMemoryStore 1)
      [Call.Store 5 5 "key1" ⟨1⟩, Call.Load "key1", Call.Store 5 5 "key2" ⟨2⟩]).data ≤ 1 :=
  run_bounded storedItem.algorithm 1 (by decide)
    [Call.Store 5 5 "key1" ⟨1⟩, Call.Load "key1", Call.Store 5 5 "key2" ⟨2⟩]

end InMmemoryStore

/-! ## Theorems: the rate limiter -/

/-- Every error is itself for `errors.Is`. -/
theorem Error.Is_self (e : Error) : Error.Is e e = true := by
  cases e <;> simp [Error.Is]

/-- An error wrapped with `%w` is found by `errors.Is`. -/
theorem Error.Is_Errorf (format : String) (arg : Option Float64) (e : Error) :
    Error.Is (Error.Errorf format arg e) e = true := by
  simp [Error.Is, Error.Is_self]

namespace RateLimiter

/-- The result of `Reserve` when `Load` fails. -/
theorem Reserve_of_Load_error {T β : Type} (A : Algorithm T) (r : RateLimiter T β) (b : β)
    (algNow : Time) (key : String) (tokens : Float64) (e : Error)
    (hl : (r.algStorer.Load b key).1.2 = some e) :
    Reserve A r b algNow key tokens =
      (some (Error.Errorf "can't load data from key: %w" none e), (r.algStorer.Load b key).2,
        [RateLimiterCall.Load key]) := by
  unfold Reserve loadAlgorithm
  simp only [hl]

/-- The result of `Reserve` when `Load` succeeds and the algorithm refuses. -/
theorem Reserve_of_Reserve_error {T β : Type} (A : Algorithm T) (r : RateLimiter T β) (b : β)
    (algNow : Time) (key : String) (tokens : Float64) (e : Error)
    (hl : (r.algStorer.Load b key).1.2 = none)
    (hr : (A.Reserve ((r.algStorer.Load b key).1.1.getD (r.new algNow)) algNow tokens).1 =
      some e) :
    (Reserve A r b algNow key tokens).1 =
        some (Error.Errorf "can't reserve that capacity: %w" none e) ∧
      (Reserve A r b algNow key tokens).2.1 = (r.algStorer.Load b key).2 ∧
      ∀ k a, RateLimiterCall.Store k a ∉ (Reserve A r b algNow key tokens).2.2 := by
  unfold Reserve loadAlgorithm
  simp only [hl]
  cases hv : (r.algStorer.Load b key).1.1 with
  | none =>
    rw [hv] at hr
    simp only [Option.getD_none] at hr
    simp only [hr]
    exact ⟨trivial, trivial, by simp⟩
  | some alg =>
    rw [hv] at hr
    simp only [Option.getD_some] at hr
    simp only [hr]
    exact ⟨trivial, trivial, by simp⟩

/-- The result of `Reserve` when `Load` succeeds and the algorithm accepts: the error is the
one of `Store`, wrapped. -/
theorem Reserve_of_Reserve_ok {T β : Type} (A : Algorithm T) (r : RateLimiter T β) (b : β)
    (algNow : Time) (key : String) (tokens : Float64)
    (hl : (r.algStorer.Load b key).1.2 = none)
    (hr : (A.Reserve ((r.algStorer.Load b key).1.1.getD (r.new algNow)) algNow tokens).1 =
      none) :
    (Reserve A r b algNow key tokens).1 =
      ((r.algStorer.Store (r.algStorer.Load b key).2 key
        (A.Reserve ((r.algStorer.Load b key).1.1.getD (r.new algNow)) algNow tokens).2).1.2).map
        (Error.Errorf "can't store key status: %w" none) := by
  unfold Reserve loadAlgorithm
  simp only [hl]
  cases hv : (r.algStorer.Load b key).1.1 with
  | none =>
    rw [hv] at hr
    simp only [Option.getD_none] at hr ⊢
    simp only [hr]
    split <;> simp_all
  | some alg =>
    rw [hv] at hr
    simp only [Option.getD_some] at hr ⊢
    simp only [hr]
    split <;> simp_all

/-- C19: `Reserve(key, tokens)` returns `nil` iff `Load` returns no error, the `Reserve` of
the algorithm (the loaded one, or a new one when nothing is stored) returns no error and
`Store` of the state it leaves returns no error. When `Load` fails the only step taken is this
`Load`; when the algorithm refuses no `Store` is made; in each failing case the error returned
is the error of the failing step wrapped with `%w`, which `errors.Is` finds. -/
theorem Reserve_nil_iff {T β : Type} (A : Algorithm T) (r : RateLimiter T β) (b : β)
    (algNow : Time) (key : String) (tokens : Float64) :
    ((Reserve A r b algNow key tokens).1 = none ↔
        (r.algStorer.Load b key).1.2 = none ∧
        (A.Reserve ((r.algStorer.Load b key).1.1.getD (r.new algNow)) algNow tokens).1 = none ∧
        (r.algStorer.Store (r.algStorer.Load b key).2 key
          (A.Reserve ((r.algStorer.Load b key).1.1.getD (r.new algNow)) algNow
            tokens).2).1.2 = none) ∧
      (∀ e, (r.algStorer.Load b key).1.2 = some e →
        (Reserve A r b algNow key tokens).1 =
          some (Error.Errorf "can't load data from key: %w" none e) ∧
        Error.Is (Error.Errorf "can't load data from key: %w" none e) e = true ∧
        (Reserve A r b algNow key tokens).2.2 = [RateLimiterCall.Load key]) ∧
      (∀ e, (r.algStorer.Load b key).1.2 = none →
        (A.Reserve ((r.algStorer.Load b key).1.1.getD (r.new algNow)) algNow tokens).1 =
          some e →
        (Reserve A r b algNow key tokens).1 =
          some (Error.Errorf "can't reserve that capacity: %w" none e) ∧
        Error.Is (Error.Errorf "can't reserve that capacity: %w" none e) e = true ∧
        ∀ k a, RateLimiterCall.Store k a ∉ (Reserve A r b algNow key tokens).2.2) ∧
      (∀ e, (r.algStorer.Load b key).1.2 = none →
        (A.Reserve ((r.algStorer.Load b key).1.1.getD (r.new algNow)) algNow tokens).1 =
          none →
        (r.algStorer.Store (r.algStorer.Load b key).2 key
          (A.Reserve ((r.algStorer.Load b key).1.1.getD (r.new algNow)) algNow
            tokens).2).1.2 = some e →
        (Reserve A r b algNow key tokens).1 =
          some (Error.Errorf "can't store key status: %w" none e) ∧
        Error.Is (Error.Errorf "can't store key status: %w" none e) e = true) := by
  refine ⟨?_, ?_, ?_, ?_⟩
  · cases hl : (r.algStorer.Load b key).1.2 with
    | some e =>
      rw [Reserve_of_Load_error A r b algNow key tokens e hl]
      simp
    | none =>
      cases hr : (A.Reserve ((r.algStorer.Load b key).1.1.getD (r.new algNow)) algNow
          tokens).1 with
      | some e =>
        rw [(Reserve_of_Reserve_error A r b algNow key tokens e hl hr).1]
        simp
      | none =>
        rw [Reserve_of_Reserve_ok A r b algNow key tokens hl hr]
        simp
  · intro e hl
    rw [Reserve_of_Load_error A r b algNow key tokens e hl]
    exact ⟨rfl, Error.Is_Errorf _ _ _, rfl⟩
  · intro e hl hr
    have h := Reserve_of_Reserve_error A r b algNow key tokens e hl hr
    exact ⟨h.1, Error.Is_Errorf _ _ _, h.2.2⟩
  · intro e hl hr hs
    rw [Reserve_of_Reserve_ok A r b algNow key tokens hl hr, hs]
    exact ⟨rfl, Error.Is_Errorf _ _ _⟩

/-- C20: when the `Reserve` of the algorithm fails with `ErrTooManyRequests{d}`, the error
that `RateLimiter.Reserve` returns is recognised by `errors.As` as an `ErrTooManyRequests`
carrying `d`, and is not the out-of-bounds denial. The out-of-bounds denial of the token
bucket and the errors of `Load` and `Store` that are not themselves an `ErrTooManyRequests`
(`ErrMaxSizeReached`, an error of a backend) are returned as errors that `errors.As` does not
recognise as `ErrTooManyRequests`. -/
theorem Reserve_TooManyRequests_recognisable {T β : Type} (A : Algorithm T)
    (r : RateLimiter T β) (b : β) (algNow : Time) (key : String) (tokens : Float64) :
    (∀ d, (r.algStorer.Load b key).1.2 = none →
        (A.Reserve ((r.algStorer.Load b key).1.1.getD (r.new algNow)) algNow tokens).1 =
          some (Error.ErrTooManyRequests d) →
        ∃ e, (Reserve A r b algNow key tokens).1 = some e ∧
          e.AsTooManyRequests = some d ∧ e.Is Error.errOutOfBoundsRequest = false) ∧
      (∀ m, (r.algStorer.Load b key).1.2 = none →
        (A.Reserve ((r.algStorer.Load b key).1.1.getD (r.new algNow)) algNow tokens).1 =
          some (Error.Errorf "can't reserve more than %f tokens:%w" (some m)
            Error.errOutOfBoundsRequest) →
        ∃ e, (Reserve A r b algNow key tokens).1 = some e ∧
          e.AsTooManyRequests = none ∧ e.Is Error.errOutOfBoundsRequest = true) ∧
      (∀ e0, (r.algStorer.Load b key).1.2 = some e0 → e0.AsTooManyRequests = none →
        ∃ e, (Reserve A r b algNow key tokens).1 = some e ∧ e.AsTooManyRequests = none) ∧
      (∀ e0, (r.algStorer.Load b key).1.2 = none →
        (A.Reserve ((r.algStorer.Load b key).1.1.getD (r.new algNow)) algNow tokens).1 =
          none →
        (r.algStorer.Store (r.algStorer.Load b key).2 key
          (A.Reserve ((r.algStorer.Load b key).1.1.getD (r.new algNow)) algNow
            tokens).2).1.2 = some e0 →
        e0.AsTooManyRequests = none →
        ∃ e, (Reserve A r b algNow key tokens).1 = some e ∧ e.AsTooManyRequests = none) ∧
      Error.ErrMaxSizeReached.AsTooManyRequests = none ∧
      (∀ msg, (Error.backend msg).AsTooManyRequests = none) := by
  refine ⟨?_, ?_, ?_, ?_, rfl, fun _ => rfl⟩
  · intro d hl hr
    refine ⟨_, (Reserve_of_Reserve_error A r b algNow key tokens _ hl hr).1, ?_, ?_⟩
    · simp [Error.AsTooManyRequests]
    · simp [Error.Is]
  · intro m hl hr
    refine ⟨_, (Reserve_of_Reserve_error A r b algNow key tokens _ hl hr).1, ?_, ?_⟩
    · simp [Error.AsTooManyRequests]
    · simp [Error.Is]
  · intro e0 hl h0
    rw [Reserve_of_Load_error A r b algNow key tokens e0 hl]
    exact ⟨_, rfl, by simpa [Error.AsTooManyRequests] using h0⟩
  · intro e0 hl hr hs h0
    rw [Reserve_of_Reserve_ok A r b algNow key tokens hl hr, hs]
    exact ⟨_, rfl, by simpa [Error.AsTooManyRequests] using h0⟩

/-- The steps that `Reserve` takes when `Load` returns no error: `Load`, the factory when
nothing is stored, the `Reserve` of the algorithm, and `Store` of the state it leaves when it
accepts. -/
theorem Reserve_steps {T β : Type} (A : Algorithm T) (r : RateLimiter T β) (b : β)
    (algNow : Time) (key : String) (tokens : Float64)
    (hl : (r.algStorer.Load b key).1.2 = none) :
    (Reserve A r b algNow key tokens).2.2 =
      [RateLimiterCall.Load key] ++
        (if (r.algStorer.Load b key).1.1.isNone = true then [RateLimiterCall.New] else []) ++
        [RateLimiterCall.Reserve ((r.algStorer.Load b key).1.1.getD (r.new algNow)) tokens] ++
        (if (A.Reserve ((r.algStorer.Load b key).1.1.getD (r.new algNow)) algNow
            tokens).1.isNone = true then
          [RateLimiterCall.Store key
            (A.Reserve ((r.algStorer.Load b key).1.1.getD (r.new algNow)) algNow tokens).2]
        else []) := by
  unfold Reserve loadAlgorithm
  simp only [hl]
  cases hv : (r.algStorer.Load b key).1.1 with
  | none =>
    simp only [Option.getD_none, Option.isNone_none, if_true]
    cases hr : (A.Reserve (r.new algNow) algNow tokens).1 with
    | some e => simp
    | none =>
      simp only [Option.isNone_none, if_true]
      split <;> simp
  | some alg =>
    simp only [Option.getD_some, Option.isNone_some, Bool.false_eq_true, if_false]
    cases hr : (A.Reserve alg algNow tokens).1 with
    | some e => simp
    | none =>
      simp only [Option.isNone_none, if_true]
      split <;> simp

/-- The state of the store after `Reserve` when `Load` returns no error and the algorithm
accepts: the state that `Store` leaves. -/
theorem Reserve_store_state {T β : Type} (A : Algorithm T) (r : RateLimiter T β) (b : β)
    (algNow : Time) (key : String) (tokens : Float64)
    (hl : (r.algStorer.Load b key).1.2 = none)
    (hr : (A.Reserve ((r.algStorer.Load b key).1.1.getD (r.new algNow)) algNow tokens).1 =
      none) :
    (Reserve A r b algNow key tokens).2.1 =
      (r.algStorer.Store (r.algStorer.Load b key).2 key
        (A.Reserve ((r.algStorer.Load b key).1.1.getD (r.new algNow)) algNow tokens).2).2 := by
  unfold Reserve loadAlgorithm
  simp only [hl]
  cases hv : (r.algStorer.Load b key).1.1 with
  | none =>
    rw [hv] at hr
    simp only [Option.getD_none] at hr ⊢
    simp only [hr]
    split <;> rfl
  | some alg =>
    rw [hv] at hr
    simp only [Option.getD_some] at hr ⊢
    simp only [hr]
    split <;> rfl

/-- C21: when `Load` returns no error, `Reserve(key, tokens)` applies the `Reserve` of the
algorithm to the state that `Load` returned when there is one, without calling the factory,
and to the instance that the factory builds when `Load` returned none; when that `Reserve`
accepts, the steps end with exactly one `Store`, of the same key and of the state after the
`Reserve`, on the state of the store that `Load` left. -/
theorem Reserve_data_flow {T β : Type} (A : Algorithm T) (r : RateLimiter T β) (b : β)
    (algNow : Time) (key : String) (tokens : Float64)
    (hl : (r.algStorer.Load b key).1.2 = none) :
    (∀ alg, (r.algStorer.Load b key).1.1 = some alg →
        (A.Reserve alg algNow tokens).1 = none →
        (Reserve A r b algNow key tokens).2.2 =
          [RateLimiterCall.Load key, RateLimiterCall.Reserve alg tokens,
            RateLimiterCall.Store key (A.Reserve alg algNow tokens).2] ∧
        (Reserve A r b algNow key tokens).2.1 =
          (r.algStorer.Store (r.algStorer.Load b key).2 key
            (A.Reserve alg algNow tokens).2).2) ∧
      ((r.algStorer.Load b key).1.1 = none →
        (A.Reserve (r.new algNow) algNow tokens).1 = none →
        (Reserve A r b algNow key tokens).2.2 =
          [RateLimiterCall.Load key, RateLimiterCall.New,
            RateLimiterCall.Reserve (r.new algNow) tokens,
            RateLimiterCall.Store key (A.Reserve (r.new algNow) algNow tokens).2] ∧
        (Reserve A r b algNow key tokens).2.1 =
          (r.algStorer.Store (r.algStorer.Load b key).2 key
            (A.Reserve (r.new algNow) algNow tokens).2).2) ∧
      (∀ alg, (r.algStorer.Load b key).1.1 = some alg →
        RateLimiterCall.Reserve alg tokens ∈ (Reserve A r b algNow key tokens).2.2 ∧
        RateLimiterCall.New ∉ (Reserve A r b algNow key tokens).2.2) ∧
      ((r.algStorer.Load b key).1.1 = none →
        RateLimiterCall.Reserve (r.new algNow) tokens ∈
          (Reserve A r b algNow key tokens).2.2) := by
  have hsteps := Reserve_steps A r b algNow key tokens hl
  refine ⟨fun alg hv hr => ?_, fun hv hr => ?_, fun alg hv => ?_, fun hv => ?_⟩
  · have hst := Reserve_store_state A r b algNow key tokens hl (by rw [hv]; exact hr)
    rw [hv] at hsteps hst
    simp only [Option.getD_some, Option.isNone_some, Bool.false_eq_true, if_false, hr,
      Option.isNone_none, if_true] at hsteps hst
    exact ⟨by rw [hsteps]; rfl, hst⟩
  · have hst := Reserve_store_state A r b algNow key tokens hl (by rw [hv]; exact hr)
    rw [hv] at hsteps hst
    simp only [Option.getD_none, Option.isNone_none, if_true, hr] at hsteps hst
    exact ⟨by rw [hsteps]; rfl, hst⟩
  · rw [hsteps, hv]
    simp only [Option.getD_some, Option.isNone_some, Bool.false_eq_true, if_false]
    constructor
    · simp
    · intro hmem
      simp only [List.append_nil, List.mem_append, List.mem_cons, List.mem_singleton,
        List.not_mem_nil, or_false] at hmem
      rcases hmem with (h | h) | h
      · cases h
      · cases h
      · split at h
        · simp at h
        · simp at h
  · rw [hsteps, hv]
    simp

/-- The rate limiter over an empty store is asked for 1 token for `"key"`: the factory builds
a full bucket, which accepts. -/
theorem Reserve_data_flow_witness :
    (Reserve TokenBucket.algorithm fixtureRateLimiter
        (InMmemoryStore.NewInMemoryStore 10) 0 "key" (Float64.fin 1)).2.2 =
      [RateLimiterCall.Load "key", RateLimiterCall.New,
        RateLimiterCall.Reserve (fixtureRateLimiter.new 0) (Float64.fin 1),
        RateLimiterCall.Store "key"
          (TokenBucket.algorithm.Reserve (fixtureRateLimiter.new 0) 0 (Float64.fin 1)).2] :=
  ((Reserve_data_flow TokenBucket.algorithm fixtureRateLimiter
    (InMmemoryStore.NewInMemoryStore 10) 0 "key" (Float64.fin 1) rfl).2.1 rfl
    (by decide!)).1

/-- C22 (amended): in a `Reserve` call in which `Load` returns no error, the state is written
back through `Store(key, state)`, once and with the state after the `Reserve` of the
algorithm, when the algorithm accepts the request; when it rejects it, no `Store` call is
made. -/
theorem Reserve_stores_iff_accepted {T β : Type} (A : Algorithm T) (r : RateLimiter T β)
    (b : β) (algNow : Time) (key : String) (tokens : Float64)
    (hl : (r.algStorer.Load b key).1.2 = none) :
    ((A.Reserve ((r.algStorer.Load b key).1.1.getD (r.new algNow)) algNow tokens).1 = none →
        (Reserve A r b algNow key tokens).2.2.filter RateLimiterCall.isStore =
          [RateLimiterCall.Store key
            (A.Reserve ((r.algStorer.Load b key).1.1.getD (r.new algNow)) algNow
              tokens).2]) ∧
      ((A.Reserve ((r.algStorer.Load b key).1.1.getD (r.new algNow)) algNow tokens).1 ≠
          none →
        (Reserve A r b algNow key tokens).2.2.filter RateLimiterCall.isStore = []) := by
  rw [Reserve_steps A r b algNow key tokens hl]
  constructor
  · intro hr
    rw [hr]
    cases (r.algStorer.Load b key).1.1 <;>
      simp [List.filter_cons, RateLimiterCall.isStore]
  · intro hr
    have hn : (A.Reserve ((r.algStorer.Load b key).1.1.getD (r.new algNow)) algNow
        tokens).1.isNone = false := by
      cases h : (A.Reserve ((r.algStorer.Load b key).1.1.getD (r.new algNow)) algNow
        tokens).1 with
      | none => exact absurd h hr
      | some e => rfl
    rw [hn]
    cases (r.algStorer.Load b key).1.1 <;>
      simp [List.filter_cons, RateLimiterCall.isStore]

/-- The rate limiter over an empty store is asked for 1 token for `"key"`. -/
theorem Reserve_stores_iff_accepted_witness :
    (Reserve TokenBucket.algorithm fixtureRateLimiter
        (InMmemoryStore.NewInMemoryStore 10) 0 "key" (Float64.fin 1)).2.2.filter
        RateLimiterCall.isStore =
      [RateLimiterCall.Store "key"
        (TokenBucket.algorithm.Reserve
          (((fixtureRateLimiter.algStorer.Load (InMmemoryStore.NewInMemoryStore 10)
            "key").1.1).getD (fixtureRateLimiter.new 0)) 0 (Float64.fin 1)).2] :=
  (Reserve_stores_iff_accepted TokenBucket.algorithm fixtureRateLimiter
    (InMmemoryStore.NewInMemoryStore 10) 0 "key" (Float64.fin 1) rfl).1
    (by decide!)

/-- C22, counterexample: the store holds an emptied bucket for `"key"`; `Reserve("key", 1)`
loads it without error, the bucket rejects the request, and the steps taken are `Load` and
the `Reserve` of the bucket only: no `Store` call is made. -/
theorem Reserve_rejected_makes_no_Store :
    (fixtureRateLimiter.algStorer.Load
        { data := [("key", ⟨.fin 0, .fin 10, .fin 1, 0⟩)], maxSize := 10 } "key").1 =
        (some ⟨.fin 0, .fin 10, .fin 1, 0⟩, none) ∧
      (Reserve TokenBucket.algorithm fixtureRateLimiter
        { data := [("key", ⟨.fin 0, .fin 10, .fin 1, 0⟩)], maxSize := 10 } 0 "key"
        (Float64.fin 1)).1 ≠ none ∧
      (Reserve TokenBucket.algorithm fixtureRateLimiter
        { data := [("key", ⟨.fin 0, .fin 10, .fin 1, 0⟩)], maxSize := 10 } 0 "key"
        (Float64.fin 1)).2.2 =
        [RateLimiterCall.Load "key",
          RateLimiterCall.Reserve ⟨.fin 0, .fin 10, .fin 1, 0⟩ (Float64.fin 1)] := by
  have hload : (fixtureRateLimiter.algStorer.Load
      { data := [("key", ⟨.fin 0, .fin 10, .fin 1, 0⟩)], maxSize := 10 } "key") =
      ((some ⟨.fin 0, .fin 10, .fin 1, 0⟩, none),
        { data := [("key", ⟨.fin 0, .fin 10, .fin 1, 0⟩)], maxSize := 10 }) := by
    simp [fixtureRateLimiter, InMmemoryStore.storer, InMmemoryStore.Load, GoMap.get]
  have hrej : (TokenBucket.algorithm.Reserve ⟨.fin 0, .fin 10, .fin 1, 0⟩ 0 (Float64.fin 1)).1 =
      some (Error.ErrTooManyRequests 1000000000) := by decide!
  have hl : (fixtureRateLimiter.algStorer.Load
      { data := [("key", ⟨.fin 0, .fin 10, .fin 1, 0⟩)], maxSize := 10 } "key").1.2 = none := by
    rw [hload]
  have herr := Reserve_of_Reserve_error TokenBucket.algorithm
    fixtureRateLimiter { data := [("key", ⟨.fin 0, .fin 10, .fin 1, 0⟩)], maxSize := 10 } 0
    "key" (Float64.fin 1) _ hl (by rw [hload]; exact hrej)
  have hsteps := Reserve_steps TokenBucket.algorithm fixtureRateLimiter
    { data := [("key", ⟨.fin 0, .fin 10, .fin 1, 0⟩)], maxSize := 10 } 0 "key" (Float64.fin 1) hl
  rw [hload] at hsteps
  simp only [Option.getD_some, Option.isNone_some, Bool.false_eq_true, if_false, hrej] at hsteps
  refine ⟨by rw [hload], ?_, ?_⟩
  · rw [herr.1]
    simp
  · rw [hsteps]
    rfl

end RateLimiter

end RateLimiter

